import Mathlib

/-!
# netpool: a bounded pool of reusable network connections

A shallow embedding of `netpool/pool.go` and `netpool/conn.go`.

* Go pointers (`*ConnPool`, `*Conn`) are addresses into a `World`.
* `net.Conn` interface values are `NetConn`: the nil interface, a connection of a
  foreign concrete type (identified by a number), or a `*Conn` wrapper.
* The buffered channel `conns` is a FIFO list with a `closed` flag; its capacity is
  `initSize`, the argument of `make`. `make` panics when that argument is more than the
  machine can allocate (`World.chanCap`) or than an `int` can hold (`maxInt`).
* `sync.Mutex` is the Boolean `locked`; locking a held mutex blocks for ever (a single
  goroutine runs each call to completion).
* Everything the program does to the outside is appended to `World.trace`.
* Go's `int` is modelled by `Int`: every counter here moves by one per call.
* A call either returns, blocks for ever, panics, or exhausts the recursion fuel. Fuel
  bounds the nesting of `Close` calls made through the `net.Conn` interface and the
  iterations of the loop in `(*ConnPool).Close`; a result stated for every fuel above a bound
  is a result of the program.
-/

namespace Netpool

/-! ## The program -/

/-- An `error` value made by `errors.New` or `fmt.Errorf`, identified by its message. -/
abbrev Err := String

/-- A value of interface type `net.Conn`. -/
inductive NetConn where
  /-- The nil interface value. -/
  | nil
  /-- A connection whose concrete type is not `*Conn`. -/
  | raw (id : Nat)
  /-- A `*Conn` at address `addr`, whose embedded field `Conn` holds `inner`. -/
  | conn (addr : Nat) (inner : NetConn)
  deriving DecidableEq

/-- What a call does that is visible from outside the pool's own fields. -/
inductive Event where
  /-- Mutex `lock` of the pool at `p` acquired. -/
  | lock (p : Nat)
  /-- Mutex `lock` of the pool at `p` released. -/
  | unlock (p : Nat)
  /-- Invocation number `k` (from 0) of `connCreator` of the pool at `p`. -/
  | dial (p : Nat) (k : Nat)
  /-- Method `Close` called on the foreign connection `id`. -/
  | close (id : Nat)
  /-- Diagnostic line written by `fmt.Println`. -/
  | print
  deriving DecidableEq

/-- The struct `ConnPool`. -/
@[ext]
structure ConnPool where
  /-- Field `lock`: whether the mutex is held. -/
  locked : Bool
  /-- Field `conns`: the values buffered in the channel, oldest first. -/
  conns : List NetConn
  /-- Field `conns`: whether the channel has been closed. -/
  closed : Bool
  /-- Field `initSize`, also the capacity of `conns`. -/
  initSize : Int
  /-- Field `cnt`. -/
  cnt : Int
  /-- Field `valid`. -/
  valid : Bool
  /-- Field `connCreator`: the result of its invocation number `k`. -/
  connCreator : Nat → NetConn × Option Err
  /-- How many times `connCreator` has been invoked through this pool. -/
  dialed : Nat

instance : Inhabited ConnPool :=
  ⟨{ locked := false, conns := [], closed := false, initSize := 0, cnt := 0,
     valid := false, connCreator := fun _ => (NetConn.nil, none), dialed := 0 }⟩

/-- The heap and the environment. -/
@[ext]
structure World where
  /-- The `ConnPool` stored at each address. -/
  pools : Nat → ConnPool
  /-- The next unused `ConnPool` address. -/
  nextPool : Nat
  /-- Field `pool` of the `Conn` stored at each address (`none` is the nil pointer). -/
  poolOf : Nat → Option Nat
  /-- The next unused `Conn` address. -/
  nextConn : Nat
  /-- What `Close` of foreign connection `id` returns when it was closed `k` times before. -/
  closeResult : Nat → Nat → Option Err
  /-- The largest capacity for which `make(chan net.Conn, n)` finds memory on this machine. -/
  chanCap : Nat
  /-- Everything done so far, oldest first. -/
  trace : List Event

/-- How a call ends. -/
inductive Res (α : Type) where
  /-- The call returned `val`. -/
  | ret (val : α) (w : World)
  /-- The goroutine waits for ever on a channel or on a mutex. -/
  | blocked (w : World)
  /-- A run-time panic. -/
  | crash (w : World)
  /-- The recursion fuel of the model ran out. -/
  | timeout

/-- A Go computation. -/
def Go (α : Type) : Type := World → Res α

/-- Sequencing of Go computations. -/
def Go.bind {α β : Type} (m : Go α) (f : α → Go β) : Go β := fun w =>
  match m w with
  | .ret a w1 => f a w1
  | .blocked w1 => .blocked w1
  | .crash w1 => .crash w1
  | .timeout => .timeout

instance : Monad Go where
  pure a := fun w => .ret a w
  bind := Go.bind

/-- Wait for ever. -/
def block {α : Type} : Go α := fun w => .blocked w

/-- Panic. -/
def crash {α : Type} : Go α := fun w => .crash w

/-- Out of fuel. -/
def timeout {α : Type} : Go α := fun _ => .timeout

/-- Read the struct at `p`. -/
def getPool (p : Nat) : Go ConnPool := fun w => .ret (w.pools p) w

/-- Update the struct at `p`. -/
def modifyPool (p : Nat) (f : ConnPool → ConnPool) : Go Unit := fun w =>
  .ret () { w with pools := Function.update w.pools p (f (w.pools p)) }

/-- Append to the trace. -/
def emit (e : Event) : Go Unit := fun w => .ret () { w with trace := w.trace ++ [e] }

/-- Read field `pool` of the `Conn` at `a`. -/
def getPoolOf (a : Nat) : Go (Option Nat) := fun w => .ret (w.poolOf a) w

/-- Write field `pool` of the `Conn` at `a`. -/
def setPoolOf (a : Nat) (v : Option Nat) : Go Unit := fun w =>
  .ret () { w with poolOf := Function.update w.poolOf a v }

/-- `p.lock.Lock()`. -/
def lock (p : Nat) : Go Unit := do
  let s ← getPool p
  if s.locked then block
  else do
    modifyPool p (fun s => { s with locked := true })
    emit (.lock p)

/-- `p.lock.Unlock()`. -/
def unlock (p : Nat) : Go Unit := do
  let s ← getPool p
  if s.locked then do
    modifyPool p (fun s => { s with locked := false })
    emit (.unlock p)
  else crash

/-- `p.conns <- c`. -/
def chanSend (p : Nat) (c : NetConn) : Go Unit := do
  let s ← getPool p
  if s.closed then crash
  else if s.conns.length < s.initSize.toNat then
    modifyPool p (fun s => { s with conns := s.conns ++ [c] })
  else block

/-- `select { case p.conns <- c: true; default: false }`. -/
def chanTrySend (p : Nat) (c : NetConn) : Go Bool := do
  let s ← getPool p
  if s.closed then crash
  else if s.conns.length < s.initSize.toNat then do
    modifyPool p (fun s => { s with conns := s.conns ++ [c] })
    return true
  else return false

/-- `<-p.conns`. -/
def chanRecv (p : Nat) : Go NetConn := do
  let s ← getPool p
  match s.conns with
  | c :: rest => do
    modifyPool p (fun s => { s with conns := rest })
    return c
  | [] => if s.closed then return NetConn.nil else block

/-- `close(p.conns)`. -/
def chanClose (p : Nat) : Go Unit := do
  let s ← getPool p
  if s.closed then crash
  else modifyPool p (fun s => { s with closed := true })

/-- `(p *ConnPool) IsValid`. -/
def ConnPool.IsValid (p : Nat) : Go Bool := do
  lock p
  let s ← getPool p
  unlock p
  return s.valid

/-- `(p *ConnPool) Len`. -/
def ConnPool.Len (p : Nat) : Go Int := do
  lock p
  let s ← getPool p
  unlock p
  return (s.conns.length : Int)

/-- `p.connCreator()`. -/
def callCreator (p : Nat) : Go (NetConn × Option Err) := do
  let s ← getPool p
  modifyPool p (fun s => { s with dialed := s.dialed + 1 })
  emit (.dial p s.dialed)
  return s.connCreator s.dialed

/-- The message of `fmt.Errorf("Reached the cap limit of the pool %d", n)`. -/
def capLimit (n : Int) : Err := "Reached the cap limit of the pool " ++ toString n

/-- `(p *ConnPool) createConn`. -/
def ConnPool.createConn (p : Nat) : Go (NetConn × Option Err) := do
  lock p
  let s ← getPool p
  if s.cnt ≥ s.initSize then do
    unlock p
    return (NetConn.nil, some (capLimit s.initSize))
  else do
    let r ← callCreator p
    if r.2.isSome then do
      unlock p
      return (NetConn.nil, r.2)
    else do
      modifyPool p (fun s => { s with cnt := s.cnt + 1 })
      unlock p
      return (r.1, none)

/-- The loop `for i := 0; i < initSize; i++` of `CreatePool`, from index `i` on. -/
def CreatePool.loop (p : Nat) (initSize : Int) : Nat → Int → Go (Option Nat × Option Err)
  | 0, i => if i < initSize then timeout else return (some p, none)
  | fuel + 1, i =>
    if i < initSize then do
      let r ← ConnPool.createConn p
      if r.2.isSome then return (none, r.2)
      else do
        chanSend p r.1
        CreatePool.loop p initSize fuel (i + 1)
    else return (some p, none)

/-- `&ConnPool{...}`: store a new struct at a fresh address. -/
def newPool (s : ConnPool) : Go Nat := fun w =>
  .ret w.nextPool { w with pools := Function.update w.pools w.nextPool s,
                           nextPool := w.nextPool + 1 }

/-- The largest value of type `int`, which is taken to be 64 bits wide. -/
def maxInt : Int := 9223372036854775807

/-- `make(chan net.Conn, n)`: a run-time panic when `n` is negative, is no `int`, or asks for
more memory than there is. -/
def makeChan (n : Int) : Go Unit := fun w =>
  if 0 ≤ n ∧ n ≤ maxInt ∧ n.toNat ≤ w.chanCap then .ret () w else .crash w

/-- `CreatePool`. -/
def CreatePool (initSize : Int) (connCreator : Nat → NetConn × Option Err) :
    Go (Option Nat × Option Err) := do
  if initSize < 1 then return (none, some "invalid pool size")
  else do
    makeChan initSize
    let p ← newPool { locked := false, conns := [], closed := false, initSize := initSize,
                      cnt := 0, valid := true, connCreator := connCreator, dialed := 0 }
    CreatePool.loop p initSize initSize.toNat 0

/-- `WrapConn`: a new `Conn` at a fresh address. -/
def WrapConn (c : NetConn) (p : Nat) : Go NetConn := fun w =>
  .ret (NetConn.conn w.nextConn c)
    { w with poolOf := Function.update w.poolOf w.nextConn (some p),
             nextConn := w.nextConn + 1 }

/-- `(p *ConnPool) Get`. -/
def ConnPool.Get (p : Nat) : Go (NetConn × Option Err) := do
  if (← ConnPool.IsValid p) == false then return (NetConn.nil, some "Invalid Pool")
  else do
    let c ← chanRecv p
    let w ← WrapConn c p
    return (w, none)

/-- `Close` of the foreign connection `id`. -/
def rawClose (id : Nat) : Go (Option Err) := fun w =>
  .ret (w.closeResult id (w.trace.count (Event.close id)))
    { w with trace := w.trace ++ [Event.close id] }

/-- `(p *ConnPool) Recycle`, with `close c` standing for the interface call `c.Close()`. -/
def ConnPool.RecycleWith (close : NetConn → Go (Option Err)) (p : Nat) (c : NetConn) :
    Go (Option Err) := do
  if (← ConnPool.IsValid p) == false then return some "Invalid Pool"
  else if c = NetConn.nil then do
    lock p
    modifyPool p (fun s => { s with cnt := s.cnt - 1 })
    unlock p
    return some "Closed Conn cannot be recycled"
  else do
    emit Event.print
    if (← chanTrySend p c) then return none
    else close c

/-- `(conn *Conn) Close`, with `close c` standing for the interface call `c.Close()`. -/
def Conn.CloseWith (close : NetConn → Go (Option Err)) (a : Nat) (inner : NetConn) :
    Go (Option Err) := do
  if (← getPoolOf a) = none then do
    let _ ← close (NetConn.conn a inner)
    pure ()
  match (← getPoolOf a) with
  | none => crash
  | some p => ConnPool.RecycleWith close p inner

/-- The interface call `c.Close()`, dispatched on the dynamic type of `c`. -/
def closeConn : Nat → NetConn → Go (Option Err)
  | 0, _ => timeout
  | _ + 1, NetConn.nil => crash
  | _ + 1, NetConn.raw id => rawClose id
  | fuel + 1, NetConn.conn a inner => Conn.CloseWith (closeConn fuel) a inner

/-- `(conn *Conn) Close`. -/
def Conn.Close (fuel : Nat) (a : Nat) (inner : NetConn) : Go (Option Err) :=
  closeConn fuel (NetConn.conn a inner)

/-- `(p *ConnPool) Recycle`. -/
def ConnPool.Recycle (fuel : Nat) (p : Nat) (c : NetConn) : Go (Option Err) :=
  ConnPool.RecycleWith (closeConn fuel) p c

/-- `(p *ConnPool) Destroy`. -/
def ConnPool.Destroy (fuel : Nat) (p : Nat) (c : NetConn) : Go (Option Err) := do
  if (← ConnPool.IsValid p) == false then return some "Closed Pool"
  else do
    lock p
    modifyPool p (fun s => { s with cnt := s.cnt - 1 })
    unlock p
    match c with
    | NetConn.conn a inner => Conn.Close fuel a inner
    | other => closeConn fuel other

/-- `(conn *Conn) Terminate`. -/
def Conn.Terminate (fuel : Nat) (a : Nat) (inner : NetConn) : Go (Option Err) := do
  match (← getPoolOf a) with
  | none => do
    let _ ← Conn.Close fuel a inner
    return some "Orphan connection"
  | some p => do
    let err ← ConnPool.Destroy fuel p inner
    if err.isSome then return err
    else do
      setPoolOf a none
      return none

/-- The loop `for conn := range p.conns { conn.Close() }` of `(p *ConnPool) Close`. -/
def ConnPool.Close.drain (p : Nat) : Nat → Go Unit
  | 0 => timeout
  | fuel + 1 => do
    let s ← getPool p
    match s.conns with
    | c :: rest => do
      modifyPool p (fun s => { s with conns := rest })
      let _ ← closeConn fuel c
      ConnPool.Close.drain p fuel
    | [] => if s.closed then return () else block

/-- `(p *ConnPool) Close`; the deferred `Unlock` runs when the function returns. -/
def ConnPool.Close (fuel : Nat) (p : Nat) : Go (Option Err) := do
  if (← ConnPool.IsValid p) == false then return some "Invalid Pool"
  else do
    lock p
    modifyPool p (fun s => { s with valid := false })
    chanClose p
    ConnPool.Close.drain p fuel
    unlock p
    return none

/-! ## States and predicates used to state the properties -/

/-- The world after one iteration of the loop of `CreatePool` whose dial succeeds. -/
def fillStep (p : Nat) (w : World) : World :=
  { w with
    pools := Function.update w.pools p
      { w.pools p with
        conns := (w.pools p).conns ++ [((w.pools p).connCreator (w.pools p).dialed).1]
        cnt := (w.pools p).cnt + 1
        dialed := (w.pools p).dialed + 1 }
    trace := w.trace ++ [Event.lock p, Event.dial p (w.pools p).dialed, Event.unlock p] }

/-- The world after `j` iterations of the loop of `CreatePool` whose dials succeed. -/
def fillSteps (p : Nat) : Nat → World → World
  | 0, w => w
  | j + 1, w => fillSteps p j (fillStep p w)

/-- The events of the dials number `d`, ..., `d + j - 1` of the pool at `p`. -/
def dialEvents (p d j : Nat) : List Event :=
  (List.range' d j).flatMap (fun k => [Event.lock p, Event.dial p k, Event.unlock p])

/-- A pool that is open for business and at rest between two calls. -/
structure Live (w : World) (p : Nat) : Prop where
  /-- Field `valid` is set. -/
  valid : (w.pools p).valid = true
  /-- The mutex is free. -/
  unlocked : (w.pools p).locked = false
  /-- The channel has not been closed. -/
  chanOpen : (w.pools p).closed = false
  /-- The channel holds no more than its capacity. -/
  bounded : (w.pools p).conns.length ≤ (w.pools p).initSize.toNat

/-- The world in which `CreatePool n f`, started in `w`, enters its loop. -/
def freshWorld (w : World) (n : Int) (f : Nat → NetConn × Option Err) : World :=
  { w with
    pools := Function.update w.pools w.nextPool
      { locked := false, conns := [], closed := false, initSize := n, cnt := 0, valid := true,
        connCreator := f, dialed := 0 }
    nextPool := w.nextPool + 1 }

/-- The fields of a `ConnPool` that no call on a connection writes. -/
def SameShape (s t : ConnPool) : Prop :=
  t.valid = s.valid ∧ t.locked = s.locked ∧ t.closed = s.closed ∧ t.initSize = s.initSize ∧
  t.dialed = s.dialed ∧ t.connCreator = s.connCreator

/-- Every pool keeps its shape from `w` to `w1`. -/
def Frame (w w1 : World) : Prop := ∀ q, SameShape (w.pools q) (w1.pools q)

/-- A pool that has been closed and is at rest between two calls. -/
structure Shut (w : World) (p : Nat) : Prop where
  /-- Field `valid` is cleared. -/
  invalid : (w.pools p).valid = false
  /-- The mutex is free. -/
  unlocked : (w.pools p).locked = false

/-- A world with nothing in it, in which every `Close` of a foreign connection succeeds. -/
def world0 : World :=
  { pools := fun _ => default, nextPool := 0, poolOf := fun _ => none, nextConn := 0,
    closeResult := fun _ _ => none, chanCap := 4096, trace := [] }

/-- A factory whose call number `k` dials the foreign connection `k`. -/
def dialRaw : Nat → NetConn × Option Err := fun k => (NetConn.raw k, none)

/-- A factory like `dialRaw` whose second call fails. -/
def dialFlaky : Nat → NetConn × Option Err := fun k =>
  if k = 1 then (NetConn.nil, some "connection refused") else (NetConn.raw k, none)

/-- The pool built by `CreatePool(2, dialRaw)`. -/
def twoPool : ConnPool :=
  { locked := false, conns := [NetConn.raw 0, NetConn.raw 1], closed := false, initSize := 2,
    cnt := 2, valid := true, connCreator := dialRaw, dialed := 2 }

/-- The world after `CreatePool(2, dialRaw)` in `world0`. -/
def liveWorld : World :=
  { world0 with
    pools := Function.update world0.pools 0 twoPool
    nextPool := 1
    trace := dialEvents 0 0 2 }

/-- The world after a `Get` on the pool of `liveWorld`. -/
def lentWorld : World :=
  { liveWorld with
    pools := Function.update liveWorld.pools 0 { liveWorld.pools 0 with conns := [NetConn.raw 1] }
    poolOf := Function.update liveWorld.poolOf liveWorld.nextConn (some 0)
    nextConn := liveWorld.nextConn + 1
    trace := liveWorld.trace ++ [Event.lock 0, Event.unlock 0] }

/-- The world after `Close` on the pool of `liveWorld`. -/
def shutWorld : World :=
  { liveWorld with
    pools := Function.update liveWorld.pools 0
      { liveWorld.pools 0 with valid := false, closed := true, conns := [] }
    trace := liveWorld.trace ++ [Event.lock 0, Event.unlock 0, Event.lock 0]
      ++ [0, 1].map Event.close ++ [Event.unlock 0] }

/-! ## Further states, call sequences and predicates -/

/-- The world after a successful `Terminate` on the wrapper that `Get` returned in
`lentWorld`: connection 0 is closed and the wrapper at address 0 has lost its pool. -/
def orphanWorld : World :=
  { lentWorld with
    pools := Function.update lentWorld.pools 0
      { lentWorld.pools 0 with cnt := (lentWorld.pools 0).cnt - 1 }
    poolOf := Function.update lentWorld.poolOf 0 none
    trace := lentWorld.trace ++
      [Event.lock 0, Event.unlock 0, Event.lock 0, Event.unlock 0, Event.close 0] }

/-- A world like `lentWorld` in which every `Close` of a foreign connection fails. -/
def brokenWorld : World :=
  { lentWorld with closeResult := fun _ _ => some "broken pipe" }

/-- The world after a second `Get` on the pool of `lentWorld`: both connections are lent. -/
def emptyWorld : World :=
  { lentWorld with
    pools := Function.update lentWorld.pools 0 { lentWorld.pools 0 with conns := [] }
    poolOf := Function.update lentWorld.poolOf lentWorld.nextConn (some 0)
    nextConn := lentWorld.nextConn + 1
    trace := lentWorld.trace ++ [Event.lock 0, Event.unlock 0] }

/-- `P` holds of the world in which a call ended, if it ended in one. -/
def Res.holds {α : Type} (P : World → Prop) : Res α → Prop
  | Res.ret _ w => P w
  | Res.blocked w => P w
  | Res.crash w => P w
  | Res.timeout => True

/-- The call ended in the world `w1`: it returned there, or blocked for ever there, or
panicked there. -/
def Res.endsIn {α : Type} (r : Res α) (w1 : World) : Prop :=
  (∃ a, r = Res.ret a w1) ∨ r = Res.blocked w1 ∨ r = Res.crash w1

/-- However `m` ends, the world it ends in is related by `R` to the world it started in. -/
def Go.Keeps {α : Type} (R : World → World → Prop) (m : Go α) : Prop :=
  ∀ w, Res.holds (R w) (m w)

/-- Whether an event is an invocation of a factory. -/
def Event.isDial : Event → Bool
  | Event.dial _ _ => true
  | _ => false

/-- From `w` to `w1` no factory was invoked, no pool changed its factory or its capacity, and
no `cnt` went up. -/
structure Calm (w w1 : World) : Prop where
  /-- The number of invocations of each factory is the same. -/
  dialed : ∀ q, (w1.pools q).dialed = (w.pools q).dialed
  /-- The factories are the same. -/
  creator : ∀ q, (w1.pools q).connCreator = (w.pools q).connCreator
  /-- The capacities are the same. -/
  capacity : ∀ q, (w1.pools q).initSize = (w.pools q).initSize
  /-- No `cnt` is higher. -/
  cnt : ∀ q, (w1.pools q).cnt ≤ (w.pools q).cnt
  /-- The dial events are the same. -/
  dials : w1.trace.filter Event.isDial = w.trace.filter Event.isDial

/-- A call of an exported method on the pool at hand, or on a wrapper. -/
inductive Call where
  /-- `p.Get()`. -/
  | get
  /-- `p.Recycle(c)`. -/
  | recycle (c : NetConn)
  /-- `p.Destroy(c)`. -/
  | destroy (c : NetConn)
  /-- `p.Close()`. -/
  | close
  /-- `p.Len()`. -/
  | len
  /-- `p.IsValid()`. -/
  | isValid
  /-- `Close()` on the `*Conn` at address `a`, whose embedded field holds `inner`. -/
  | connClose (a : Nat) (inner : NetConn)
  /-- `Terminate()` on the `*Conn` at address `a`, whose embedded field holds `inner`. -/
  | terminate (a : Nat) (inner : NetConn)

/-- Make one call on the pool at `p` and drop what it returns. -/
def Call.run (fuel p : Nat) : Call → Go Unit
  | Call.get => do let _ ← ConnPool.Get p; pure ()
  | Call.recycle c => do let _ ← ConnPool.Recycle fuel p c; pure ()
  | Call.destroy c => do let _ ← ConnPool.Destroy fuel p c; pure ()
  | Call.close => do let _ ← ConnPool.Close fuel p; pure ()
  | Call.len => do let _ ← ConnPool.Len p; pure ()
  | Call.isValid => do let _ ← ConnPool.IsValid p; pure ()
  | Call.connClose a inner => do let _ ← Conn.Close fuel a inner; pure ()
  | Call.terminate a inner => do let _ ← Conn.Terminate fuel a inner; pure ()

/-- Make the calls one after the other, each when the one before has returned. -/
def runCalls (fuel p : Nat) : List Call → Go Unit
  | [] => pure ()
  | c :: cs => do
    Call.run fuel p c
    runCalls fuel p cs

/-- The world after `Recycle(nil)` on the pool at `p`, when that pool is valid. -/
def afterNil (p : Nat) (w : World) : World :=
  { w with
    pools := Function.update w.pools p { w.pools p with cnt := (w.pools p).cnt - 1 }
    trace := w.trace ++ [Event.lock p, Event.unlock p, Event.lock p, Event.unlock p] }

/-- The connections that the factory of the pool at `p` has handed to the pool so far. -/
def created (w : World) (p : Nat) : List NetConn :=
  ((List.range (w.pools p).dialed).filter
    (fun k => ((w.pools p).connCreator k).2.isNone)).map (fun k => ((w.pools p).connCreator k).1)

/-- Whether `Close` has been called on the foreign connection `c` (never, for other values). -/
def wasClosed (w : World) : NetConn → Bool
  | NetConn.raw id => decide (0 < w.trace.count (Event.close id))
  | _ => false

/-- How many connections created by the pool at `p` have not been closed. -/
def openCount (w : World) (p : Nat) : Nat :=
  ((created w p).filter (fun c => !(wasClosed w c))).length

/-- Read the events `es` with the mutex of the pool at `p` held or not, as `held` says:
`none` when a connection is closed or a factory is invoked while the mutex is held, and
otherwise whether the mutex is held at the end. -/
def scanLock (p : Nat) : Bool → List Event → Option Bool
  | held, [] => some held
  | held, Event.lock q :: es => scanLock p (if q = p then true else held) es
  | held, Event.unlock q :: es => scanLock p (if q = p then false else held) es
  | held, Event.dial _ _ :: es => if held then none else scanLock p held es
  | held, Event.close _ :: es => if held then none else scanLock p held es
  | held, Event.print :: es => scanLock p held es

/-- Events in which every `lock` is followed at once by the `unlock` of the same mutex, and
no factory is invoked. -/
inductive Tidy : List Event → Prop where
  /-- No event. -/
  | nil : Tidy []
  /-- A mutex taken and released with nothing in between. -/
  | held (q : Nat) (es : List Event) : Tidy es → Tidy (Event.lock q :: Event.unlock q :: es)
  /-- A diagnostic line. -/
  | print (es : List Event) : Tidy es → Tidy (Event.print :: es)
  /-- A `Close` of a foreign connection. -/
  | close (id : Nat) (es : List Event) : Tidy es → Tidy (Event.close id :: es)

/-- From `w` to `w1` the trace grew by tidy events. -/
def Paired (w w1 : World) : Prop := ∃ es, w1.trace = w.trace ++ es ∧ Tidy es

/-- Whether a `net.Conn` value is a foreign connection. -/
def NetConn.isRaw : NetConn → Bool
  | NetConn.raw _ => true
  | _ => false

/-- A call made by a borrower: `Get`, or `Close` or `Terminate` on the `*Conn` at address `a`
whose embedded field holds `c`. -/
inductive Lend where
  /-- `p.Get()`. -/
  | get
  /-- `Close()` on a wrapper. -/
  | close (a : Nat) (c : NetConn)
  /-- `Terminate()` on a wrapper. -/
  | terminate (a : Nat) (c : NetConn)

/-- One call of a borrower on the pool at `p`. Next to the world, `out` lists the wrappers
that `Get` has returned and on which neither `Close` nor `Terminate` has been called yet.
The result is `none` when the call does not return, or when it is a `Close` or `Terminate`
on a wrapper that is not in `out`. -/
def lendStep (fuel p : Nat) :
    Lend → World × List (Nat × NetConn) → Option (World × List (Nat × NetConn))
  | Lend.get, (w, out) =>
    match ConnPool.Get p w with
    | Res.ret (NetConn.conn a c, none) w1 => some (w1, out ++ [(a, c)])
    | _ => none
  | Lend.close a c, (w, out) =>
    if (a, c) ∈ out then
      match Conn.Close fuel a c w with
      | Res.ret _ w1 => some (w1, out.erase (a, c))
      | _ => none
    else none
  | Lend.terminate a c, (w, out) =>
    if (a, c) ∈ out then
      match Conn.Terminate fuel a c w with
      | Res.ret _ w1 => some (w1, out.erase (a, c))
      | _ => none
    else none

/-- The calls of the borrowers, one after the other. -/
def lendRun (fuel p : Nat) :
    List Lend → World × List (Nat × NetConn) → Option (World × List (Nat × NetConn))
  | [], s => some s
  | c :: cs, s =>
    match lendStep fuel p c s with
    | some s1 => lendRun fuel p cs s1
    | none => none

/-- What holds between calls of borrowers who use each wrapper once: the pool at `p` is
live, the wrappers in `out` are bound to it and have distinct addresses, and the connections
in the channel and in the wrappers of `out` are foreign, pairwise distinct and no more than
the capacity. -/
structure Lending (p : Nat) (w : World) (out : List (Nat × NetConn)) : Prop where
  /-- The pool is live. -/
  live : Live w p
  /-- Every wrapper lent is bound to the pool and has an address already allocated. -/
  bound : ∀ x ∈ out, w.poolOf x.1 = some p ∧ x.1 < w.nextConn
  /-- The wrappers lent have distinct addresses. -/
  addrs : (out.map Prod.fst).Nodup
  /-- Idle and lent connections are foreign connections. -/
  raw : ∀ c ∈ (w.pools p).conns ++ out.map Prod.snd, c.isRaw = true
  /-- No connection is idle twice, lent twice, or both idle and lent. -/
  distinct : ((w.pools p).conns ++ out.map Prod.snd).Nodup
  /-- Idle and lent connections fit the capacity. -/
  room : (w.pools p).conns.length + out.length ≤ (w.pools p).initSize.toNat

/-- The world after a `Recycle(c)` on the pool at `p` that found room in the channel. -/
def recycled (p : Nat) (c : NetConn) (w : World) : World :=
  { w with
    pools := Function.update w.pools p { w.pools p with conns := (w.pools p).conns ++ [c] }
    trace := w.trace ++ [Event.lock p, Event.unlock p, Event.print] }

/-- A factory that reports success and hands out the nil connection. -/
def dialNil : Nat → NetConn × Option Err := fun _ => (NetConn.nil, none)

/-- The world after `CreatePool(1, dialNil)` in `world0`. -/
def nilWorld : World :=
  { world0 with
    pools := Function.update world0.pools 0
      { locked := false, conns := [NetConn.nil], closed := false, initSize := 1, cnt := 1,
        valid := true, connCreator := dialNil, dialed := 1 }
    nextPool := 1
    trace := dialEvents 0 0 1 }

/-- The world after a `Get` on the pool at `p` that found a connection in the channel. -/
def afterGet (p : Nat) (w : World) : World :=
  { w with
    pools := Function.update w.pools p { w.pools p with conns := (w.pools p).conns.tail }
    poolOf := Function.update w.poolOf w.nextConn (some p)
    nextConn := w.nextConn + 1
    trace := w.trace ++ [Event.lock p, Event.unlock p] }

/-- The world in which `Close` on the live pool at `p` starts to drain the channel. -/
def closing (p : Nat) (w : World) : World :=
  { w with
    pools := Function.update w.pools p
      { w.pools p with valid := false, closed := true, locked := true }
    trace := w.trace ++ [Event.lock p, Event.unlock p, Event.lock p] }

/-- The world in which the wrapper at `a` has lost its pool. -/
def unbound (a : Nat) (w : World) : World :=
  { w with poolOf := Function.update w.poolOf a none }

/-- The world after `Recycle` of the wrapper that `Get` returned in `lentWorld`, followed by
two more `Get`s: the second of them hands out that wrapper inside a new wrapper. -/
def rewrapWorld : World :=
  afterGet 0 (afterGet 0 (recycled 0 (NetConn.conn 0 (NetConn.raw 0)) lentWorld))

/-- The world in which a `Recycle` on the pool at `p` that found the channel full calls
`Close` on its argument. -/
def refused (p : Nat) (w : World) : World :=
  { w with trace := w.trace ++ [Event.lock p, Event.unlock p, Event.print] }

/-- From `w` to `w1` no wrapper was made, none changed its pool, and no channel holds more
than one value more. -/
structure Grows (w w1 : World) : Prop where
  /-- Field `pool` of every wrapper is the same. -/
  poolOf : w1.poolOf = w.poolOf
  /-- No wrapper was made. -/
  nextConn : w1.nextConn = w.nextConn
  /-- Every channel holds at most one value more. -/
  conns : ∀ q, (w1.pools q).conns.length ≤ (w.pools q).conns.length + 1

/-- What holds between calls of borrowers who use each wrapper once, whatever the
connections are: the pool at `p` is live with capacity `n`, the wrappers in `out` are bound
to it and have distinct addresses, and the connections in the channel and the wrappers of
`out` are no more than the capacity. -/
structure Lent (p : Nat) (n : Int) (w : World) (out : List (Nat × NetConn)) : Prop where
  /-- The pool is live. -/
  live : Live w p
  /-- The capacity is `n`. -/
  cap : (w.pools p).initSize = n
  /-- Every wrapper lent is bound to the pool and has an address already allocated. -/
  bound : ∀ x ∈ out, w.poolOf x.1 = some p ∧ x.1 < w.nextConn
  /-- The wrappers lent have distinct addresses. -/
  addrs : (out.map Prod.fst).Nodup
  /-- Idle connections and wrappers lent fit the capacity. -/
  room : (w.pools p).conns.length + out.length ≤ n.toNat

/-! ## Running the model: auxiliary lemmas -/

@[simp] theorem Go.pure_run {α : Type} (a : α) (w : World) : (pure a : Go α) w = Res.ret a w := rfl

@[simp] theorem Go.bind_run {α β : Type} (m : Go α) (f : α → Go β) (w : World) :
    (m >>= f) w = Go.bind m f w := rfl

@[simp] theorem Go.ite_run {α : Type} (c : Prop) [Decidable c] (a b : Go α) (w : World) :
    (if c then a else b) w = if c then a w else b w := by
  split <;> rfl

theorem ConnPool.eta_unlocked (s : ConnPool) (h : s.locked = false) :
    ConnPool.mk false s.conns s.closed s.initSize s.cnt s.valid s.connCreator s.dialed = s := by
  cases s; simp_all

theorem IsValid_run (p : Nat) (w : World) (h : (w.pools p).locked = false) :
    ConnPool.IsValid p w
      = Res.ret (w.pools p).valid { w with trace := w.trace ++ [Event.lock p, Event.unlock p] } := by
  simp [ConnPool.IsValid, lock, unlock, getPool, modifyPool, emit, Go.bind, h, block, crash, ConnPool.eta_unlocked]

theorem Len_run (p : Nat) (w : World) (h : (w.pools p).locked = false) :
    ConnPool.Len p w
      = Res.ret ((w.pools p).conns.length : Int) { w with trace := w.trace ++ [Event.lock p, Event.unlock p] } := by
  simp [ConnPool.Len, lock, unlock, getPool, modifyPool, emit, Go.bind, h, block, crash, ConnPool.eta_unlocked]

theorem createConn_ok (p : Nat) (w : World) (h : (w.pools p).locked = false)
    (hc : (w.pools p).cnt < (w.pools p).initSize)
    (hf : ((w.pools p).connCreator (w.pools p).dialed).2 = none) :
    ConnPool.createConn p w
      = Res.ret (((w.pools p).connCreator (w.pools p).dialed).1, none)
          { w with
            pools := Function.update w.pools p
              { w.pools p with cnt := (w.pools p).cnt + 1, dialed := (w.pools p).dialed + 1 }
            trace := w.trace ++ [Event.lock p, Event.dial p (w.pools p).dialed, Event.unlock p] } := by
  simp [ConnPool.createConn, callCreator, lock, unlock, getPool, modifyPool, emit, Go.bind, h, block, crash, not_le.mpr hc, hf]

theorem createConn_fail (p : Nat) (w : World) (e : Err) (h : (w.pools p).locked = false)
    (hc : (w.pools p).cnt < (w.pools p).initSize)
    (hf : ((w.pools p).connCreator (w.pools p).dialed).2 = some e) :
    ConnPool.createConn p w
      = Res.ret (NetConn.nil, some e)
          { w with
            pools := Function.update w.pools p
              { w.pools p with dialed := (w.pools p).dialed + 1 }
            trace := w.trace ++ [Event.lock p, Event.dial p (w.pools p).dialed, Event.unlock p] } := by
  simp [ConnPool.createConn, callCreator, lock, unlock, getPool, modifyPool, emit, Go.bind, h, block, crash, not_le.mpr hc, hf]

theorem chanSend_ok (p : Nat) (c : NetConn) (w : World) (hcl : (w.pools p).closed = false)
    (hlen : (w.pools p).conns.length < (w.pools p).initSize.toNat) :
    chanSend p c w = Res.ret ()
      { w with pools := Function.update w.pools p
                 { w.pools p with conns := (w.pools p).conns ++ [c] } } := by
  simp [chanSend, getPool, modifyPool, Go.bind, hcl, Int.lt_toNat.mp hlen, crash, block]

theorem loop_step (p : Nat) (n : Int) (fuel : Nat) (i : Int) (w : World)
    (hi : i < n)
    (hl : (w.pools p).locked = false) (hcl : (w.pools p).closed = false)
    (hc : (w.pools p).cnt < (w.pools p).initSize)
    (hlen : (w.pools p).conns.length < (w.pools p).initSize.toNat)
    (hf : ((w.pools p).connCreator (w.pools p).dialed).2 = none) :
    CreatePool.loop p n (fuel + 1) i w = CreatePool.loop p n fuel (i + 1) (fillStep p w) := by
  rw [CreatePool.loop]
  simp only [hi, if_true, Go.bind_run, Go.bind, createConn_ok p w hl hc hf, Go.ite_run]
  rw [chanSend_ok _ _ _ (by simpa using hcl) (by simpa using hlen)]
  simp [fillStep]

theorem fillSteps_frame (p : Nat) (j : Nat) (w : World) :
    (fillSteps p j w).nextPool = w.nextPool ∧ (fillSteps p j w).poolOf = w.poolOf ∧
    (fillSteps p j w).nextConn = w.nextConn ∧ (fillSteps p j w).closeResult = w.closeResult ∧
    (∀ q, q ≠ p → (fillSteps p j w).pools q = w.pools q) := by
  induction j generalizing w with
  | zero => simp [fillSteps]
  | succ j ih =>
    obtain ⟨h1, h2, h3, h4, h5⟩ := ih (fillStep p w)
    refine ⟨h1, h2, h3, h4, fun q hq => ?_⟩
    rw [fillSteps, h5 q hq]
    simp [fillStep, hq]

theorem fillSteps_chanCap (p : Nat) (j : Nat) (w : World) :
    (fillSteps p j w).chanCap = w.chanCap := by
  induction j generalizing w with
  | zero => rfl
  | succ j ih => rw [fillSteps, ih]; rfl

theorem fillSteps_pool (p : Nat) (j : Nat) (w : World) :
    (fillSteps p j w).pools p =
      { w.pools p with
        conns := (w.pools p).conns ++
          (List.range' (w.pools p).dialed j).map (fun k => ((w.pools p).connCreator k).1)
        cnt := (w.pools p).cnt + j
        dialed := (w.pools p).dialed + j } ∧
    (fillSteps p j w).trace = w.trace ++ dialEvents p (w.pools p).dialed j := by
  induction j generalizing w with
  | zero => simp [fillSteps, dialEvents]
  | succ j ih =>
    obtain ⟨h1, h2⟩ := ih (fillStep p w)
    rw [fillSteps, h1, h2]
    simp [fillStep, dialEvents, List.range'_succ, add_assoc, add_comm 1]
    omega

theorem loop_steps (p : Nat) (n : Int) (j : Nat) :
    ∀ (fuel : Nat) (i : Int) (w : World),
      i + j ≤ n →
      (w.pools p).locked = false → (w.pools p).closed = false →
      (w.pools p).initSize = n → (w.pools p).cnt = i →
      (w.pools p).conns.length + j ≤ n.toNat →
      (∀ k, k < j → ((w.pools p).connCreator ((w.pools p).dialed + k)).2 = none) →
      CreatePool.loop p n (fuel + j) i w = CreatePool.loop p n fuel (i + j) (fillSteps p j w) := by
  induction j with
  | zero => intro fuel i w _ _ _ _ _ _ _; simp [fillSteps]
  | succ j ih =>
    intro fuel i w hij hl hcl hn hc hlen hf
    have hi : i < n := by omega
    rw [← Nat.add_assoc, loop_step p n (fuel + j) i w hi hl hcl (by omega) (by omega)
      (by simpa using hf 0 (Nat.succ_pos j))]
    rw [ih fuel (i + 1) (fillStep p w) (by omega) (by simp [fillStep, hl])
      (by simp [fillStep, hcl]) (by simp [fillStep, hn]) (by simp [fillStep, hc])
      (by simp [fillStep]; omega)
      (by
        intro k hk
        have := hf (k + 1) (by omega)
        simpa [fillStep, add_assoc, add_comm 1] using this)]
    rw [fillSteps]
    congr 1
    push_cast
    ring

theorem newPool_run (s : ConnPool) (w : World) :
    newPool s w = Res.ret w.nextPool
      { w with pools := Function.update w.pools w.nextPool s, nextPool := w.nextPool + 1 } := rfl

theorem makeChan_run (n : Int) (w : World) (hn : 1 ≤ n) (hi : n ≤ maxInt)
    (hm : n.toNat ≤ w.chanCap) : makeChan n w = Res.ret () w := by
  simp [makeChan, hi, hm]
  omega

theorem makeChan_crash (n : Int) (w : World) (h : maxInt < n ∨ w.chanCap < n.toNat) :
    makeChan n w = Res.crash w := by
  have : ¬ (0 ≤ n ∧ n ≤ maxInt ∧ n.toNat ≤ w.chanCap) := by
    rintro ⟨_, h1, h2⟩
    rcases h with h | h <;> omega
  simp only [makeChan, this, if_false]

theorem CreatePool_unfold (w : World) (n : Int) (f : Nat → NetConn × Option Err) (hn : 1 ≤ n)
    (hi : n ≤ maxInt) (hm : n.toNat ≤ w.chanCap) :
    CreatePool n f w = CreatePool.loop w.nextPool n n.toNat 0 (freshWorld w n f) := by
  simp [CreatePool, not_lt.mpr hn, Go.bind, makeChan_run n w hn hi hm, newPool_run, freshWorld]

theorem CreatePool_crash (w : World) (n : Int) (f : Nat → NetConn × Option Err) (hn : 1 ≤ n)
    (h : maxInt < n ∨ w.chanCap < n.toNat) : CreatePool n f w = Res.crash w := by
  simp [CreatePool, not_lt.mpr hn, Go.bind, makeChan_crash n w h]

theorem loop_done (p : Nat) (n : Int) (fuel : Nat) (i : Int) (w : World) (h : n ≤ i) :
    CreatePool.loop p n fuel i w = Res.ret (some p, none) w := by
  cases fuel <;> simp [CreatePool.loop, not_lt.mpr h]

theorem createPool_runs (w : World) (n : Int) (f : Nat → NetConn × Option Err) (j : Nat)
    (hn : 1 ≤ n) (hi : n ≤ maxInt) (hm : n.toNat ≤ w.chanCap) (hj : (j : Int) ≤ n)
    (hf : ∀ k, k < j → (f k).2 = none) :
    CreatePool n f w =
      CreatePool.loop w.nextPool n (n.toNat - j) j (fillSteps w.nextPool j (freshWorld w n f)) := by
  rw [CreatePool_unfold w n f hn hi hm]
  have h := loop_steps w.nextPool n j (n.toNat - j) 0 (freshWorld w n f) (by omega)
    (by simp [freshWorld]) (by simp [freshWorld]) (by simp [freshWorld]) (by simp [freshWorld])
    (by simp [freshWorld]; omega) (by simpa [freshWorld] using hf)
  rw [show n.toNat - j + j = n.toNat by omega, zero_add] at h
  exact h

theorem dialEvents_succ (p d j : Nat) :
    dialEvents p d (j + 1) =
      dialEvents p d j ++ [Event.lock p, Event.dial p (d + j), Event.unlock p] := by
  simp [dialEvents, List.range'_concat]

theorem Get_run (p : Nat) (w : World) (c : NetConn) (rest : List NetConn)
    (hv : (w.pools p).valid = true) (hl : (w.pools p).locked = false)
    (hc : (w.pools p).conns = c :: rest) :
    ConnPool.Get p w = Res.ret (NetConn.conn w.nextConn c, none)
      { w with
        pools := Function.update w.pools p { w.pools p with conns := rest }
        poolOf := Function.update w.poolOf w.nextConn (some p)
        nextConn := w.nextConn + 1
        trace := w.trace ++ [Event.lock p, Event.unlock p] } := by
  simp [ConnPool.Get, IsValid_run p w hl, Go.bind, hv, chanRecv, getPool, hc, modifyPool, WrapConn]

theorem Get_invalid (p : Nat) (w : World)
    (hv : (w.pools p).valid = false) (hl : (w.pools p).locked = false) :
    ConnPool.Get p w = Res.ret (NetConn.nil, some "Invalid Pool")
      { w with trace := w.trace ++ [Event.lock p, Event.unlock p] } := by
  simp [ConnPool.Get, IsValid_run p w hl, Go.bind, hv]

theorem RecycleWith_invalid (close : NetConn → Go (Option Err)) (p : Nat) (c : NetConn) (w : World)
    (hv : (w.pools p).valid = false) (hl : (w.pools p).locked = false) :
    ConnPool.RecycleWith close p c w = Res.ret (some "Invalid Pool")
      { w with trace := w.trace ++ [Event.lock p, Event.unlock p] } := by
  simp [ConnPool.RecycleWith, IsValid_run p w hl, Go.bind, hv]

theorem RecycleWith_nil (close : NetConn → Go (Option Err)) (p : Nat) (w : World)
    (hv : (w.pools p).valid = true) (hl : (w.pools p).locked = false) :
    ConnPool.RecycleWith close p NetConn.nil w = Res.ret (some "Closed Conn cannot be recycled")
      { w with
        pools := Function.update w.pools p { w.pools p with cnt := (w.pools p).cnt - 1 }
        trace := w.trace ++ [Event.lock p, Event.unlock p, Event.lock p, Event.unlock p] } := by
  simp [ConnPool.RecycleWith, IsValid_run p w hl, Go.bind, hv, lock, unlock, getPool, modifyPool,
    emit, hl]

theorem RecycleWith_room (close : NetConn → Go (Option Err)) (p : Nat) (c : NetConn) (w : World)
    (hv : (w.pools p).valid = true) (hl : (w.pools p).locked = false)
    (hcl : (w.pools p).closed = false) (hc : c ≠ NetConn.nil)
    (hroom : (w.pools p).conns.length < (w.pools p).initSize.toNat) :
    ConnPool.RecycleWith close p c w = Res.ret none
      { w with
        pools := Function.update w.pools p { w.pools p with conns := (w.pools p).conns ++ [c] }
        trace := w.trace ++ [Event.lock p, Event.unlock p, Event.print] } := by
  simp [ConnPool.RecycleWith, IsValid_run p w hl, Go.bind, hv, hc, emit, chanTrySend, getPool,
    modifyPool, hcl, Int.lt_toNat.mp hroom]

theorem RecycleWith_full (close : NetConn → Go (Option Err)) (p : Nat) (c : NetConn) (w : World)
    (hv : (w.pools p).valid = true) (hl : (w.pools p).locked = false)
    (hcl : (w.pools p).closed = false) (hc : c ≠ NetConn.nil)
    (hfull : (w.pools p).initSize.toNat ≤ (w.pools p).conns.length) :
    ConnPool.RecycleWith close p c w =
      close c { w with trace := w.trace ++ [Event.lock p, Event.unlock p, Event.print] } := by
  have h : ¬ ((w.pools p).conns.length : Int) < (w.pools p).initSize := by
    rw [← Int.lt_toNat]; omega
  simp [ConnPool.RecycleWith, IsValid_run p w hl, Go.bind, hv, hc, emit, chanTrySend, getPool,
    modifyPool, hcl, h]

theorem closeConn_raw (fuel : Nat) (id : Nat) (w : World) :
    closeConn (fuel + 1) (NetConn.raw id) w =
      Res.ret (w.closeResult id (w.trace.count (Event.close id)))
        { w with trace := w.trace ++ [Event.close id] } := rfl

theorem Destroy_invalid (fuel : Nat) (p : Nat) (c : NetConn) (w : World)
    (hv : (w.pools p).valid = false) (hl : (w.pools p).locked = false) :
    ConnPool.Destroy fuel p c w = Res.ret (some "Closed Pool")
      { w with trace := w.trace ++ [Event.lock p, Event.unlock p] } := by
  simp [ConnPool.Destroy, IsValid_run p w hl, Go.bind, hv]

theorem Destroy_valid (fuel : Nat) (p : Nat) (c : NetConn) (w : World)
    (hv : (w.pools p).valid = true) (hl : (w.pools p).locked = false) :
    ConnPool.Destroy fuel p c w = closeConn fuel c
      { w with
        pools := Function.update w.pools p { w.pools p with cnt := (w.pools p).cnt - 1 }
        trace := w.trace ++ [Event.lock p, Event.unlock p, Event.lock p, Event.unlock p] } := by
  cases c <;>
  simp [ConnPool.Destroy, IsValid_run p w hl, Go.bind, hv, lock, unlock, getPool, modifyPool,
    emit, hl, Conn.Close]

theorem Conn_Close_bound (fuel : Nat) (a p : Nat) (inner : NetConn) (w : World)
    (ha : w.poolOf a = some p) :
    Conn.Close (fuel + 1) a inner w = ConnPool.Recycle fuel p inner w := by
  simp [Conn.Close, closeConn, Conn.CloseWith, getPoolOf, Go.bind, ha, ConnPool.Recycle]

theorem Terminate_bound (fuel : Nat) (a p : Nat) (inner : NetConn) (w : World)
    (ha : w.poolOf a = some p) :
    Conn.Terminate fuel a inner w =
      match ConnPool.Destroy fuel p inner w with
      | Res.ret none w1 => Res.ret none { w1 with poolOf := Function.update w1.poolOf a none }
      | other => other := by
  simp only [Conn.Terminate, getPoolOf, Go.bind_run, Go.bind, ha]
  cases h : ConnPool.Destroy fuel p inner w with
  | ret r w1 => cases r <;> simp [setPoolOf, Go.bind]
  | blocked w1 => rfl
  | crash w1 => rfl
  | timeout => rfl

theorem drain_raws (p : Nat) (ids : List Nat) :
    ∀ (fuel : Nat) (w : World), ids.length + 1 ≤ fuel →
      (w.pools p).closed = true → (w.pools p).conns = ids.map NetConn.raw →
      ConnPool.Close.drain p fuel w = Res.ret ()
        { w with
          pools := Function.update w.pools p { w.pools p with conns := [] }
          trace := w.trace ++ ids.map Event.close } := by
  induction ids with
  | nil =>
    intro fuel w hf hcl hc
    obtain ⟨fuel, rfl⟩ : ∃ m, fuel = m + 1 := ⟨fuel - 1, by simp at hf; omega⟩
    simp only [List.map_nil] at hc
    simp [ConnPool.Close.drain, getPool, Go.bind, hc, hcl]
    ext1 <;> simp
    ext1 <;> simp [hc, hcl]
  | cons id ids ih =>
    intro fuel w hf hcl hc
    obtain ⟨fuel, rfl⟩ : ∃ m, fuel = m + 2 := ⟨fuel - 2, by simp at hf; omega⟩
    rw [ConnPool.Close.drain]
    simp only [getPool, Go.bind_run, Go.bind, hc, List.map_cons, modifyPool, closeConn_raw]
    rw [ih (fuel + 1) _ (by simp at hf ⊢; omega) (by simpa using hcl) (by simp)]
    simp

theorem Close_raws (fuel : Nat) (p : Nat) (ids : List Nat) (w : World)
    (hlive : Live w p) (hc : (w.pools p).conns = ids.map NetConn.raw)
    (hf : ids.length + 1 ≤ fuel) :
    ConnPool.Close fuel p w = Res.ret none
      { w with
        pools := Function.update w.pools p
          { w.pools p with valid := false, closed := true, conns := [] }
        trace := w.trace ++ [Event.lock p, Event.unlock p, Event.lock p] ++ ids.map Event.close
          ++ [Event.unlock p] } := by
  obtain ⟨hv, hl, hcl, _⟩ := hlive
  simp only [ConnPool.Close, IsValid_run p w hl, Go.bind_run, Go.bind, hv, lock, getPool,
    modifyPool, emit, hl, chanClose, hcl, Go.ite_run, Go.pure_run, Function.update_same,
    Function.update_idem, beq_self_eq_true, Bool.true_eq_false, if_false, Bool.false_eq_true,
    beq_iff_eq]
  rw [drain_raws p ids fuel _ hf (by simp) (by simpa using hc)]
  simp [unlock, getPool, modifyPool, emit, Go.bind]

theorem Frame.refl (w : World) : Frame w w := fun _ => ⟨rfl, rfl, rfl, rfl, rfl, rfl⟩

theorem Frame.trans {w w1 w2 : World} (h1 : Frame w w1) (h2 : Frame w1 w2) : Frame w w2 := by
  intro q
  obtain ⟨a1, a2, a3, a4, a5, a6⟩ := h1 q
  obtain ⟨b1, b2, b3, b4, b5, b6⟩ := h2 q
  exact ⟨b1.trans a1, b2.trans a2, b3.trans a3, b4.trans a4, b5.trans a5, b6.trans a6⟩

theorem Frame.of_update (w w1 : World) (p : Nat) (s : ConnPool)
    (hp : w1.pools = Function.update w.pools p s) (hs : SameShape (w.pools p) s) : Frame w w1 := by
  intro q
  rw [hp]
  by_cases hq : q = p
  · subst hq; simpa using hs
  · simp [Function.update_noteq hq, SameShape]

theorem Frame.of_pools_eq (w w1 : World) (hp : w1.pools = w.pools) : Frame w w1 := by
  intro q; rw [hp]; exact ⟨rfl, rfl, rfl, rfl, rfl, rfl⟩

theorem IsValid_eq (p : Nat) (w : World) :
    ConnPool.IsValid p w =
      if (w.pools p).locked then Res.blocked w
      else Res.ret (w.pools p).valid
        { w with trace := w.trace ++ [Event.lock p, Event.unlock p] } := by
  by_cases hl : (w.pools p).locked = true
  · simp [ConnPool.IsValid, lock, getPool, Go.bind, hl, block]
  · simp only [Bool.not_eq_true] at hl
    simp [IsValid_run p w hl, hl]

theorem RecycleWith_frame (close : NetConn → Go (Option Err))
    (hclose : ∀ c w r w1, close c w = Res.ret r w1 → Frame w w1)
    (p : Nat) (c : NetConn) (w : World) (r : Option Err) (w1 : World)
    (h : ConnPool.RecycleWith close p c w = Res.ret r w1) : Frame w w1 := by
  by_cases hl : (w.pools p).locked = true
  · simp [ConnPool.RecycleWith, IsValid_eq, hl, Go.bind] at h
  simp only [Bool.not_eq_true] at hl
  by_cases hv : (w.pools p).valid = true
  swap
  · simp only [Bool.not_eq_true] at hv
    rw [RecycleWith_invalid close p c w hv hl] at h
    injection h with _ h
    exact Frame.of_pools_eq _ _ (by rw [← h])
  by_cases hc : c = NetConn.nil
  · subst hc
    rw [RecycleWith_nil close p w hv hl] at h
    injection h with _ h
    exact Frame.of_update _ _ p _ (by rw [← h]) (by simp [SameShape])
  by_cases hcl : (w.pools p).closed = true
  · simp [ConnPool.RecycleWith, IsValid_eq, hl, hv, Go.bind, hc, emit, chanTrySend, getPool, hcl,
      crash] at h
  simp only [Bool.not_eq_true] at hcl
  by_cases hroom : (w.pools p).conns.length < (w.pools p).initSize.toNat
  · rw [RecycleWith_room close p c w hv hl hcl hc hroom] at h
    injection h with _ h
    exact Frame.of_update _ _ p _ (by rw [← h]) (by simp [SameShape])
  · rw [RecycleWith_full close p c w hv hl hcl hc (by omega)] at h
    have f2 := hclose _ _ _ _ h
    exact Frame.trans (Frame.of_pools_eq _ _ rfl) f2

theorem closeConn_frame (fuel : Nat) :
    ∀ (c : NetConn) (w : World) (r : Option Err) (w1 : World),
      closeConn fuel c w = Res.ret r w1 → Frame w w1 := by
  induction fuel with
  | zero => intro c w r w1 h; simp [closeConn, timeout] at h
  | succ fuel ih =>
    intro c w r w1 h
    cases c with
    | nil => simp [closeConn, crash] at h
    | raw id =>
      rw [closeConn_raw] at h
      injection h with _ h
      exact Frame.of_pools_eq _ _ (by rw [← h])
    | conn a inner =>
      simp only [closeConn, Conn.CloseWith, getPoolOf, Go.bind_run, Go.bind] at h
      cases ha : w.poolOf a with
      | none =>
        simp only [ha, if_true, Go.ite_run] at h
        cases h2 : closeConn fuel (NetConn.conn a inner) w with
        | ret r2 w2 =>
          simp only [Go.bind, h2, Go.pure_run, Go.bind_run, getPoolOf] at h
          have f1 := ih _ _ _ _ h2
          cases ha2 : w2.poolOf a with
          | none => simp [ha2, crash] at h
          | some p =>
            simp only [ha2] at h
            exact Frame.trans f1 (RecycleWith_frame _ ih p inner w2 r w1 h)
        | blocked w2 => simp [Go.bind, h2] at h
        | crash w2 => simp [Go.bind, h2] at h
        | timeout => simp [Go.bind, h2] at h
      | some p =>
        simp only [ha, reduceCtorEq, if_false, Go.ite_run, Go.pure_run, Go.bind_run, Go.bind,
          getPoolOf] at h
        exact RecycleWith_frame _ ih p inner w r w1 h

theorem drain_frame (p : Nat) (fuel : Nat) :
    ∀ (w w1 : World), ConnPool.Close.drain p fuel w = Res.ret () w1 → Frame w w1 := by
  induction fuel with
  | zero => intro w w1 h; simp [ConnPool.Close.drain, timeout] at h
  | succ fuel ih =>
    intro w w1 h
    rw [ConnPool.Close.drain] at h
    simp only [getPool, Go.bind_run, Go.bind] at h
    cases hc : (w.pools p).conns with
    | nil =>
      simp only [hc, Go.ite_run, Go.pure_run, block] at h
      split at h
      · injection h with _ h; rw [← h]; exact Frame.refl w
      · cases h
    | cons c rest =>
      simp only [hc, modifyPool, Go.bind_run, Go.bind] at h
      cases h2 : closeConn fuel c
          { w with pools := Function.update w.pools p { w.pools p with conns := rest } } with
      | ret r2 w2 =>
        simp only [h2] at h
        exact Frame.trans (Frame.of_update _ _ p _ rfl (by simp [SameShape]))
          (Frame.trans (closeConn_frame fuel _ _ _ _ h2) (ih _ _ h))
      | blocked w2 => simp [h2] at h
      | crash w2 => simp [h2] at h
      | timeout => simp [h2] at h

theorem Close_live_ret (fuel : Nat) (p : Nat) (w : World) (r : Option Err) (w1 : World)
    (hlive : Live w p) (h : ConnPool.Close fuel p w = Res.ret r w1) :
    r = none ∧ Shut w1 p := by
  obtain ⟨hv, hl, hcl, _⟩ := hlive
  simp only [ConnPool.Close, IsValid_run p w hl, Go.bind_run, Go.bind, hv, lock, getPool,
    modifyPool, emit, hl, chanClose, hcl, Go.ite_run, Go.pure_run, Function.update_same,
    Function.update_idem, beq_self_eq_true, Bool.true_eq_false, if_false, Bool.false_eq_true,
    beq_iff_eq] at h
  split at h
  · rename_i u w2 h2
    obtain ⟨fv, fl, -⟩ := drain_frame p fuel _ _ h2 p
    simp only [Function.update_same] at fv fl
    simp only [unlock, getPool, Go.bind_run, Go.bind, fl, if_true, Go.ite_run, modifyPool,
      emit, Go.pure_run] at h
    injection h with h3 h4
    refine ⟨h3.symm, ?_, ?_⟩
    · rw [← h4]; simpa using fv
    · rw [← h4]; simp
  · cases h
  · cases h
  · cases h

theorem liveWorld_created : CreatePool 2 dialRaw world0 = Res.ret (some 0, none) liveWorld := by
  rw [createPool_runs world0 2 dialRaw 2 (by decide) (by decide) (by decide) (by decide)
      (fun _ _ => rfl),
    loop_done _ _ _ _ _ (by decide)]
  refine congrArg₂ Res.ret rfl ?_
  obtain ⟨hp, ht⟩ := fillSteps_pool world0.nextPool 2 (freshWorld world0 2 dialRaw)
  obtain ⟨h1, h2, h3, h4, h5⟩ := fillSteps_frame world0.nextPool 2 (freshWorld world0 2 dialRaw)
  ext1
  · funext q
    by_cases hq : q = 0
    · subst hq
      exact hp.trans (by simp [freshWorld, liveWorld, twoPool, world0, dialRaw, List.range'])
    · rw [h5 q hq]; simp [freshWorld, liveWorld, world0, hq]
  · exact h1
  · exact h2
  · exact h3
  · exact h4
  · exact fillSteps_chanCap _ _ _
  · exact ht

theorem liveWorld_live : Live liveWorld 0 := ⟨rfl, rfl, rfl, by decide⟩

theorem lentWorld_live : Live lentWorld 0 := ⟨rfl, rfl, rfl, by decide⟩

theorem liveWorld_get :
    ConnPool.Get 0 liveWorld = Res.ret (NetConn.conn 0 (NetConn.raw 0), none) lentWorld :=
  Get_run 0 liveWorld (NetConn.raw 0) [NetConn.raw 1] rfl rfl rfl

theorem liveWorld_close : ConnPool.Close 3 0 liveWorld = Res.ret none shutWorld :=
  Close_raws 3 0 [0, 1] liveWorld liveWorld_live rfl (by decide)

theorem Close_invalid (fuel : Nat) (p : Nat) (w : World)
    (hv : (w.pools p).valid = false) (hl : (w.pools p).locked = false) :
    ConnPool.Close fuel p w = Res.ret (some "Invalid Pool")
      { w with trace := w.trace ++ [Event.lock p, Event.unlock p] } := by
  simp [ConnPool.Close, IsValid_run p w hl, Go.bind, hv]

/-! ## Call sequences, frames and invariants: auxiliary lemmas -/

theorem closeConn_orphan (fuel : Nat) (a : Nat) (inner : NetConn) (w : World)
    (ha : w.poolOf a = none) :
    closeConn fuel (NetConn.conn a inner) w = Res.timeout := by
  induction fuel with
  | zero => rfl
  | succ fuel ih =>
    simp [closeConn, Conn.CloseWith, getPoolOf, Go.bind, ha, ih]

theorem Terminate_orphan (fuel : Nat) (a : Nat) (inner : NetConn) (w : World)
    (ha : w.poolOf a = none) :
    Conn.Terminate fuel a inner w = Res.timeout := by
  simp [Conn.Terminate, getPoolOf, Go.bind, ha, Conn.Close, closeConn_orphan fuel a inner w ha]

theorem lentWorld_terminate :
    Conn.Terminate 1 0 (NetConn.raw 0) lentWorld = Res.ret none orphanWorld := by
  rw [Terminate_bound 1 0 0 _ lentWorld rfl, Destroy_valid 1 0 _ lentWorld rfl rfl,
    closeConn_raw]
  rfl

theorem lentWorld_get :
    ConnPool.Get 0 lentWorld = Res.ret (NetConn.conn 1 (NetConn.raw 1), none) emptyWorld :=
  Get_run 0 lentWorld (NetConn.raw 1) [] rfl rfl rfl

theorem emptyWorld_live : Live emptyWorld 0 := ⟨rfl, rfl, rfl, by decide⟩

theorem Res.holds_endsIn {α : Type} {P : World → Prop} {r : Res α} {w1 : World}
    (h : Res.holds P r) (he : Res.endsIn r w1) : P w1 := by
  rcases he with ⟨a, rfl⟩ | rfl | rfl <;> exact h

theorem keeps_pure {α : Type} {R : World → World → Prop} (hr : ∀ w, R w w) (a : α) :
    Go.Keeps R (Pure.pure a : Go α) := fun w => hr w

theorem keeps_bind {α β : Type} {R : World → World → Prop}
    (ht : ∀ a b c, R a b → R b c → R a c) {m : Go α} {f : α → Go β}
    (hm : Go.Keeps R m) (hf : ∀ a, Go.Keeps R (f a)) : Go.Keeps R (m >>= f) := by
  intro w
  have h1 := hm w
  simp only [Go.bind_run, Go.bind]
  cases h : m w with
  | ret a w1 =>
    rw [h] at h1
    have h2 := hf a w1
    simp only [Res.holds] at h1
    show Res.holds (R w) (f a w1)
    cases h3 : f a w1 with
    | ret b w2 => rw [h3] at h2; exact ht _ _ _ h1 h2
    | blocked w2 => rw [h3] at h2; exact ht _ _ _ h1 h2
    | crash w2 => rw [h3] at h2; exact ht _ _ _ h1 h2
    | timeout => trivial
  | blocked w1 => rw [h] at h1; exact h1
  | crash w1 => rw [h] at h1; exact h1
  | timeout => trivial

theorem keeps_ite {α : Type} {R : World → World → Prop} (c : Prop) [Decidable c]
    {a b : Go α} (ha : Go.Keeps R a) (hb : Go.Keeps R b) :
    Go.Keeps R (if c then a else b) := by
  split
  · exact ha
  · exact hb

theorem keeps_block {α : Type} {R : World → World → Prop} (hr : ∀ w, R w w) :
    Go.Keeps R (block : Go α) := fun w => hr w

theorem keeps_crash {α : Type} {R : World → World → Prop} (hr : ∀ w, R w w) :
    Go.Keeps R (crash : Go α) := fun w => hr w

theorem keeps_timeout {α : Type} {R : World → World → Prop} :
    Go.Keeps R (timeout : Go α) := fun _ => trivial

theorem keeps_getPool {R : World → World → Prop} (hr : ∀ w, R w w) (p : Nat) :
    Go.Keeps R (getPool p) := fun w => hr w

theorem keeps_getPoolOf {R : World → World → Prop} (hr : ∀ w, R w w) (a : Nat) :
    Go.Keeps R (getPoolOf a) := fun w => hr w

theorem calm_refl (w : World) : Calm w w :=
  ⟨fun _ => rfl, fun _ => rfl, fun _ => rfl, fun _ => le_refl _, rfl⟩

theorem calm_trans (a b c : World) (h1 : Calm a b) (h2 : Calm b c) : Calm a c :=
  ⟨fun q => (h2.dialed q).trans (h1.dialed q), fun q => (h2.creator q).trans (h1.creator q),
    fun q => (h2.capacity q).trans (h1.capacity q), fun q => (h2.cnt q).trans (h1.cnt q),
    h2.dials.trans h1.dials⟩

theorem calm_modifyPool (p : Nat) (f : ConnPool → ConnPool)
    (hf : ∀ s, (f s).dialed = s.dialed ∧ (f s).connCreator = s.connCreator ∧
      (f s).initSize = s.initSize ∧ (f s).cnt ≤ s.cnt) :
    Go.Keeps Calm (modifyPool p f) := by
  intro w
  simp only [modifyPool, Res.holds]
  refine ⟨fun q => ?_, fun q => ?_, fun q => ?_, fun q => ?_, rfl⟩ <;>
  · by_cases hq : q = p
    · subst hq; simp [hf]
    · simp [Function.update_noteq hq]

theorem calm_emit (e : Event) (he : e.isDial = false) : Go.Keeps Calm (emit e) := by
  intro w
  simp only [emit, Res.holds]
  exact ⟨fun _ => rfl, fun _ => rfl, fun _ => rfl, fun _ => le_refl _, by simp [he]⟩

theorem calm_lock (p : Nat) : Go.Keeps Calm (lock p) := by
  unfold Netpool.lock
  refine keeps_bind calm_trans (keeps_getPool calm_refl p) fun s => ?_
  refine keeps_ite _ (keeps_block calm_refl) ?_
  refine keeps_bind calm_trans (calm_modifyPool p _ fun s => by simp) fun _ => ?_
  exact calm_emit _ rfl

theorem calm_unlock (p : Nat) : Go.Keeps Calm (unlock p) := by
  unfold Netpool.unlock
  refine keeps_bind calm_trans (keeps_getPool calm_refl p) fun s => ?_
  refine keeps_ite _ ?_ (keeps_crash calm_refl)
  refine keeps_bind calm_trans (calm_modifyPool p _ fun s => by simp) fun _ => ?_
  exact calm_emit _ rfl

theorem calm_IsValid (p : Nat) : Go.Keeps Calm (ConnPool.IsValid p) := by
  unfold ConnPool.IsValid
  repeat' first
    | exact calm_lock _
    | exact calm_unlock _
    | exact keeps_getPool calm_refl _
    | exact keeps_pure calm_refl _
    | apply keeps_bind calm_trans
    | intro _

theorem calm_Len (p : Nat) : Go.Keeps Calm (ConnPool.Len p) := by
  unfold ConnPool.Len
  repeat' first
    | exact calm_lock _
    | exact calm_unlock _
    | exact keeps_getPool calm_refl _
    | exact keeps_pure calm_refl _
    | apply keeps_bind calm_trans
    | intro _

theorem calm_chanTrySend (p : Nat) (c : NetConn) : Go.Keeps Calm (chanTrySend p c) := by
  unfold Netpool.chanTrySend
  repeat' first
    | exact keeps_getPool calm_refl _
    | exact keeps_pure calm_refl _
    | exact keeps_crash calm_refl
    | exact calm_modifyPool _ _ fun s => by simp
    | apply keeps_bind calm_trans
    | apply keeps_ite
    | intro _

theorem calm_chanRecv (p : Nat) : Go.Keeps Calm (chanRecv p) := by
  unfold Netpool.chanRecv
  refine keeps_bind calm_trans (keeps_getPool calm_refl p) fun s => ?_
  split
  · exact keeps_bind calm_trans (calm_modifyPool _ _ fun s => by simp)
      fun _ => keeps_pure calm_refl _
  · exact keeps_ite _ (keeps_pure calm_refl _) (keeps_block calm_refl)

theorem calm_chanClose (p : Nat) : Go.Keeps Calm (chanClose p) := by
  unfold Netpool.chanClose
  repeat' first
    | exact keeps_getPool calm_refl _
    | exact keeps_crash calm_refl
    | exact calm_modifyPool _ _ fun s => by simp
    | apply keeps_bind calm_trans
    | apply keeps_ite
    | intro _

theorem calm_WrapConn (c : NetConn) (p : Nat) : Go.Keeps Calm (WrapConn c p) := fun _ =>
  ⟨fun _ => rfl, fun _ => rfl, fun _ => rfl, fun _ => le_refl _, rfl⟩

theorem calm_setPoolOf (a : Nat) (v : Option Nat) : Go.Keeps Calm (setPoolOf a v) := fun _ =>
  ⟨fun _ => rfl, fun _ => rfl, fun _ => rfl, fun _ => le_refl _, rfl⟩

theorem calm_rawClose (id : Nat) : Go.Keeps Calm (rawClose id) := fun w =>
  ⟨fun _ => rfl, fun _ => rfl, fun _ => rfl, fun _ => le_refl _, by simp [Event.isDial]⟩

theorem calm_Get (p : Nat) : Go.Keeps Calm (ConnPool.Get p) := by
  unfold ConnPool.Get
  repeat' first
    | exact calm_IsValid _
    | exact calm_chanRecv _
    | exact calm_WrapConn _ _
    | exact keeps_pure calm_refl _
    | apply keeps_bind calm_trans
    | apply keeps_ite
    | intro _

theorem calm_RecycleWith (close : NetConn → Go (Option Err))
    (hclose : ∀ c, Go.Keeps Calm (close c)) (p : Nat) (c : NetConn) :
    Go.Keeps Calm (ConnPool.RecycleWith close p c) := by
  unfold ConnPool.RecycleWith
  repeat' first
    | exact calm_IsValid _
    | exact calm_lock _
    | exact calm_unlock _
    | exact calm_chanTrySend _ _
    | exact hclose _
    | exact calm_emit _ rfl
    | exact calm_modifyPool _ _ fun s => by simp
    | exact keeps_pure calm_refl _
    | apply keeps_bind calm_trans
    | apply keeps_ite
    | intro _

theorem calm_CloseWith (close : NetConn → Go (Option Err))
    (hclose : ∀ c, Go.Keeps Calm (close c)) (a : Nat) (inner : NetConn) :
    Go.Keeps Calm (Conn.CloseWith close a inner) := by
  unfold Conn.CloseWith
  repeat' first
    | exact keeps_getPoolOf calm_refl _
    | exact keeps_pure calm_refl _
    | exact keeps_crash calm_refl
    | exact hclose _
    | exact calm_RecycleWith close hclose _ _
    | apply keeps_bind calm_trans
    | apply keeps_ite
    | dsimp only
    | split
    | intro _

theorem calm_closeConn (fuel : Nat) : ∀ c, Go.Keeps Calm (closeConn fuel c) := by
  induction fuel with
  | zero => intro c; exact keeps_timeout
  | succ fuel ih =>
    intro c
    cases c with
    | nil => exact keeps_crash calm_refl
    | raw id => exact calm_rawClose id
    | conn a inner => exact calm_CloseWith _ ih a inner

theorem calm_Destroy (fuel p : Nat) (c : NetConn) :
    Go.Keeps Calm (ConnPool.Destroy fuel p c) := by
  unfold ConnPool.Destroy
  repeat' first
    | exact calm_IsValid _
    | exact calm_lock _
    | exact calm_unlock _
    | exact calm_closeConn _ _
    | exact calm_modifyPool _ _ fun s => by simp
    | exact keeps_pure calm_refl _
    | apply keeps_bind calm_trans
    | apply keeps_ite
    | dsimp only
    | split
    | intro _

theorem calm_Terminate (fuel a : Nat) (inner : NetConn) :
    Go.Keeps Calm (Conn.Terminate fuel a inner) := by
  unfold Conn.Terminate
  repeat' first
    | exact keeps_getPoolOf calm_refl _
    | exact calm_Destroy _ _ _
    | exact calm_closeConn _ _
    | exact calm_setPoolOf _ _
    | exact keeps_pure calm_refl _
    | apply keeps_bind calm_trans
    | apply keeps_ite
    | dsimp only
    | split
    | intro _

theorem calm_drain (p : Nat) (fuel : Nat) : Go.Keeps Calm (ConnPool.Close.drain p fuel) := by
  induction fuel with
  | zero => exact keeps_timeout
  | succ fuel ih =>
    rw [ConnPool.Close.drain]
    repeat' first
      | exact ih
      | exact keeps_getPool calm_refl _
      | exact calm_closeConn _ _
      | exact calm_modifyPool _ _ fun s => by simp
      | exact keeps_pure calm_refl _
      | exact keeps_block calm_refl
      | apply keeps_bind calm_trans
      | apply keeps_ite
      | dsimp only
      | split
      | intro _

theorem calm_Close (fuel p : Nat) : Go.Keeps Calm (ConnPool.Close fuel p) := by
  unfold ConnPool.Close
  repeat' first
    | exact calm_IsValid _
    | exact calm_lock _
    | exact calm_unlock _
    | exact calm_chanClose _
    | exact calm_drain _ _
    | exact calm_modifyPool _ _ fun s => by simp
    | exact keeps_pure calm_refl _
    | apply keeps_bind calm_trans
    | apply keeps_ite
    | intro _

theorem calm_run (fuel p : Nat) (c : Call) : Go.Keeps Calm (Call.run fuel p c) := by
  cases c <;> unfold Call.run <;>
  repeat' first
    | exact calm_Get _
    | exact calm_RecycleWith _ (calm_closeConn _) _ _
    | exact calm_Destroy _ _ _
    | exact calm_Close _ _
    | exact calm_Len _
    | exact calm_IsValid _
    | exact calm_closeConn _ _
    | exact calm_Terminate _ _ _
    | exact keeps_pure calm_refl _
    | apply keeps_bind calm_trans
    | intro _

theorem calm_runCalls (fuel p : Nat) (cs : List Call) :
    Go.Keeps Calm (runCalls fuel p cs) := by
  induction cs with
  | nil => exact keeps_pure calm_refl _
  | cons c cs ih =>
    exact keeps_bind calm_trans (calm_run fuel p c) fun _ => ih

theorem createPool_live (w : World) (n : Int) (f : Nat → NetConn × Option Err)
    (hn : 1 ≤ n) (hi : n ≤ maxInt) (hm : n.toNat ≤ w.chanCap)
    (hf : ∀ k : Nat, (k : Int) < n → (f k).2 = none) :
    CreatePool n f w =
      Res.ret (some w.nextPool, none) (fillSteps w.nextPool n.toNat (freshWorld w n f)) ∧
    (fillSteps w.nextPool n.toNat (freshWorld w n f)).pools w.nextPool =
      { locked := false, conns := (List.range n.toNat).map (fun k => (f k).1), closed := false,
        initSize := n, cnt := n, valid := true, connCreator := f, dialed := n.toNat } := by
  have hrun := createPool_runs w n f n.toNat hn hi hm (by omega) (fun k hk => hf k (by omega))
  rw [loop_done _ _ _ _ _ (by omega)] at hrun
  refine ⟨hrun, ?_⟩
  rw [(fillSteps_pool w.nextPool n.toNat (freshWorld w n f)).1]
  simp [freshWorld, List.range_eq_range']
  omega

theorem runCalls_cons (fuel p : Nat) (c : Call) (cs : List Call) (w w1 : World)
    (h : Call.run fuel p c w = Res.ret () w1) :
    runCalls fuel p (c :: cs) w = runCalls fuel p cs w1 := by
  simp [runCalls, Go.bind, h]

theorem run_recycle (fuel p : Nat) (c : NetConn) (w w1 : World) (r : Option Err)
    (h : ConnPool.Recycle fuel p c w = Res.ret r w1) :
    Call.run fuel p (Call.recycle c) w = Res.ret () w1 := by
  simp [Call.run, Go.bind, h]

theorem run_recycle_nil (fuel p : Nat) (w : World)
    (hv : (w.pools p).valid = true) (hl : (w.pools p).locked = false) :
    Call.run fuel p (Call.recycle NetConn.nil) w = Res.ret () (afterNil p w) :=
  run_recycle fuel p NetConn.nil w _ _ (RecycleWith_nil (closeConn fuel) p w hv hl)

theorem recycle_nil_thrice :
    runCalls 0 0 [Call.recycle NetConn.nil, Call.recycle NetConn.nil,
      Call.recycle NetConn.nil] liveWorld =
      Res.ret () (afterNil 0 (afterNil 0 (afterNil 0 liveWorld))) := by
  rw [runCalls_cons _ _ _ _ _ _ (run_recycle_nil 0 0 liveWorld rfl rfl),
    runCalls_cons _ _ _ _ _ _ (run_recycle_nil 0 0 _ rfl rfl),
    runCalls_cons _ _ _ _ _ _ (run_recycle_nil 0 0 _ rfl rfl)]
  rfl

theorem tidy_append {es fs : List Event} (h1 : Tidy es) (h2 : Tidy fs) : Tidy (es ++ fs) := by
  induction h1 with
  | nil => exact h2
  | held q es _ ih => exact Tidy.held q _ ih
  | print es _ ih => exact Tidy.print _ ih
  | close id es _ ih => exact Tidy.close id _ ih

theorem tidy_scan {es : List Event} (h : Tidy es) (p : Nat) :
    scanLock p false es = some false := by
  induction h with
  | nil => rfl
  | held q es _ ih => by_cases hq : q = p <;> simp [scanLock, hq, ih]
  | print es _ ih => simpa [scanLock] using ih
  | close id es _ ih => simpa [scanLock] using ih

theorem paired_refl (w : World) : Paired w w := ⟨[], by simp, Tidy.nil⟩

theorem paired_trans (a b c : World) (h1 : Paired a b) (h2 : Paired b c) : Paired a c := by
  obtain ⟨es, he, te⟩ := h1
  obtain ⟨fs, hf, tf⟩ := h2
  exact ⟨es ++ fs, by rw [hf, he, List.append_assoc], tidy_append te tf⟩

theorem paired_modifyPool (p : Nat) (f : ConnPool → ConnPool) :
    Go.Keeps Paired (modifyPool p f) := fun _ => ⟨[], by simp, Tidy.nil⟩

theorem paired_setPoolOf (a : Nat) (v : Option Nat) : Go.Keeps Paired (setPoolOf a v) :=
  fun _ => ⟨[], by simp, Tidy.nil⟩

theorem paired_WrapConn (c : NetConn) (p : Nat) : Go.Keeps Paired (WrapConn c p) :=
  fun _ => ⟨[], by simp, Tidy.nil⟩

theorem paired_print : Go.Keeps Paired (emit Event.print) :=
  fun _ => ⟨[Event.print], rfl, Tidy.print _ Tidy.nil⟩

theorem paired_rawClose (id : Nat) : Go.Keeps Paired (rawClose id) :=
  fun _ => ⟨[Event.close id], rfl, Tidy.close id _ Tidy.nil⟩

theorem paired_IsValid (p : Nat) : Go.Keeps Paired (ConnPool.IsValid p) := by
  intro w
  rw [IsValid_eq]
  split
  · exact paired_refl w
  · exact ⟨[Event.lock p, Event.unlock p], rfl, Tidy.held p _ Tidy.nil⟩

theorem paired_Len (p : Nat) : Go.Keeps Paired (ConnPool.Len p) := by
  intro w
  by_cases hl : (w.pools p).locked = true
  · simp only [ConnPool.Len, lock, getPool, Go.bind_run, Go.bind, hl, if_true, block,
      Go.ite_run, Res.holds]
    exact paired_refl w
  · simp only [Bool.not_eq_true] at hl
    rw [Len_run p w hl]
    exact ⟨[Event.lock p, Event.unlock p], rfl, Tidy.held p _ Tidy.nil⟩

theorem paired_after {α : Type} {rest : Go α} (hrest : Go.Keeps Paired rest) (w w1 : World)
    (h1 : Paired w w1) : Res.holds (Paired w) (rest w1) := by
  have h := hrest w1
  cases hr : rest w1 <;> rw [hr] at h <;> simp only [Res.holds] at h ⊢ <;>
    exact paired_trans _ _ _ h1 h

theorem paired_locked {α : Type} (p : Nat) (f : ConnPool → ConnPool)
    (hf : ∀ s, (f s).locked = s.locked) {rest : Go α} (hrest : Go.Keeps Paired rest) :
    Go.Keeps Paired
      (Netpool.lock p >>= fun _ => Netpool.modifyPool p f >>= fun _ =>
        Netpool.unlock p >>= fun _ => rest) := by
  intro w
  by_cases hl : (w.pools p).locked = true
  · simp only [Netpool.lock, getPool, Go.bind_run, Go.bind, hl, if_true, block, Go.ite_run,
      Res.holds]
    exact paired_refl w
  · simp only [Bool.not_eq_true] at hl
    simp only [Netpool.lock, Netpool.unlock, getPool, Netpool.modifyPool, emit, Go.bind_run, Go.bind, hl, Go.ite_run,
      Function.update_same, hf, Bool.false_eq_true, if_false, if_true]
    exact paired_after hrest w _ ⟨[Event.lock p, Event.unlock p], by simp, Tidy.held p _ Tidy.nil⟩

theorem paired_chanTrySend (p : Nat) (c : NetConn) : Go.Keeps Paired (chanTrySend p c) := by
  unfold Netpool.chanTrySend
  repeat' first
    | exact keeps_getPool paired_refl _
    | exact keeps_pure paired_refl _
    | exact keeps_crash paired_refl
    | exact paired_modifyPool _ _
    | apply keeps_bind paired_trans
    | apply keeps_ite
    | intro _

theorem paired_chanRecv (p : Nat) : Go.Keeps Paired (chanRecv p) := by
  unfold Netpool.chanRecv
  repeat' first
    | exact keeps_getPool paired_refl _
    | exact keeps_pure paired_refl _
    | exact keeps_block paired_refl
    | exact paired_modifyPool _ _
    | apply keeps_bind paired_trans
    | apply keeps_ite
    | dsimp only
    | split
    | intro _

theorem paired_Get (p : Nat) : Go.Keeps Paired (ConnPool.Get p) := by
  unfold ConnPool.Get
  repeat' first
    | exact paired_IsValid _
    | exact paired_chanRecv _
    | exact paired_WrapConn _ _
    | exact keeps_pure paired_refl _
    | apply keeps_bind paired_trans
    | apply keeps_ite
    | intro _

theorem paired_RecycleWith (close : NetConn → Go (Option Err))
    (hclose : ∀ c, Go.Keeps Paired (close c)) (p : Nat) (c : NetConn) :
    Go.Keeps Paired (ConnPool.RecycleWith close p c) := by
  unfold ConnPool.RecycleWith
  refine keeps_bind paired_trans (paired_IsValid p) fun v => ?_
  refine keeps_ite _ (keeps_pure paired_refl _) ?_
  refine keeps_ite _ ?_ ?_
  · refine paired_locked _ _ ?_ ?_
    · intro s; rfl
    · exact keeps_pure paired_refl _
  · refine keeps_bind paired_trans paired_print fun _ => ?_
    refine keeps_bind paired_trans (paired_chanTrySend p c) fun b => ?_
    exact keeps_ite _ (keeps_pure paired_refl _) (hclose c)

theorem paired_CloseWith (close : NetConn → Go (Option Err))
    (hclose : ∀ c, Go.Keeps Paired (close c)) (a : Nat) (inner : NetConn) :
    Go.Keeps Paired (Conn.CloseWith close a inner) := by
  unfold Conn.CloseWith
  repeat' first
    | exact keeps_getPoolOf paired_refl _
    | exact keeps_pure paired_refl _
    | exact keeps_crash paired_refl
    | exact hclose _
    | exact paired_RecycleWith close hclose _ _
    | apply keeps_bind paired_trans
    | apply keeps_ite
    | dsimp only
    | split
    | intro _

theorem paired_closeConn (fuel : Nat) : ∀ c, Go.Keeps Paired (closeConn fuel c) := by
  induction fuel with
  | zero => intro c; exact keeps_timeout
  | succ fuel ih =>
    intro c
    cases c with
    | nil => exact keeps_crash paired_refl
    | raw id => exact paired_rawClose id
    | conn a inner => exact paired_CloseWith _ ih a inner

theorem paired_Destroy (fuel p : Nat) (c : NetConn) :
    Go.Keeps Paired (ConnPool.Destroy fuel p c) := by
  unfold ConnPool.Destroy
  refine keeps_bind paired_trans (paired_IsValid p) fun v => ?_
  refine keeps_ite _ (keeps_pure paired_refl _) ?_
  refine paired_locked _ _ ?_ ?_
  · intro s; rfl
  · split
    · exact paired_closeConn _ _
    · exact paired_closeConn _ _

theorem paired_Terminate (fuel a : Nat) (inner : NetConn) :
    Go.Keeps Paired (Conn.Terminate fuel a inner) := by
  unfold Conn.Terminate
  repeat' first
    | exact keeps_getPoolOf paired_refl _
    | exact paired_Destroy _ _ _
    | exact paired_closeConn _ _
    | exact paired_setPoolOf _ _
    | exact keeps_pure paired_refl _
    | apply keeps_bind paired_trans
    | apply keeps_ite
    | dsimp only
    | split
    | intro _

theorem paired_lockFree {α : Type} {m : Go α} (hm : Go.Keeps Paired m) (q : Nat)
    (w w1 : World) (he : Res.endsIn (m w) w1) :
    ∃ es, w1.trace = w.trace ++ es ∧ scanLock q false es = some false :=
  (Res.holds_endsIn (hm w) he).imp fun _ h => ⟨h.1, tidy_scan h.2 q⟩

theorem createConn_dials_locked (p : Nat) (w w1 : World)
    (he : Res.endsIn (ConnPool.createConn p w) w1) :
    ∃ es, w1.trace = w.trace ++ es ∧
      ∀ k, Event.dial p k ∈ es → scanLock p false es = none := by
  refine Res.holds_endsIn (P := fun w1 => ∃ es, w1.trace = w.trace ++ es ∧
      ∀ k, Event.dial p k ∈ es → scanLock p false es = none) ?_ he
  by_cases hl : (w.pools p).locked = true
  · simp only [ConnPool.createConn, lock, getPool, Go.bind_run, Go.bind, hl, if_true, block,
      Go.ite_run, Res.holds]
    exact ⟨[], by simp, by simp⟩
  simp only [Bool.not_eq_true] at hl
  by_cases hc : (w.pools p).cnt < (w.pools p).initSize
  · cases hf : ((w.pools p).connCreator (w.pools p).dialed).2 with
    | none =>
      rw [createConn_ok p w hl hc hf]
      exact ⟨[Event.lock p, Event.dial p (w.pools p).dialed, Event.unlock p], rfl,
        fun _ _ => by simp [scanLock]⟩
    | some e =>
      rw [createConn_fail p w e hl hc hf]
      exact ⟨[Event.lock p, Event.dial p (w.pools p).dialed, Event.unlock p], rfl,
        fun _ _ => by simp [scanLock]⟩
  · have hc2 : (w.pools p).initSize ≤ (w.pools p).cnt := not_lt.mp hc
    simp only [ConnPool.createConn, lock, unlock, getPool, modifyPool, emit, Go.bind_run,
      Go.bind, hl, Go.ite_run, Go.pure_run, Function.update_same, hc2, ge_iff_le, if_true,
      Bool.false_eq_true, if_false, Res.holds]
    exact ⟨[Event.lock p, Event.unlock p], by simp, by simp⟩

theorem Get_empty (p : Nat) (w : World)
    (hv : (w.pools p).valid = true) (hl : (w.pools p).locked = false)
    (hcl : (w.pools p).closed = false) (hc : (w.pools p).conns = []) :
    ConnPool.Get p w =
      Res.blocked { w with trace := w.trace ++ [Event.lock p, Event.unlock p] } := by
  simp [ConnPool.Get, IsValid_run p w hl, Go.bind, hv, chanRecv, getPool, hc, hcl, block]

theorem lending_get (fuel p : Nat) (w w1 : World) (out out1 : List (Nat × NetConn))
    (h : Lending p w out) (hs : lendStep fuel p Lend.get (w, out) = some (w1, out1)) :
    Lending p w1 out1 := by
  obtain ⟨⟨hv, hl, hcl, hb⟩, hbound, haddrs, hraw, hdist, hroom⟩ := h
  cases hc : (w.pools p).conns with
  | nil =>
    simp [lendStep, Get_empty p w hv hl hcl hc] at hs
  | cons c rest =>
    simp only [lendStep, Get_run p w c rest hv hl hc, Option.some.injEq, Prod.mk.injEq] at hs
    obtain ⟨rfl, rfl⟩ := hs
    rw [hc] at hraw hdist hroom hb
    refine ⟨⟨by simpa using hv, by simpa using hl, by simpa using hcl, ?_⟩, ?_, ?_, ?_, ?_, ?_⟩
    · simp at hb ⊢; omega
    · intro x hx
      rcases List.mem_append.mp hx with hx | hx
      · obtain ⟨h1, h2⟩ := hbound x hx
        have hne : x.1 ≠ w.nextConn := by omega
        exact ⟨by simpa [Function.update_noteq hne] using h1, by simp; omega⟩
      · simp at hx
        subst hx
        simp
    · rw [List.map_append, List.nodup_append]
      refine ⟨haddrs, by simp, ?_⟩
      intro a ha1 ha2
      simp at ha2
      obtain ⟨x, hx, rfl⟩ := List.mem_map.mp ha1
      have := (hbound x hx).2
      omega
    · intro d hd
      apply hraw d
      simp at hd ⊢
      tauto
    · have hperm : (rest ++ (out ++ [(w.nextConn, c)]).map Prod.snd).Perm
          (c :: rest ++ out.map Prod.snd) := by
        simp only [List.map_append, List.map_cons, List.map_nil, Function.update_same]
        rw [← List.append_assoc]
        exact (List.perm_append_singleton c _).trans (List.Perm.refl _)
      simpa using hperm.nodup_iff.mpr hdist
    · simp at hroom ⊢; omega

theorem lending_erase_snd (out : List (Nat × NetConn)) (a : Nat) (c : NetConn)
    (hmem : (a, c) ∈ out) (hn : (out.map Prod.snd).Nodup) :
    c ∉ (out.erase (a, c)).map Prod.snd := by
  intro hc
  obtain ⟨x, hx, hxc⟩ := List.mem_map.mp hc
  have hout : out.Nodup := List.Nodup.of_map _ hn
  have hx2 := (List.Nodup.mem_erase_iff hout).mp hx
  have := List.inj_on_of_nodup_map hn hx2.2 hmem hxc
  exact hx2.1 this

theorem lending_erase_fst (out : List (Nat × NetConn)) (a : Nat) (c : NetConn)
    (hmem : (a, c) ∈ out) (hn : (out.map Prod.fst).Nodup) :
    ∀ x ∈ out.erase (a, c), x.1 ≠ a := by
  intro x hx hxa
  have hout : out.Nodup := List.Nodup.of_map _ hn
  have hx2 := (List.Nodup.mem_erase_iff hout).mp hx
  have := List.inj_on_of_nodup_map hn hx2.2 hmem hxa
  exact hx2.1 this

theorem lending_close (fuel p : Nat) (w w1 : World) (out out1 : List (Nat × NetConn))
    (a : Nat) (c : NetConn)
    (h : Lending p w out) (hs : lendStep fuel p (Lend.close a c) (w, out) = some (w1, out1)) :
    Lending p w1 out1 := by
  obtain ⟨⟨hv, hl, hcl, hb⟩, hbound, haddrs, hraw, hdist, hroom⟩ := h
  by_cases hmem : (a, c) ∈ out
  swap
  · simp [lendStep, hmem] at hs
  have hpos : 0 < out.length := List.length_pos_of_mem hmem
  have hcraw : c.isRaw = true :=
    hraw c (List.mem_append_right _ (List.mem_map.mpr ⟨(a, c), hmem, rfl⟩))
  have hcnil : c ≠ NetConn.nil := by
    intro hc; rw [hc] at hcraw; simp [NetConn.isRaw] at hcraw
  cases fuel with
  | zero => simp [lendStep, hmem, Conn.Close, closeConn, timeout] at hs
  | succ fuel =>
    have hrun := (Conn_Close_bound fuel a p c w (hbound _ hmem).1).trans
      (RecycleWith_room (closeConn fuel) p c w hv hl hcl hcnil (by omega))
    simp only [lendStep, hmem, if_true, hrun, Option.some.injEq, Prod.mk.injEq] at hs
    obtain ⟨rfl, rfl⟩ := hs
    have hsub : (out.erase (a, c)).Sublist out := List.erase_sublist _ _
    have hlen : (out.erase (a, c)).length = out.length - 1 := List.length_erase_of_mem hmem
    have hdo : (out.map Prod.snd).Nodup := (List.nodup_append.mp hdist).2.1
    have hdc : ((w.pools p).conns).Nodup := (List.nodup_append.mp hdist).1
    have hdisj := (List.nodup_append.mp hdist).2.2
    refine ⟨⟨by simpa using hv, by simpa using hl, by simpa using hcl, ?_⟩, ?_, ?_, ?_, ?_, ?_⟩
    · simp; omega
    · intro x hx
      exact hbound x (hsub.subset hx)
    · exact (hsub.map Prod.fst).nodup haddrs
    · intro d hd
      simp only [Function.update_same, List.mem_append, List.mem_singleton] at hd
      rcases hd with (hd | hd) | hd
      · exact hraw d (List.mem_append_left _ hd)
      · rw [hd]; exact hcraw
      · exact hraw d (List.mem_append_right _ ((hsub.map Prod.snd).subset hd))
    · simp only [Function.update_same]
      rw [List.append_assoc, List.nodup_append]
      refine ⟨hdc, ?_, ?_⟩
      · rw [List.singleton_append, List.nodup_cons]
        exact ⟨lending_erase_snd out a c hmem hdo, (hsub.map Prod.snd).nodup hdo⟩
      · intro d hd1 hd2
        apply hdisj hd1
        rcases List.mem_append.mp hd2 with hd2 | hd2
        · simp at hd2; rw [hd2]; exact List.mem_map.mpr ⟨(a, c), hmem, rfl⟩
        · exact (hsub.map Prod.snd).subset hd2
    · simp; omega

theorem lending_terminate (fuel p : Nat) (w w1 : World) (out out1 : List (Nat × NetConn))
    (a : Nat) (c : NetConn)
    (h : Lending p w out)
    (hs : lendStep fuel p (Lend.terminate a c) (w, out) = some (w1, out1)) :
    Lending p w1 out1 := by
  obtain ⟨⟨hv, hl, hcl, hb⟩, hbound, haddrs, hraw, hdist, hroom⟩ := h
  by_cases hmem : (a, c) ∈ out
  swap
  · simp [lendStep, hmem] at hs
  have hcraw : c.isRaw = true :=
    hraw c (List.mem_append_right _ (List.mem_map.mpr ⟨(a, c), hmem, rfl⟩))
  obtain ⟨id, rfl⟩ : ∃ id, c = NetConn.raw id := by
    cases c <;> simp [NetConn.isRaw] at hcraw ⊢
  have hsub : (out.erase (a, NetConn.raw id)).Sublist out := List.erase_sublist _ _
  have hlen : (out.erase (a, NetConn.raw id)).length = out.length - 1 :=
    List.length_erase_of_mem hmem
  have hT := Terminate_bound fuel a p (NetConn.raw id) w (hbound _ hmem).1
  rw [Destroy_valid fuel p (NetConn.raw id) w hv hl] at hT
  cases fuel with
  | zero => simp [lendStep, hmem, hT, closeConn, timeout] at hs
  | succ fuel =>
    rw [closeConn_raw] at hT
    simp only [lendStep, hmem, if_true, hT] at hs
    split at hs
    · rename_i r w2 heq
      simp only [Option.some.injEq, Prod.mk.injEq] at hs
      obtain ⟨rfl, rfl⟩ := hs
      split at heq
      · rename_i w3 heq2
        injection heq with _ hw
        injection heq2 with _ hw3
        subst hw
        subst hw3
        refine ⟨⟨by simpa using hv, by simpa using hl, by simpa using hcl, by simpa using hb⟩,
          ?_, (hsub.map Prod.fst).nodup haddrs, ?_, ?_, ?_⟩
        · intro x hx
          have hne := lending_erase_fst out a _ hmem haddrs x hx
          obtain ⟨h1, h2⟩ := hbound x (hsub.subset hx)
          exact ⟨by simpa [Function.update_noteq hne] using h1, by simpa using h2⟩
        · intro d hd
          simp only [Function.update_same, List.mem_append] at hd
          rcases hd with hd | hd
          · exact hraw d (List.mem_append_left _ hd)
          · exact hraw d (List.mem_append_right _ ((hsub.map Prod.snd).subset hd))
        · simp only [Function.update_same]
          exact ((List.Sublist.refl _).append (hsub.map Prod.snd)).nodup hdist
        · simp; omega
      · rename_i hne2
        injection heq with _ hw
        subst hw
        refine ⟨⟨by simpa using hv, by simpa using hl, by simpa using hcl, by simpa using hb⟩,
          ?_, (hsub.map Prod.fst).nodup haddrs, ?_, ?_, ?_⟩
        · intro x hx
          exact hbound x (hsub.subset hx)
        · intro d hd
          simp only [Function.update_same, List.mem_append] at hd
          rcases hd with hd | hd
          · exact hraw d (List.mem_append_left _ hd)
          · exact hraw d (List.mem_append_right _ ((hsub.map Prod.snd).subset hd))
        · simp only [Function.update_same]
          exact ((List.Sublist.refl _).append (hsub.map Prod.snd)).nodup hdist
        · simp; omega
    · simp at hs

theorem lending_run (fuel p : Nat) (calls : List Lend) :
    ∀ (w w2 : World) (out out2 : List (Nat × NetConn)),
      Lending p w out → lendRun fuel p calls (w, out) = some (w2, out2) → Lending p w2 out2 := by
  induction calls with
  | nil =>
    intro w w2 out out2 h hs
    simp only [lendRun, Option.some.injEq, Prod.mk.injEq] at hs
    obtain ⟨rfl, rfl⟩ := hs
    exact h
  | cons c cs ih =>
    intro w w2 out out2 h hs
    rw [lendRun] at hs
    cases hstep : lendStep fuel p c (w, out) with
    | none => simp [hstep] at hs
    | some s1 =>
      obtain ⟨w1, out1⟩ := s1
      simp only [hstep] at hs
      have h1 : Lending p w1 out1 := by
        cases c with
        | get => exact lending_get fuel p w w1 out out1 h hstep
        | close a d => exact lending_close fuel p w w1 out out1 a d h hstep
        | terminate a d => exact lending_terminate fuel p w w1 out out1 a d h hstep
      exact ih w1 w2 out1 out2 h1 hs

theorem lending_created (w w1 : World) (p : Nat) (n : Int) (f : Nat → NetConn × Option Err)
    (hraw : ∀ k : Nat, (k : Int) < n → ∃ id, f k = (NetConn.raw id, none))
    (hdist : ((List.range n.toNat).map (fun k => (f k).1)).Nodup)
    (hcreate : CreatePool n f w = Res.ret (some p, none) w1) :
    Lending p w1 [] := by
  have hn : 1 ≤ n := by
    by_contra hlt
    simp [CreatePool, not_le.mp hlt] at hcreate
  have hf : ∀ k : Nat, (k : Int) < n → (f k).2 = none := by
    intro k hk
    obtain ⟨id, hid⟩ := hraw k hk
    rw [hid]
  have hi : n ≤ maxInt := by
    by_contra hlt
    rw [CreatePool_crash w n f hn (Or.inl (not_le.mp hlt))] at hcreate
    cases hcreate
  have hm : n.toNat ≤ w.chanCap := by
    by_contra hlt
    rw [CreatePool_crash w n f hn (Or.inr (not_le.mp hlt))] at hcreate
    cases hcreate
  obtain ⟨hrun, hp⟩ := createPool_live w n f hn hi hm hf
  rw [hrun] at hcreate
  injection hcreate with h1 h2
  injection h1 with h1 _
  injection h1 with h1
  subst h1
  subst h2
  refine ⟨⟨by rw [hp], by rw [hp], by rw [hp], by rw [hp]; simp⟩, by simp, by simp, ?_, ?_, ?_⟩
  · intro c hc
    rw [hp] at hc
    simp only [List.map_nil, List.append_nil, List.mem_map, List.mem_range] at hc
    obtain ⟨k, hk, rfl⟩ := hc
    obtain ⟨id, hid⟩ := hraw k (by omega)
    rw [hid]
    rfl
  · rw [hp]
    simpa using hdist
  · rw [hp]
    simp

theorem lendStep_get (fuel p a : Nat) (c : NetConn) (w w1 : World)
    (out : List (Nat × NetConn))
    (h : ConnPool.Get p w = Res.ret (NetConn.conn a c, none) w1) :
    lendStep fuel p Lend.get (w, out) = some (w1, out ++ [(a, c)]) := by
  simp [lendStep, h]

theorem lendStep_close (fuel p a : Nat) (c : NetConn) (w w1 : World) (r : Option Err)
    (out : List (Nat × NetConn)) (hmem : (a, c) ∈ out)
    (h : Conn.Close fuel a c w = Res.ret r w1) :
    lendStep fuel p (Lend.close a c) (w, out) = some (w1, out.erase (a, c)) := by
  simp [lendStep, hmem, h]

theorem emptyWorld_close :
    Conn.Close 1 0 (NetConn.raw 0) emptyWorld =
      Res.ret none (recycled 0 (NetConn.raw 0) emptyWorld) :=
  (Conn_Close_bound 0 0 0 _ emptyWorld rfl).trans
    (RecycleWith_room _ 0 _ emptyWorld rfl rfl rfl (by decide) (by decide))

theorem emptyWorld_close_again :
    Conn.Close 1 0 (NetConn.raw 0) (recycled 0 (NetConn.raw 0) emptyWorld) =
      Res.ret none (recycled 0 (NetConn.raw 0) (recycled 0 (NetConn.raw 0) emptyWorld)) :=
  (Conn_Close_bound 0 0 0 _ _ rfl).trans
    (RecycleWith_room _ 0 _ _ rfl rfl rfl (by decide) (by decide))

theorem liveWorld_lend :
    lendRun 1 0 [Lend.get, Lend.get, Lend.close 0 (NetConn.raw 0)] (liveWorld, []) =
      some (recycled 0 (NetConn.raw 0) emptyWorld, [(1, NetConn.raw 1)]) := by
  simp only [lendRun, lendStep_get 1 0 0 _ _ _ [] liveWorld_get,
    lendStep_get 1 0 1 _ _ _ _ lentWorld_get, List.nil_append, List.cons_append]
  rw [lendStep_close 1 0 0 _ _ _ none _ (by simp) emptyWorld_close]
  rfl

theorem loop_some (p : Nat) (n : Int) (fuel : Nat) :
    ∀ (i : Int) (w w1 : World) (q : Nat),
      0 ≤ i → (w.pools p).locked = false → (w.pools p).closed = false →
      (w.pools p).initSize = n → (w.pools p).cnt = i →
      (w.pools p).conns.length = i.toNat →
      CreatePool.loop p n fuel i w = Res.ret (some q, none) w1 →
      q = p ∧ ∀ k, k < (n - i).toNat →
        ((w.pools p).connCreator ((w.pools p).dialed + k)).2 = none := by
  induction fuel with
  | zero =>
    intro i w w1 q hi hl hcl hn hc hlen h
    by_cases hlt : i < n
    · simp [CreatePool.loop, hlt, timeout] at h
    · simp only [CreatePool.loop, hlt, if_false, Go.pure_run] at h
      injection h with h1 _
      injection h1 with h1 _
      injection h1 with h1
      exact ⟨h1.symm, fun k hk => by omega⟩
  | succ fuel ih =>
    intro i w w1 q hi hl hcl hn hc hlen h
    by_cases hlt : i < n
    · cases hf : ((w.pools p).connCreator (w.pools p).dialed).2 with
      | some e =>
        rw [CreatePool.loop] at h
        simp only [hlt, if_true, Go.bind_run, Go.bind,
          createConn_fail p w e hl (by omega) hf, Option.isSome_some, Go.ite_run,
          Go.pure_run] at h
        injection h with h1 _
        injection h1 with h1 _
        cases h1
      | none =>
        rw [loop_step p n fuel i w hlt hl hcl (by omega) (by omega) hf] at h
        obtain ⟨hq, hrest⟩ := ih (i + 1) (fillStep p w) w1 q (by omega)
          (by simp [fillStep, hl]) (by simp [fillStep, hcl]) (by simp [fillStep, hn])
          (by simp [fillStep, hc]) (by simp [fillStep]; omega) h
        refine ⟨hq, fun k hk => ?_⟩
        cases k with
        | zero => simpa using hf
        | succ k =>
          have := hrest k (by omega)
          simpa [fillStep, add_assoc, add_comm 1] using this
    · rw [CreatePool.loop] at h
      simp only [hlt, if_false, Go.pure_run] at h
      injection h with h1 _
      injection h1 with h1 _
      injection h1 with h1
      exact ⟨h1.symm, fun k hk => by omega⟩

theorem createPool_some (w w1 : World) (p : Nat) (n : Int) (f : Nat → NetConn × Option Err)
    (h : CreatePool n f w = Res.ret (some p, none) w1) :
    1 ≤ n ∧ n ≤ maxInt ∧ n.toNat ≤ w.chanCap ∧ p = w.nextPool ∧
    (∀ k : Nat, (k : Int) < n → (f k).2 = none) ∧
    w1 = fillSteps w.nextPool n.toNat (freshWorld w n f) := by
  have hn : 1 ≤ n := by
    by_contra hlt
    simp [CreatePool, not_le.mp hlt] at h
  have hi : n ≤ maxInt := by
    by_contra hlt
    rw [CreatePool_crash w n f hn (Or.inl (not_le.mp hlt))] at h
    cases h
  have hm : n.toNat ≤ w.chanCap := by
    by_contra hlt
    rw [CreatePool_crash w n f hn (Or.inr (not_le.mp hlt))] at h
    cases h
  have h2 := h
  rw [CreatePool_unfold w n f hn hi hm] at h2
  obtain ⟨hq, hf⟩ := loop_some w.nextPool n n.toNat 0 (freshWorld w n f) w1 p (le_refl _)
    (by simp [freshWorld]) (by simp [freshWorld]) (by simp [freshWorld]) (by simp [freshWorld])
    (by simp [freshWorld]) h2
  have hf2 : ∀ k : Nat, (k : Int) < n → (f k).2 = none := by
    intro k hk
    have := hf k (by omega)
    simpa [freshWorld] using this
  refine ⟨hn, hi, hm, hq, hf2, ?_⟩
  rw [(createPool_live w n f hn hi hm hf2).1] at h
  injection h with _ h3
  exact h3.symm

theorem createPool_pool (w w1 : World) (p : Nat) (n : Int) (f : Nat → NetConn × Option Err)
    (h : CreatePool n f w = Res.ret (some p, none) w1) :
    w1.pools p =
      { locked := false, conns := (List.range n.toNat).map (fun k => (f k).1), closed := false,
        initSize := n, cnt := n, valid := true, connCreator := f, dialed := n.toNat } := by
  obtain ⟨hn, hi, hm, hp, hf, hw⟩ := createPool_some w w1 p n f h
  rw [hw, hp]
  exact (createPool_live w n f hn hi hm hf).2

theorem run_get (fuel p : Nat) (w w1 : World) (r : NetConn × Option Err)
    (h : ConnPool.Get p w = Res.ret r w1) :
    Call.run fuel p Call.get w = Res.ret () w1 := by
  simp [Call.run, Go.bind, h]

theorem run_terminate (fuel p a : Nat) (c : NetConn) (w w1 : World) (r : Option Err)
    (h : Conn.Terminate fuel a c w = Res.ret r w1) :
    Call.run fuel p (Call.terminate a c) w = Res.ret () w1 := by
  simp [Call.run, Go.bind, h]

theorem liveWorld_get_terminate :
    runCalls 1 0 [Call.get, Call.terminate 0 (NetConn.raw 0)] liveWorld =
      Res.ret () orphanWorld := by
  rw [runCalls_cons _ _ _ _ _ _ (run_get 1 0 _ _ _ liveWorld_get),
    runCalls_cons _ _ _ _ _ _ (run_terminate 1 0 0 _ _ _ _ lentWorld_terminate)]
  rfl

theorem created_length_le (w : World) (p : Nat) : (created w p).length ≤ (w.pools p).dialed := by
  simp only [created, List.length_map]
  exact (List.length_filter_le _ _).trans (by rw [List.length_range])

/-- If `Close` returns on a live pool then it returns no error and the pool is shut; and on
every shut pool `IsValid` returns false, `Get`, `Recycle c` and `Close` fail with "Invalid
Pool" while `Destroy c` fails with "Closed Pool", for every argument `c`, each call leaving
the pool shut and touching nothing but the mutex. -/
theorem closed_pool_rejects (fuel : Nat) (w : World) (p : Nat) (r : Option Err) (w1 : World)
    (hlive : Live w p) (hclose : ConnPool.Close fuel p w = Res.ret r w1) :
    r = none ∧ Shut w1 p ∧
    ∀ w2 : World, Shut w2 p →
      ConnPool.IsValid p w2 =
        Res.ret false { w2 with trace := w2.trace ++ [Event.lock p, Event.unlock p] } ∧
      ConnPool.Get p w2 = Res.ret (NetConn.nil, some "Invalid Pool")
        { w2 with trace := w2.trace ++ [Event.lock p, Event.unlock p] } ∧
      (∀ fuel2 c, ConnPool.Recycle fuel2 p c w2 = Res.ret (some "Invalid Pool")
        { w2 with trace := w2.trace ++ [Event.lock p, Event.unlock p] }) ∧
      (∀ fuel2 c, ConnPool.Destroy fuel2 p c w2 = Res.ret (some "Closed Pool")
        { w2 with trace := w2.trace ++ [Event.lock p, Event.unlock p] }) ∧
      (∀ fuel2, ConnPool.Close fuel2 p w2 = Res.ret (some "Invalid Pool")
        { w2 with trace := w2.trace ++ [Event.lock p, Event.unlock p] }) ∧
      Shut { w2 with trace := w2.trace ++ [Event.lock p, Event.unlock p] } p := by
  obtain ⟨hr, hshut⟩ := Close_live_ret fuel p w r w1 hlive hclose
  refine ⟨hr, hshut, fun w2 h2 => ⟨?_, Get_invalid p w2 h2.invalid h2.unlocked,
    fun fuel2 c => RecycleWith_invalid _ p c w2 h2.invalid h2.unlocked,
    fun fuel2 c => Destroy_invalid fuel2 p c w2 h2.invalid h2.unlocked,
    fun fuel2 => Close_invalid fuel2 p w2 h2.invalid h2.unlocked,
    ⟨h2.invalid, h2.unlocked⟩⟩⟩
  rw [IsValid_run p w2 h2.unlocked, h2.invalid]

/-- The pool of `liveWorld`: its `Close` returns in `shutWorld`, where `Destroy` fails. -/
theorem closed_pool_rejects_witness :
    Live liveWorld 0 ∧ ConnPool.Close 3 0 liveWorld = Res.ret none shutWorld ∧
    Shut shutWorld 0 ∧
    ConnPool.Destroy 1 0 (NetConn.raw 0) shutWorld = Res.ret (some "Closed Pool")
      { shutWorld with trace := shutWorld.trace ++ [Event.lock 0, Event.unlock 0] } :=
  have h := closed_pool_rejects 3 liveWorld 0 none shutWorld liveWorld_live liveWorld_close
  ⟨liveWorld_live, liveWorld_close, h.2.1, (h.2.2 shutWorld h.2.1).2.2.2.1 1 (NetConn.raw 0)⟩

/-- On a live pool, for a wrapper bound to the pool around a foreign connection whose
`Close` succeeds, `Terminate` returns no error, lowers `cnt` by one, calls `Close` on the
foreign connection exactly once, leaves the channel as it was and clears the wrapper's field
`pool`. -/
theorem terminate_discards (fuel : Nat) (w : World) (p a id : Nat)
    (hlive : Live w p) (ha : w.poolOf a = some p)
    (hok : w.closeResult id (w.trace.count (Event.close id)) = none) :
    ∃ w1 : World,
      Conn.Terminate (fuel + 1) a (NetConn.raw id) w = Res.ret none w1 ∧
      (w1.pools p).cnt = (w.pools p).cnt - 1 ∧
      w1.trace = w.trace ++
        [Event.lock p, Event.unlock p, Event.lock p, Event.unlock p, Event.close id] ∧
      w1.trace.count (Event.close id) = w.trace.count (Event.close id) + 1 ∧
      (w1.pools p).conns = (w.pools p).conns ∧
      w1.poolOf a = none := by
  obtain ⟨hv, hl, hcl, hb⟩ := hlive
  have hD := Destroy_valid (fuel + 1) p (NetConn.raw id) w hv hl
  rw [closeConn_raw] at hD
  simp only [List.count_append, List.count_cons, List.count_nil, beq_iff_eq, reduceCtorEq,
    if_false, add_zero, hok] at hD
  refine ⟨_, by rw [Terminate_bound _ _ p _ _ ha, hD], ?_, ?_, ?_, ?_, ?_⟩ <;>
    simp [List.count_append, List.count_cons]

/-- The wrapper at address 0 that `Get` returned on the pool of `liveWorld`. -/
theorem terminate_discards_witness :
    Live lentWorld 0 ∧ lentWorld.poolOf 0 = some 0 ∧
    ∃ w1 : World,
      Conn.Terminate 1 0 (NetConn.raw 0) lentWorld = Res.ret none w1 ∧
      (w1.pools 0).cnt = (lentWorld.pools 0).cnt - 1 ∧
      w1.trace = lentWorld.trace ++
        [Event.lock 0, Event.unlock 0, Event.lock 0, Event.unlock 0, Event.close 0] ∧
      w1.trace.count (Event.close 0) = lentWorld.trace.count (Event.close 0) + 1 ∧
      (w1.pools 0).conns = (lentWorld.pools 0).conns ∧
      w1.poolOf 0 = none :=
  ⟨lentWorld_live, rfl, terminate_discards 0 lentWorld 0 0 0 lentWorld_live rfl rfl⟩

theorem Get_head (p : Nat) (w : World) (c : NetConn) (rest : List NetConn)
    (hv : (w.pools p).valid = true) (hl : (w.pools p).locked = false)
    (hc : (w.pools p).conns = c :: rest) :
    ConnPool.Get p w = Res.ret (NetConn.conn w.nextConn c, none) (afterGet p w) := by
  rw [Get_run p w c rest hv hl hc, afterGet, hc]
  rfl

theorem nilWorld_created : CreatePool 1 dialNil world0 = Res.ret (some 0, none) nilWorld := by
  rw [createPool_runs world0 1 dialNil 1 (by decide) (by decide) (by decide) (by decide)
      (fun _ _ => rfl),
    loop_done _ _ _ _ _ (by decide)]
  refine congrArg₂ Res.ret rfl ?_
  obtain ⟨hp, ht⟩ := fillSteps_pool world0.nextPool 1 (freshWorld world0 1 dialNil)
  obtain ⟨h1, h2, h3, h4, h5⟩ := fillSteps_frame world0.nextPool 1 (freshWorld world0 1 dialNil)
  ext1
  · funext q
    by_cases hq : q = 0
    · subst hq
      exact hp.trans (by simp [freshWorld, nilWorld, world0, dialNil, List.range'])
    · rw [h5 q hq]; simp [freshWorld, nilWorld, world0, hq]
  · exact h1
  · exact h2
  · exact h3
  · exact h4
  · exact fillSteps_chanCap _ _ _
  · exact ht

theorem nilWorld_live : Live nilWorld 0 := ⟨rfl, rfl, rfl, by decide⟩

theorem nilWorld_get :
    ConnPool.Get 0 nilWorld = Res.ret (NetConn.conn 0 NetConn.nil, none) (afterGet 0 nilWorld) :=
  Get_head 0 nilWorld NetConn.nil [] rfl rfl rfl

theorem nilWorld_close :
    Conn.Close 1 0 NetConn.nil (afterGet 0 nilWorld) =
      Res.ret (some "Closed Conn cannot be recycled") (afterNil 0 (afterGet 0 nilWorld)) :=
  (Conn_Close_bound 0 0 0 _ _ rfl).trans (RecycleWith_nil _ 0 _ rfl rfl)

theorem Close_unfold (fuel : Nat) (p : Nat) (w : World) (hlive : Live w p) :
    ConnPool.Close fuel p w =
      Go.bind (ConnPool.Close.drain p fuel) (fun _ => do unlock p; return none)
        (closing p w) := by
  obtain ⟨hv, hl, hcl, _⟩ := hlive
  simp only [ConnPool.Close, IsValid_run p w hl, Go.bind_run, Go.bind, hv, lock, getPool,
    modifyPool, emit, hl, chanClose, hcl, Go.ite_run, Go.pure_run, Function.update_same,
    Function.update_idem, beq_self_eq_true, Bool.true_eq_false, if_false, Bool.false_eq_true,
    beq_iff_eq, List.append_assoc, List.singleton_append, List.cons_append, List.nil_append,
    closing]

theorem drain_nil_head (p : Nat) (fuel : Nat) (w : World) (rest : List NetConn)
    (hc : (w.pools p).conns = NetConn.nil :: rest) :
    ConnPool.Close.drain p (fuel + 2) w =
      Res.crash { w with pools := Function.update w.pools p { w.pools p with conns := rest } } := by
  rw [ConnPool.Close.drain]
  simp only [getPool, Go.bind_run, Go.bind, hc, modifyPool, closeConn, crash]

theorem drain_locked_head (p a : Nat) (inner : NetConn) (fuel : Nat) (w : World)
    (rest : List NetConn) (hc : (w.pools p).conns = NetConn.conn a inner :: rest)
    (ha : w.poolOf a = some p) (hl : (w.pools p).locked = true) :
    ConnPool.Close.drain p (fuel + 2) w =
      Res.blocked { w with pools := Function.update w.pools p { w.pools p with conns := rest } } := by
  rw [ConnPool.Close.drain]
  simp only [getPool, Go.bind_run, Go.bind, hc, modifyPool, closeConn, Conn.CloseWith, getPoolOf,
    ha, reduceCtorEq, if_false, Go.ite_run, Go.pure_run, ConnPool.RecycleWith, ConnPool.IsValid,
    lock, Function.update_same, hl, if_true, block]

theorem drain_short (p : Nat) (c : NetConn) (w : World) (rest : List NetConn) (fuel : Nat)
    (hf : fuel < 2) (hc : (w.pools p).conns = c :: rest) :
    ConnPool.Close.drain p fuel w = Res.timeout := by
  obtain rfl | rfl : fuel = 0 ∨ fuel = 1 := by omega
  · rfl
  · rw [ConnPool.Close.drain]
    simp only [getPool, Go.bind_run, Go.bind, hc, modifyPool, closeConn, timeout]

theorem Close_nil_head (p : Nat) (w : World) (rest : List NetConn) (hlive : Live w p)
    (hc : (w.pools p).conns = NetConn.nil :: rest) :
    (∃ w1, ConnPool.Close 2 p w = Res.crash w1) ∧
    ∀ fuel r w1, ConnPool.Close fuel p w ≠ Res.ret r w1 := by
  refine ⟨⟨_, by rw [Close_unfold 2 p w hlive, Go.bind,
    drain_nil_head p 0 (closing p w) rest (by simpa [closing] using hc)]⟩, fun fuel r w1 h => ?_⟩
  rw [Close_unfold fuel p w hlive, Go.bind] at h
  by_cases hf : fuel < 2
  · rw [drain_short p NetConn.nil (closing p w) rest fuel hf (by simpa [closing] using hc)] at h
    cases h
  · obtain ⟨m, rfl⟩ : ∃ m, fuel = m + 2 := ⟨fuel - 2, by omega⟩
    rw [drain_nil_head p m (closing p w) rest (by simpa [closing] using hc)] at h
    cases h

theorem Close_own_wrapper (p a : Nat) (inner : NetConn) (w : World) (rest : List NetConn)
    (hlive : Live w p) (hc : (w.pools p).conns = NetConn.conn a inner :: rest)
    (ha : w.poolOf a = some p) :
    (∃ w1, ConnPool.Close 2 p w = Res.blocked w1) ∧
    ∀ fuel r w1, ConnPool.Close fuel p w ≠ Res.ret r w1 := by
  refine ⟨⟨_, by rw [Close_unfold 2 p w hlive, Go.bind,
    drain_locked_head p a inner 0 (closing p w) rest (by simpa [closing] using hc) ha
      (by simp [closing])]⟩,
    fun fuel r w1 h => ?_⟩
  rw [Close_unfold fuel p w hlive, Go.bind] at h
  by_cases hf : fuel < 2
  · rw [drain_short p _ (closing p w) rest fuel hf (by simpa [closing] using hc)] at h
    cases h
  · obtain ⟨m, rfl⟩ : ∃ m, fuel = m + 2 := ⟨fuel - 2, by omega⟩
    rw [drain_locked_head p a inner m (closing p w) rest (by simpa [closing] using hc) ha
      (by simp [closing])] at h
    cases h

theorem lentWorld_recycle_wrapper :
    ConnPool.Recycle 1 0 (NetConn.conn 0 (NetConn.raw 0)) lentWorld =
      Res.ret none (recycled 0 (NetConn.conn 0 (NetConn.raw 0)) lentWorld) :=
  RecycleWith_room _ 0 _ lentWorld rfl rfl rfl (by decide) (by decide)

theorem Destroy_live (fuel : Nat) (p : Nat) (c : NetConn) (w : World)
    (hv : (w.pools p).valid = true) (hl : (w.pools p).locked = false) :
    ConnPool.Destroy fuel p c w = closeConn fuel c (afterNil p w) :=
  Destroy_valid fuel p c w hv hl

theorem closeConn_bound (fuel : Nat) (a p : Nat) (inner : NetConn) (w : World)
    (ha : w.poolOf a = some p) :
    closeConn (fuel + 1) (NetConn.conn a inner) w = ConnPool.Recycle fuel p inner w :=
  Conn_Close_bound fuel a p inner w ha

theorem rewrapWorld_terminate :
    Conn.Terminate 1 2 (NetConn.conn 0 (NetConn.raw 0)) rewrapWorld =
      Res.ret none (unbound 2 (recycled 0 (NetConn.raw 0) (afterNil 0 rewrapWorld))) := by
  have h := (closeConn_bound 0 0 0 (NetConn.raw 0) (afterNil 0 rewrapWorld) rfl).trans
    (RecycleWith_room _ 0 _ _ rfl rfl rfl (by decide) (by decide))
  rw [Terminate_bound 1 2 0 _ _ rfl, Destroy_live 1 0 _ _ rfl rfl, h]
  rfl

theorem RecycleWith_refused (close : NetConn → Go (Option Err)) (p : Nat) (c : NetConn)
    (w : World) (hv : (w.pools p).valid = true) (hl : (w.pools p).locked = false)
    (hcl : (w.pools p).closed = false) (hc : c ≠ NetConn.nil)
    (hfull : (w.pools p).initSize.toNat ≤ (w.pools p).conns.length) :
    ConnPool.RecycleWith close p c w = close c (refused p w) :=
  RecycleWith_full close p c w hv hl hcl hc hfull

theorem orphanWorld_recycle :
    ConnPool.Recycle 0 0 (NetConn.raw 5) orphanWorld =
      Res.ret none (recycled 0 (NetConn.raw 5) orphanWorld) :=
  RecycleWith_room _ 0 _ orphanWorld rfl rfl rfl (by decide) (by decide)

theorem orphan_recycle_diverges (fuel : Nat) :
    ConnPool.Recycle fuel 0 (NetConn.conn 0 (NetConn.raw 0))
      (recycled 0 (NetConn.raw 5) orphanWorld) = Res.timeout :=
  (RecycleWith_full _ 0 _ (recycled 0 (NetConn.raw 5) orphanWorld) rfl rfl rfl (by decide)
    (by decide)).trans (closeConn_orphan fuel 0 _ _ rfl)

theorem nilWorld_recycle :
    ConnPool.Recycle 0 0 (NetConn.raw 5) (afterGet 0 nilWorld) =
      Res.ret none (recycled 0 (NetConn.raw 5) (afterGet 0 nilWorld)) :=
  RecycleWith_room _ 0 _ (afterGet 0 nilWorld) rfl rfl rfl (by decide) (by decide)

theorem nilWorld_recycle_wrapper :
    ConnPool.Recycle 1 0 (NetConn.conn 0 NetConn.nil)
        (recycled 0 (NetConn.raw 5) (afterGet 0 nilWorld)) =
      Res.ret (some "Closed Conn cannot be recycled")
        (afterNil 0 (refused 0 (recycled 0 (NetConn.raw 5) (afterGet 0 nilWorld)))) :=
  (RecycleWith_refused _ 0 _ (recycled 0 (NetConn.raw 5) (afterGet 0 nilWorld)) rfl rfl rfl
    (by decide) (by decide)).trans
    ((closeConn_bound 0 0 0 NetConn.nil _ rfl).trans (RecycleWith_nil _ 0 _ rfl rfl))

theorem emptyWorld_recycle_wrapper :
    ConnPool.Recycle 0 0 (NetConn.conn 0 (NetConn.raw 0)) emptyWorld =
      Res.ret none (recycled 0 (NetConn.conn 0 (NetConn.raw 0)) emptyWorld) :=
  RecycleWith_room _ 0 _ emptyWorld rfl rfl rfl (by decide) (by decide)

theorem runCalls_append (fuel p : Nat) (cs ds : List Call) (w w1 : World)
    (h : runCalls fuel p cs w = Res.ret () w1) :
    runCalls fuel p (cs ++ ds) w = runCalls fuel p ds w1 := by
  induction cs generalizing w with
  | nil =>
    simp only [runCalls, Go.pure_run] at h
    injection h with _ h
    subst h
    rfl
  | cons c cs ih =>
    simp only [runCalls, Go.bind_run, Go.bind, List.cons_append] at h ⊢
    cases hc : Call.run fuel p c w with
    | ret u w2 =>
      rw [hc] at h
      simp only [hc]
      exact ih w2 h
    | blocked w2 => rw [hc] at h; cases h
    | crash w2 => rw [hc] at h; cases h
    | timeout => rw [hc] at h; cases h

theorem recycle_nil_once :
    runCalls 0 0 [Call.recycle NetConn.nil] liveWorld = Res.ret () (afterNil 0 liveWorld) := by
  rw [runCalls_cons _ _ _ _ _ _ (run_recycle_nil 0 0 liveWorld rfl rfl)]
  rfl

theorem recycle_nil_twice :
    runCalls 0 0 [Call.recycle NetConn.nil, Call.recycle NetConn.nil] (afterNil 0 liveWorld) =
      Res.ret () (afterNil 0 (afterNil 0 (afterNil 0 liveWorld))) := by
  rw [runCalls_cons _ _ _ _ _ _ (run_recycle_nil 0 0 _ rfl rfl),
    runCalls_cons _ _ _ _ _ _ (run_recycle_nil 0 0 _ rfl rfl)]
  rfl

theorem grows_of_pools (w w1 : World) (hp : w1.poolOf = w.poolOf) (hn : w1.nextConn = w.nextConn)
    (hc : ∀ q, (w1.pools q).conns = (w.pools q).conns) : Grows w w1 :=
  ⟨hp, hn, fun q => by rw [hc q]; omega⟩

theorem RecycleWith_grows (close : NetConn → Go (Option Err))
    (hclose : ∀ c w r w1, close c w = Res.ret r w1 → Grows w w1)
    (p : Nat) (c : NetConn) (w : World) (r : Option Err) (w1 : World)
    (h : ConnPool.RecycleWith close p c w = Res.ret r w1) : Grows w w1 := by
  by_cases hl : (w.pools p).locked = true
  · simp [ConnPool.RecycleWith, IsValid_eq, hl, Go.bind] at h
  simp only [Bool.not_eq_true] at hl
  by_cases hv : (w.pools p).valid = true
  swap
  · simp only [Bool.not_eq_true] at hv
    rw [RecycleWith_invalid close p c w hv hl] at h
    injection h with _ h
    subst h
    exact grows_of_pools _ _ rfl rfl (fun _ => rfl)
  by_cases hc : c = NetConn.nil
  · subst hc
    rw [RecycleWith_nil close p w hv hl] at h
    injection h with _ h
    subst h
    refine grows_of_pools _ _ rfl rfl (fun q => ?_)
    by_cases hq : q = p
    · subst hq; simp
    · simp [Function.update_noteq hq]
  by_cases hcl : (w.pools p).closed = true
  · simp [ConnPool.RecycleWith, IsValid_eq, hl, hv, Go.bind, hc, emit, chanTrySend, getPool, hcl,
      crash] at h
  simp only [Bool.not_eq_true] at hcl
  by_cases hroom : (w.pools p).conns.length < (w.pools p).initSize.toNat
  · rw [RecycleWith_room close p c w hv hl hcl hc hroom] at h
    injection h with _ h
    subst h
    refine ⟨rfl, rfl, fun q => ?_⟩
    by_cases hq : q = p
    · subst hq; simp
    · simp [Function.update_noteq hq]
  · rw [RecycleWith_refused close p c w hv hl hcl hc (by omega)] at h
    obtain ⟨g1, g2, g3⟩ := hclose _ _ _ _ h
    exact ⟨g1, g2, g3⟩

theorem closeConn_grows (fuel : Nat) :
    ∀ (c : NetConn) (w : World) (r : Option Err) (w1 : World),
      closeConn fuel c w = Res.ret r w1 → Grows w w1 := by
  induction fuel with
  | zero => intro c w r w1 h; simp [closeConn, timeout] at h
  | succ fuel ih =>
    intro c w r w1 h
    cases c with
    | nil => simp [closeConn, crash] at h
    | raw id =>
      rw [closeConn_raw] at h
      injection h with _ h
      subst h
      exact grows_of_pools _ _ rfl rfl (fun _ => rfl)
    | conn a inner =>
      cases ha : w.poolOf a with
      | none =>
        rw [closeConn_orphan (fuel + 1) a inner w ha] at h
        cases h
      | some p =>
        rw [closeConn_bound fuel a p inner w ha] at h
        exact RecycleWith_grows _ ih p inner w r w1 h

theorem lent_get (fuel p : Nat) (n : Int) (w w1 : World) (out out1 : List (Nat × NetConn))
    (h : Lent p n w out) (hs : lendStep fuel p Lend.get (w, out) = some (w1, out1)) :
    Lent p n w1 out1 := by
  obtain ⟨⟨hv, hl, hcl, hb⟩, hcap, hbound, haddrs, hroom⟩ := h
  cases hc : (w.pools p).conns with
  | nil =>
    simp [lendStep, Get_empty p w hv hl hcl hc] at hs
  | cons c rest =>
    simp only [lendStep, Get_run p w c rest hv hl hc, Option.some.injEq, Prod.mk.injEq] at hs
    obtain ⟨rfl, rfl⟩ := hs
    rw [hc] at hroom hb
    refine ⟨⟨by simpa using hv, by simpa using hl, by simpa using hcl, ?_⟩, by simpa using hcap,
      ?_, ?_, ?_⟩
    · simp at hb ⊢; omega
    · intro x hx
      rcases List.mem_append.mp hx with hx | hx
      · obtain ⟨h1, h2⟩ := hbound x hx
        have hne : x.1 ≠ w.nextConn := by omega
        exact ⟨by simpa [Function.update_noteq hne] using h1, by simp; omega⟩
      · simp at hx
        subst hx
        simp
    · rw [List.map_append, List.nodup_append]
      refine ⟨haddrs, by simp, ?_⟩
      intro a ha1 ha2
      simp at ha2
      obtain ⟨x, hx, rfl⟩ := List.mem_map.mp ha1
      have := (hbound x hx).2
      omega
    · simp at hroom ⊢; omega

theorem lent_close (fuel p : Nat) (n : Int) (w w1 : World) (out out1 : List (Nat × NetConn))
    (a : Nat) (c : NetConn)
    (h : Lent p n w out) (hs : lendStep fuel p (Lend.close a c) (w, out) = some (w1, out1)) :
    Lent p n w1 out1 := by
  obtain ⟨⟨hv, hl, hcl, hb⟩, hcap, hbound, haddrs, hroom⟩ := h
  by_cases hmem : (a, c) ∈ out
  swap
  · simp [lendStep, hmem] at hs
  have hpos : 0 < out.length := List.length_pos_of_mem hmem
  have hsub : (out.erase (a, c)).Sublist out := List.erase_sublist _ _
  have hlen : (out.erase (a, c)).length = out.length - 1 := List.length_erase_of_mem hmem
  cases fuel with
  | zero => simp [lendStep, hmem, Conn.Close, closeConn, timeout] at hs
  | succ fuel =>
    by_cases hcnil : c = NetConn.nil
    · subst hcnil
      have hrun := (Conn_Close_bound fuel a p NetConn.nil w (hbound _ hmem).1).trans
        (RecycleWith_nil (closeConn fuel) p w hv hl)
      simp only [lendStep, hmem, if_true, hrun, Option.some.injEq, Prod.mk.injEq] at hs
      obtain ⟨rfl, rfl⟩ := hs
      refine ⟨⟨by simpa using hv, by simpa using hl, by simpa using hcl, by simpa using hb⟩,
        by simpa using hcap, fun x hx => hbound x (hsub.subset hx),
        (hsub.map Prod.fst).nodup haddrs, ?_⟩
      simp; omega
    · have hrun := (Conn_Close_bound fuel a p c w (hbound _ hmem).1).trans
        (RecycleWith_room (closeConn fuel) p c w hv hl hcl hcnil (by rw [hcap]; omega))
      simp only [lendStep, hmem, if_true, hrun, Option.some.injEq, Prod.mk.injEq] at hs
      obtain ⟨rfl, rfl⟩ := hs
      refine ⟨⟨by simpa using hv, by simpa using hl, by simpa using hcl, ?_⟩,
        by simpa using hcap, fun x hx => hbound x (hsub.subset hx),
        (hsub.map Prod.fst).nodup haddrs, ?_⟩
      · simp; rw [hcap]; omega
      · simp; omega

theorem lent_terminate (fuel p : Nat) (n : Int) (w w1 : World) (out out1 : List (Nat × NetConn))
    (a : Nat) (c : NetConn)
    (h : Lent p n w out)
    (hs : lendStep fuel p (Lend.terminate a c) (w, out) = some (w1, out1)) :
    Lent p n w1 out1 := by
  obtain ⟨⟨hv, hl, hcl, hb⟩, hcap, hbound, haddrs, hroom⟩ := h
  by_cases hmem : (a, c) ∈ out
  swap
  · simp [lendStep, hmem] at hs
  have hpos : 0 < out.length := List.length_pos_of_mem hmem
  have hsub : (out.erase (a, c)).Sublist out := List.erase_sublist _ _
  have hlen : (out.erase (a, c)).length = out.length - 1 := List.length_erase_of_mem hmem
  have hT := Terminate_bound fuel a p c w (hbound _ hmem).1
  rw [Destroy_live fuel p c w hv hl] at hT
  cases hcc : closeConn fuel c (afterNil p w) with
  | ret r2 w2 =>
    obtain ⟨g1, g2, g3⟩ := closeConn_grows fuel c _ r2 w2 hcc
    obtain ⟨f1, f2, f3, f4, _, _⟩ := closeConn_frame fuel c _ r2 w2 hcc p
    have e1 : (w2.pools p).valid = true := by rw [f1]; simpa [afterNil] using hv
    have e2 : (w2.pools p).locked = false := by rw [f2]; simpa [afterNil] using hl
    have e3 : (w2.pools p).closed = false := by rw [f3]; simpa [afterNil] using hcl
    have e4 : (w2.pools p).initSize = n := by rw [f4]; simpa [afterNil] using hcap
    have e5 : (w2.pools p).conns.length ≤ (w.pools p).conns.length + 1 := by
      have := g3 p
      simpa [afterNil] using this
    have e6 : w2.poolOf = w.poolOf := by rw [g1]; rfl
    have e7 : w2.nextConn = w.nextConn := by rw [g2]; rfl
    rw [hcc] at hT
    cases r2 with
    | none =>
      simp only [lendStep, hmem, if_true, hT, Option.some.injEq, Prod.mk.injEq] at hs
      obtain ⟨rfl, rfl⟩ := hs
      refine ⟨⟨e1, e2, e3, ?_⟩, e4, ?_, (hsub.map Prod.fst).nodup haddrs, ?_⟩
      · show (w2.pools p).conns.length ≤ (w2.pools p).initSize.toNat
        rw [e4]; omega
      · intro x hx
        have hne := lending_erase_fst out a _ hmem haddrs x hx
        obtain ⟨h1, h2⟩ := hbound x (hsub.subset hx)
        refine ⟨?_, ?_⟩
        · show Function.update w2.poolOf a none x.1 = some p
          rw [Function.update_noteq hne, e6]; exact h1
        · show x.1 < w2.nextConn
          rw [e7]; exact h2
      · show (w2.pools p).conns.length + (out.erase (a, c)).length ≤ n.toNat
        omega
    | some e =>
      simp only [lendStep, hmem, if_true, hT, Option.some.injEq, Prod.mk.injEq] at hs
      obtain ⟨rfl, rfl⟩ := hs
      refine ⟨⟨e1, e2, e3, ?_⟩, e4, ?_, (hsub.map Prod.fst).nodup haddrs, ?_⟩
      · rw [e4]; omega
      · intro x hx
        obtain ⟨h1, h2⟩ := hbound x (hsub.subset hx)
        exact ⟨by rw [e6]; exact h1, by rw [e7]; exact h2⟩
      · omega
  | blocked w2 => rw [hcc] at hT; simp [lendStep, hmem, hT] at hs
  | crash w2 => rw [hcc] at hT; simp [lendStep, hmem, hT] at hs
  | timeout => rw [hcc] at hT; simp [lendStep, hmem, hT] at hs

theorem lent_run (fuel p : Nat) (n : Int) (calls : List Lend) :
    ∀ (w w2 : World) (out out2 : List (Nat × NetConn)),
      Lent p n w out → lendRun fuel p calls (w, out) = some (w2, out2) → Lent p n w2 out2 := by
  induction calls with
  | nil =>
    intro w w2 out out2 h hs
    simp only [lendRun, Option.some.injEq, Prod.mk.injEq] at hs
    obtain ⟨rfl, rfl⟩ := hs
    exact h
  | cons c cs ih =>
    intro w w2 out out2 h hs
    rw [lendRun] at hs
    cases hstep : lendStep fuel p c (w, out) with
    | none => simp [hstep] at hs
    | some s1 =>
      obtain ⟨w1, out1⟩ := s1
      simp only [hstep] at hs
      have h1 : Lent p n w1 out1 := by
        cases c with
        | get => exact lent_get fuel p n w w1 out out1 h hstep
        | close a d => exact lent_close fuel p n w w1 out out1 a d h hstep
        | terminate a d => exact lent_terminate fuel p n w w1 out out1 a d h hstep
      exact ih w1 w2 out1 out2 h1 hs

theorem lent_created (w w1 : World) (p : Nat) (n : Int) (f : Nat → NetConn × Option Err)
    (hcreate : CreatePool n f w = Res.ret (some p, none) w1) :
    Lent p n w1 [] := by
  have hp := createPool_pool w w1 p n f hcreate
  refine ⟨⟨by rw [hp], by rw [hp], by rw [hp], by rw [hp]; simp⟩, by rw [hp], by simp, by simp, ?_⟩
  rw [hp]; simp

theorem lend_gets (fuel p : Nat) (n : Int) :
    ∀ (k : Nat) (w : World) (out : List (Nat × NetConn)), Lent p n w out →
      k ≤ (w.pools p).conns.length →
      ∃ w2 out2, lendRun fuel p (List.replicate k Lend.get) (w, out) = some (w2, out2) ∧
        out2.length = out.length + k ∧
        out2.map Prod.snd = out.map Prod.snd ++ (w.pools p).conns.take k := by
  intro k
  induction k with
  | zero => intro w out _ _; exact ⟨w, out, rfl, rfl, by simp⟩
  | succ k ih =>
    intro w out h hk
    cases hc : (w.pools p).conns with
    | nil => rw [hc] at hk; simp at hk
    | cons c rest =>
      have hstep := lendStep_get fuel p w.nextConn c w _ out
        (Get_run p w c rest h.live.valid h.live.unlocked hc)
      have h1 := lent_get fuel p n w _ out _ h hstep
      obtain ⟨w2, out2, hrun, hlen, hmap⟩ := ih _ _ h1 (by rw [hc] at hk; simp at hk ⊢; omega)
      refine ⟨w2, out2, ?_, ?_, ?_⟩
      · rw [List.replicate_succ, lendRun, hstep]
        exact hrun
      · rw [hlen]; simp; omega
      · rw [hmap]; simp

theorem lend_gets_length (fuel p : Nat) :
    ∀ (m : Nat) (w w2 : World) (out out2 : List (Nat × NetConn)),
      lendRun fuel p (List.replicate m Lend.get) (w, out) = some (w2, out2) →
      out2.length = out.length + m := by
  intro m
  induction m with
  | zero =>
    intro w w2 out out2 h
    simp only [List.replicate_zero, lendRun, Option.some.injEq, Prod.mk.injEq] at h
    rw [← h.2]; rfl
  | succ m ih =>
    intro w w2 out out2 h
    rw [List.replicate_succ, lendRun] at h
    cases hstep : lendStep fuel p Lend.get (w, out) with
    | none => simp [hstep] at h
    | some s1 =>
      obtain ⟨w1, out1⟩ := s1
      simp only [hstep] at h
      have h1 := ih w1 w2 out1 out2 h
      have h2 : out1.length = out.length + 1 := by
        simp only [lendStep] at hstep
        split at hstep
        · simp only [Option.some.injEq, Prod.mk.injEq] at hstep
          rw [← hstep.2]; simp
        · cases hstep
      omega

theorem Terminate_raw_empty (fuel p a id : Nat) (w : World) (hlive : Live w p)
    (ha : w.poolOf a = some p) (hc : (w.pools p).conns = []) :
    ∃ r w1 w2, Conn.Terminate (fuel + 1) a (NetConn.raw id) w = Res.ret r w1 ∧
      (w1.pools p).cnt = (w.pools p).cnt - 1 ∧
      0 < w1.trace.count (Event.close id) ∧
      (w1.pools p).conns = [] ∧
      ConnPool.Get p w1 = Res.blocked w2 := by
  obtain ⟨hv, hl, hcl, hb⟩ := hlive
  have hT := Terminate_bound (fuel + 1) a p (NetConn.raw id) w ha
  rw [Destroy_live (fuel + 1) p _ w hv hl, closeConn_raw] at hT
  cases hr : (afterNil p w).closeResult id ((afterNil p w).trace.count (Event.close id)) with
  | none =>
    rw [hr] at hT
    refine ⟨_, _, _, hT, by simp [afterNil], by simp [afterNil, List.count_append],
      by simp [afterNil, hc], Get_empty p _ ?_ ?_ ?_ ?_⟩ <;> simp [afterNil, hv, hl, hcl, hc]
  | some e =>
    rw [hr] at hT
    refine ⟨_, _, _, hT, by simp [afterNil], by simp [afterNil, List.count_append],
      by simp [afterNil, hc], Get_empty p _ ?_ ?_ ?_ ?_⟩ <;> simp [afterNil, hv, hl, hcl, hc]

theorem Close_then_get (fuel p a : Nat) (c : NetConn) (w : World) (hlive : Live w p)
    (ha : w.poolOf a = some p) (hc : (w.pools p).conns = []) (hn : c ≠ NetConn.nil)
    (hcap : 0 < (w.pools p).initSize.toNat) :
    ∃ w1 w2, Conn.Close (fuel + 1) a c w = Res.ret none w1 ∧
      ConnPool.Get p w1 = Res.ret (NetConn.conn w1.nextConn c, none) w2 := by
  obtain ⟨hv, hl, hcl, hb⟩ := hlive
  have hrun := (Conn_Close_bound fuel a p c w ha).trans
    (RecycleWith_room (closeConn fuel) p c w hv hl hcl hn (by rw [hc]; exact hcap))
  refine ⟨_, _, hrun, Get_run p _ c [] ?_ ?_ ?_⟩ <;> simp [hv, hl, hc]

theorem emptyWorld_blocks :
    ConnPool.Get 0 emptyWorld =
      Res.blocked { emptyWorld with trace := emptyWorld.trace ++ [Event.lock 0, Event.unlock 0] } :=
  Get_empty 0 emptyWorld rfl rfl rfl rfl

theorem emptyWorld_terminate :
    Conn.Terminate 1 0 (NetConn.raw 0) emptyWorld =
      Res.ret none (unbound 0 { afterNil 0 emptyWorld with
        trace := (afterNil 0 emptyWorld).trace ++ [Event.close 0] }) := by
  rw [Terminate_bound 1 0 0 _ emptyWorld rfl, Destroy_live 1 0 _ emptyWorld rfl rfl,
    closeConn_raw]
  rfl

theorem liveWorld_two_gets :
    lendRun 0 0 [Lend.get, Lend.get] (liveWorld, []) =
      some (emptyWorld, [(0, NetConn.raw 0), (1, NetConn.raw 1)]) := by
  simp only [lendRun, lendStep_get 0 0 0 _ _ _ [] liveWorld_get,
    lendStep_get 0 0 1 _ _ _ _ lentWorld_get, List.nil_append, List.cons_append]

/-! ## The claims -/

/-- C1 (counterexample): capacity `2 ^ 62`, an `int`, with the factory `dialRaw`, every call
of which succeeds: `CreatePool` panics in `make(chan net.Conn, initSize)` before the first
dial and returns nothing, in `world0` and wherever `make` finds memory for fewer than
`2 ^ 62` slots. -/
theorem createPool_capacity_too_large :
    (1 : Int) ≤ 2 ^ 62 ∧ (2 : Int) ^ 62 ≤ maxInt ∧ (∀ k, (dialRaw k).2 = none) ∧
    CreatePool (2 ^ 62) dialRaw world0 = Res.crash world0 ∧
    (world0.pools world0.nextPool).dialed = 0 ∧
    ∀ w : World, w.chanCap < 2 ^ 62 → CreatePool (2 ^ 62) dialRaw w = Res.crash w :=
  ⟨by decide, by decide, fun _ => rfl,
    CreatePool_crash world0 (2 ^ 62) dialRaw (by decide) (Or.inr (by decide)), rfl,
    fun w h => CreatePool_crash w (2 ^ 62) dialRaw (by decide) (Or.inr h)⟩

/-- C1 (amended): for every capacity `n ≥ 1` that `make(chan net.Conn, n)` can allocate (`n`
is an `int` and does not exceed the memory limit of the environment) and every factory whose
first `n` calls succeed, `CreatePool n f` returns the new pool and no error; right afterwards
`Len()` is `n`, `IsValid()` is true, `cnt` is `n`, the channel holds the results of calls
`0 .. n-1` in that order, and the factory has been invoked exactly `n` times (the only events
are the `n` dials, each under the pool's mutex). The new pool is `Live`. -/
theorem createPool_succeeds (w : World) (n : Int) (f : Nat → NetConn × Option Err)
    (hn : 1 ≤ n) (hi : n ≤ maxInt) (hm : n.toNat ≤ w.chanCap)
    (hf : ∀ k : Nat, (k : Int) < n → (f k).2 = none) :
    ∃ w1 : World,
      CreatePool n f w = Res.ret (some w.nextPool, none) w1 ∧
      (∃ w2, ConnPool.Len w.nextPool w1 = Res.ret n w2) ∧
      (∃ w2, ConnPool.IsValid w.nextPool w1 = Res.ret true w2) ∧
      (w1.pools w.nextPool).cnt = n ∧
      (w1.pools w.nextPool).conns = (List.range n.toNat).map (fun k => (f k).1) ∧
      (w1.pools w.nextPool).dialed = n.toNat ∧
      w1.trace = w.trace ++ dialEvents w.nextPool 0 n.toNat ∧
      Live w1 w.nextPool := by
  refine ⟨fillSteps w.nextPool n.toNat (freshWorld w n f), ?_⟩
  have hrun := createPool_runs w n f n.toNat hn hi hm (by omega) (fun k hk => hf k (by omega))
  rw [loop_done _ _ _ _ _ (by omega)] at hrun
  obtain ⟨hp, ht⟩ := fillSteps_pool w.nextPool n.toNat (freshWorld w n f)
  have hlock : ((fillSteps w.nextPool n.toNat (freshWorld w n f)).pools w.nextPool).locked = false := by
    rw [hp]; simp [freshWorld]
  refine ⟨hrun, ?_, ?_, ?_, ?_, ?_, ?_, ?_⟩
  · rw [Len_run _ _ hlock]
    refine ⟨_, congrArg₂ Res.ret ?_ rfl⟩
    rw [hp]
    simp [freshWorld]
    omega
  · rw [IsValid_run _ _ hlock]
    refine ⟨_, congrArg₂ Res.ret ?_ rfl⟩
    rw [hp]
    simp [freshWorld]
  · rw [hp]; simp [freshWorld]; omega
  · rw [hp]; simp [freshWorld, List.range_eq_range']
  · rw [hp]; simp [freshWorld]
  · rw [ht]; simp [freshWorld]
  · constructor <;> rw [hp] <;> simp [freshWorld]

/-- Capacity 2 with the factory `dialRaw`, started in `world0`. -/
theorem createPool_succeeds_witness :
    (1 : Int) ≤ 2 ∧ (2 : Int) ≤ maxInt ∧ (2 : Int).toNat ≤ world0.chanCap ∧
    ∃ w1 : World,
      CreatePool 2 dialRaw world0 = Res.ret (some world0.nextPool, none) w1 ∧
      (∃ w2, ConnPool.Len world0.nextPool w1 = Res.ret 2 w2) ∧
      (∃ w2, ConnPool.IsValid world0.nextPool w1 = Res.ret true w2) ∧
      (w1.pools world0.nextPool).cnt = 2 ∧
      (w1.pools world0.nextPool).conns =
        (List.range (2 : Int).toNat).map (fun k => (dialRaw k).1) ∧
      (w1.pools world0.nextPool).dialed = (2 : Int).toNat ∧
      w1.trace = world0.trace ++ dialEvents world0.nextPool 0 (2 : Int).toNat ∧
      Live w1 world0.nextPool :=
  ⟨by decide, by decide, by decide,
    createPool_succeeds world0 2 dialRaw (by decide) (by decide) (by decide) (fun _ _ => rfl)⟩

/-- C2: for every capacity `n < 1` and every factory, `CreatePool n f` returns the nil pool
with the error "invalid pool size" and leaves the world as it was: no pool is allocated and
the factory is not invoked. -/
theorem createPool_invalid_size (w : World) (n : Int) (f : Nat → NetConn × Option Err)
    (hn : n < 1) :
    CreatePool n f w = Res.ret (none, some "invalid pool size") w := by
  simp [CreatePool, hn]

/-- Capacity -1 with the factory `dialRaw`, started in `world0`. -/
theorem createPool_invalid_size_witness :
    (-1 : Int) < 1 ∧
    CreatePool (-1) dialRaw world0 = Res.ret (none, some "invalid pool size") world0 :=
  ⟨by decide, createPool_invalid_size world0 (-1) dialRaw (by decide)⟩

/-- C3 (counterexample): `CreatePool(1, dialNil)` builds a valid pool with `Len()` 1; `Get`
returns a wrapper and no error; `Close` on that wrapper fails with "Closed Conn cannot be
recycled", `Len()` stays 0 and `cnt` falls from 1 to 0. -/
theorem nil_connection_not_restored :
    CreatePool 1 dialNil world0 = Res.ret (some 0, none) nilWorld ∧
    Live nilWorld 0 ∧ (nilWorld.pools 0).cnt = 1 ∧
    (∃ w, ConnPool.Len 0 nilWorld = Res.ret 1 w) ∧
    ∃ w1 w2 : World,
      ConnPool.Get 0 nilWorld = Res.ret (NetConn.conn 0 NetConn.nil, none) w1 ∧
      Conn.Close 1 0 NetConn.nil w1 = Res.ret (some "Closed Conn cannot be recycled") w2 ∧
      (∃ w3, ConnPool.Len 0 w2 = Res.ret 0 w3) ∧
      (w2.pools 0).cnt = 0 :=
  ⟨nilWorld_created, nilWorld_live, rfl, ⟨_, Len_run 0 nilWorld rfl⟩, _, _, nilWorld_get,
    nilWorld_close, ⟨_, Len_run 0 _ rfl⟩, rfl⟩

/-- C3 (amended): on a live pool whose channel holds `c :: rest` with `c` not nil,
`Get` returns a fresh wrapper of `c` bound to the pool and no error, leaving `Len()` one
lower; `Close` on that wrapper then returns no error and brings `Len()` back; `cnt` and
`valid` are the same after each of the two steps. -/
theorem get_then_close_round_trip (w : World) (p : Nat) (c : NetConn) (rest : List NetConn)
    (hlive : Live w p) (hconns : (w.pools p).conns = c :: rest) (hc : c ≠ NetConn.nil) :
    ∃ w1 w2 : World,
      ConnPool.Get p w = Res.ret (NetConn.conn w.nextConn c, none) w1 ∧
      w1.poolOf w.nextConn = some p ∧
      (∃ w3, ConnPool.Len p w1 = Res.ret (((w.pools p).conns.length : Int) - 1) w3) ∧
      (w1.pools p).cnt = (w.pools p).cnt ∧ (w1.pools p).valid = true ∧
      (∀ fuel, Conn.Close (fuel + 1) w.nextConn c w1 = Res.ret none w2) ∧
      (∃ w3, ConnPool.Len p w2 = Res.ret ((w.pools p).conns.length : Int) w3) ∧
      (w2.pools p).cnt = (w.pools p).cnt ∧ (w2.pools p).valid = true := by
  obtain ⟨hv, hl, hcl, hb⟩ := hlive
  refine ⟨_, ?w2, Get_run p w c rest hv hl hconns, by simp, ?len1, by simp, by simpa using hv,
    ?close, ?len2, ?cnt2, ?valid2⟩
  case close =>
    intro fuel
    rw [Conn_Close_bound fuel _ p _ _ (by simp), ConnPool.Recycle,
      RecycleWith_room _ p c _ (by simpa using hv) (by simpa using hl) (by simpa using hcl) hc
        (by rw [hconns] at hb; simp at hb ⊢; omega)]
    exact rfl
  case len1 =>
    rw [Len_run _ _ (by simpa using hl)]
    exact ⟨_, congrArg₂ Res.ret (by simp [hconns]) rfl⟩
  case len2 =>
    rw [Len_run _ _ (by simpa using hl)]
    exact ⟨_, congrArg₂ Res.ret (by simp [hconns]) rfl⟩
  case cnt2 => simp
  case valid2 => simpa using hv

/-- The pool of `liveWorld`, whose channel holds the foreign connections 0 and 1. -/
theorem get_then_close_round_trip_witness :
    Live liveWorld 0 ∧
    ∃ w1 w2 : World,
      ConnPool.Get 0 liveWorld = Res.ret (NetConn.conn liveWorld.nextConn (NetConn.raw 0), none) w1 ∧
      w1.poolOf liveWorld.nextConn = some 0 ∧
      (∃ w3, ConnPool.Len 0 w1 = Res.ret (((liveWorld.pools 0).conns.length : Int) - 1) w3) ∧
      (w1.pools 0).cnt = (liveWorld.pools 0).cnt ∧ (w1.pools 0).valid = true ∧
      (∀ fuel, Conn.Close (fuel + 1) liveWorld.nextConn (NetConn.raw 0) w1 = Res.ret none w2) ∧
      (∃ w3, ConnPool.Len 0 w2 = Res.ret ((liveWorld.pools 0).conns.length : Int) w3) ∧
      (w2.pools 0).cnt = (liveWorld.pools 0).cnt ∧ (w2.pools 0).valid = true :=
  ⟨liveWorld_live,
    get_then_close_round_trip liveWorld 0 (NetConn.raw 0) [NetConn.raw 1] liveWorld_live rfl
      (by decide)⟩

/-- C4 (failing input): after `CreatePool(2, dialRaw)` and `Close`, the calls `Get`,
`Recycle` and `Close` fail with "Invalid Pool", but `Destroy` fails with "Closed Pool": no
single error is returned by both `Get` and `Destroy`. -/
theorem destroy_error_differs :
    CreatePool 2 dialRaw world0 = Res.ret (some 0, none) liveWorld ∧
    ConnPool.Close 3 0 liveWorld = Res.ret none shutWorld ∧
    (∃ w2, ConnPool.Get 0 shutWorld = Res.ret (NetConn.nil, some "Invalid Pool") w2) ∧
    (∃ w2, ConnPool.Recycle 1 0 (NetConn.raw 0) shutWorld = Res.ret (some "Invalid Pool") w2) ∧
    (∃ w2, ConnPool.Close 3 0 shutWorld = Res.ret (some "Invalid Pool") w2) ∧
    (∃ w2, ConnPool.Destroy 1 0 (NetConn.raw 0) shutWorld = Res.ret (some "Closed Pool") w2) ∧
    ¬ ∃ e : Err,
        (∃ w2, ConnPool.Get 0 shutWorld = Res.ret (NetConn.nil, some e) w2) ∧
        (∃ w2, ConnPool.Destroy 1 0 (NetConn.raw 0) shutWorld = Res.ret (some e) w2) := by
  refine ⟨liveWorld_created, liveWorld_close, ⟨_, Get_invalid 0 shutWorld rfl rfl⟩,
    ⟨_, RecycleWith_invalid _ 0 _ shutWorld rfl rfl⟩, ⟨_, Close_invalid 3 0 shutWorld rfl rfl⟩,
    ⟨_, Destroy_invalid 1 0 _ shutWorld rfl rfl⟩, ?_⟩
  rintro ⟨e, ⟨w2, h1⟩, ⟨w3, h2⟩⟩
  rw [Get_invalid 0 shutWorld rfl rfl] at h1
  rw [Destroy_invalid 1 0 _ shutWorld rfl rfl] at h2
  injection h1 with h1 _
  injection h2 with h2 _
  injection h1 with _ h1
  rw [← h1] at h2
  exact absurd h2 (by decide)

/-- C5 (failing input): after `CreatePool(2, dialRaw)`, `Get` (the wrapper at address 0, of
connection 0), `Recycle` of that wrapper and two more `Get`s, the wrapper that the last `Get`
returned (address 2) holds the wrapper at address 0. `Terminate` on it returns no error,
lowers `cnt` from 2 to 1 and clears its field `pool`, but connection 0 is never closed: it is
sent into the channel, whose length goes from 0 to 1. -/
theorem terminate_recycles_rewrapped :
    CreatePool 2 dialRaw world0 = Res.ret (some 0, none) liveWorld ∧
    ConnPool.Get 0 liveWorld = Res.ret (NetConn.conn 0 (NetConn.raw 0), none) lentWorld ∧
    ConnPool.Recycle 1 0 (NetConn.conn 0 (NetConn.raw 0)) lentWorld =
      Res.ret none (recycled 0 (NetConn.conn 0 (NetConn.raw 0)) lentWorld) ∧
    ConnPool.Get 0 (recycled 0 (NetConn.conn 0 (NetConn.raw 0)) lentWorld) =
      Res.ret (NetConn.conn 1 (NetConn.raw 1), none)
        (afterGet 0 (recycled 0 (NetConn.conn 0 (NetConn.raw 0)) lentWorld)) ∧
    ConnPool.Get 0 (afterGet 0 (recycled 0 (NetConn.conn 0 (NetConn.raw 0)) lentWorld)) =
      Res.ret (NetConn.conn 2 (NetConn.conn 0 (NetConn.raw 0)), none) rewrapWorld ∧
    Live rewrapWorld 0 ∧ (rewrapWorld.pools 0).cnt = 2 ∧ (rewrapWorld.pools 0).conns = [] ∧
    rewrapWorld.closeResult 0 (rewrapWorld.trace.count (Event.close 0)) = none ∧
    ∃ w1 : World,
      Conn.Terminate 1 2 (NetConn.conn 0 (NetConn.raw 0)) rewrapWorld = Res.ret none w1 ∧
      (w1.pools 0).cnt = 1 ∧
      (w1.pools 0).conns = [NetConn.raw 0] ∧
      w1.trace.count (Event.close 0) = 0 ∧
      w1.poolOf 2 = none :=
  ⟨liveWorld_created, liveWorld_get, lentWorld_recycle_wrapper,
    Get_head 0 _ _ [NetConn.conn 0 (NetConn.raw 0)] rfl rfl rfl,
    Get_head 0 _ _ [] rfl rfl rfl, ⟨rfl, rfl, rfl, by decide⟩, rfl, rfl, rfl,
    _, rewrapWorld_terminate, rfl, rfl, by decide, rfl⟩

/-- C6 (failing input): after `CreatePool(2, dialRaw)` and one `Get`, `Destroy` of the wrapper
that `Get` returned lowers `cnt` to 1 and returns no error, but the foreign connection 0 is
never closed: it is sent back into the channel, whose length grows from 1 to 2. -/
theorem destroy_wrapper_recycles :
    CreatePool 2 dialRaw world0 = Res.ret (some 0, none) liveWorld ∧
    ConnPool.Get 0 liveWorld = Res.ret (NetConn.conn 0 (NetConn.raw 0), none) lentWorld ∧
    (lentWorld.pools 0).conns = [NetConn.raw 1] ∧ (lentWorld.pools 0).cnt = 2 ∧
    ∃ w1 : World,
      ConnPool.Destroy 1 0 (NetConn.conn 0 (NetConn.raw 0)) lentWorld = Res.ret none w1 ∧
      (w1.pools 0).conns = [NetConn.raw 1, NetConn.raw 0] ∧
      (w1.pools 0).cnt = 1 ∧
      w1.trace.count (Event.close 0) = 0 := by
  have h := (Destroy_valid 1 0 (NetConn.conn 0 (NetConn.raw 0)) lentWorld rfl rfl).trans
    ((Conn_Close_bound 0 0 0 _ _ rfl).trans
      (RecycleWith_room _ 0 _ _ rfl rfl rfl (by decide) (by decide)))
  exact ⟨liveWorld_created, liveWorld_get, rfl, rfl, _, h, rfl, rfl, by decide⟩

/-- C7: on a live pool `Recycle(nil)` fails with "Closed Conn cannot be recycled", lowers
`cnt` by one and leaves the channel, `Len()` and `valid` as they were. -/
theorem recycle_nil_fails (fuel : Nat) (w : World) (p : Nat) (hlive : Live w p) :
    ∃ w1 : World,
      ConnPool.Recycle fuel p NetConn.nil w =
        Res.ret (some "Closed Conn cannot be recycled") w1 ∧
      (w1.pools p).cnt = (w.pools p).cnt - 1 ∧
      (w1.pools p).conns = (w.pools p).conns ∧
      (∃ w2, ConnPool.Len p w1 = Res.ret ((w.pools p).conns.length : Int) w2) ∧
      (w1.pools p).valid = (w.pools p).valid := by
  obtain ⟨hv, hl, hcl, hb⟩ := hlive
  refine ⟨_, RecycleWith_nil _ p w hv hl, by simp, by simp, ?_, by simp⟩
  rw [Len_run _ _ (by simpa using hl)]
  exact ⟨_, congrArg₂ Res.ret (by simp) rfl⟩

/-- The pool of `liveWorld`. -/
theorem recycle_nil_fails_witness :
    Live liveWorld 0 ∧
    ∃ w1 : World,
      ConnPool.Recycle 0 0 NetConn.nil liveWorld =
        Res.ret (some "Closed Conn cannot be recycled") w1 ∧
      (w1.pools 0).cnt = (liveWorld.pools 0).cnt - 1 ∧
      (w1.pools 0).conns = (liveWorld.pools 0).conns ∧
      (∃ w2, ConnPool.Len 0 w1 = Res.ret ((liveWorld.pools 0).conns.length : Int) w2) ∧
      (w1.pools 0).valid = (liveWorld.pools 0).valid :=
  ⟨liveWorld_live, recycle_nil_fails 0 liveWorld 0 liveWorld_live⟩

/-- C8 (counterexample): on a valid pool whose channel is full, `Recycle` of a wrapper may
lower `cnt`, and may never return. After `CreatePool(1, dialNil)`, `Get` and `Recycle` of the foreign
connection 5, the channel is full; `Recycle` of the wrapper that `Get` returned lowers `cnt`
from 1 to 0. After `CreatePool(2, dialRaw)`, `Get`, `Terminate` on the wrapper and `Recycle`
of the foreign connection 5, the channel is full; `Recycle` of the wrapper, which has no pool
any more, does not return, whatever the fuel. -/
theorem recycle_full_wrapper :
    (CreatePool 1 dialNil world0 = Res.ret (some 0, none) nilWorld ∧
     ConnPool.Get 0 nilWorld = Res.ret (NetConn.conn 0 NetConn.nil, none) (afterGet 0 nilWorld) ∧
     ConnPool.Recycle 0 0 (NetConn.raw 5) (afterGet 0 nilWorld) =
       Res.ret none (recycled 0 (NetConn.raw 5) (afterGet 0 nilWorld)) ∧
     Live (recycled 0 (NetConn.raw 5) (afterGet 0 nilWorld)) 0 ∧
     ((recycled 0 (NetConn.raw 5) (afterGet 0 nilWorld)).pools 0).conns.length =
       ((recycled 0 (NetConn.raw 5) (afterGet 0 nilWorld)).pools 0).initSize.toNat ∧
     ((recycled 0 (NetConn.raw 5) (afterGet 0 nilWorld)).pools 0).cnt = 1 ∧
     ∃ w1 : World,
       ConnPool.Recycle 1 0 (NetConn.conn 0 NetConn.nil)
         (recycled 0 (NetConn.raw 5) (afterGet 0 nilWorld)) =
           Res.ret (some "Closed Conn cannot be recycled") w1 ∧
       (w1.pools 0).cnt = 0) ∧
    (CreatePool 2 dialRaw world0 = Res.ret (some 0, none) liveWorld ∧
     ConnPool.Get 0 liveWorld = Res.ret (NetConn.conn 0 (NetConn.raw 0), none) lentWorld ∧
     Conn.Terminate 1 0 (NetConn.raw 0) lentWorld = Res.ret none orphanWorld ∧
     ConnPool.Recycle 0 0 (NetConn.raw 5) orphanWorld =
       Res.ret none (recycled 0 (NetConn.raw 5) orphanWorld) ∧
     Live (recycled 0 (NetConn.raw 5) orphanWorld) 0 ∧
     ((recycled 0 (NetConn.raw 5) orphanWorld).pools 0).conns.length =
       ((recycled 0 (NetConn.raw 5) orphanWorld).pools 0).initSize.toNat ∧
     ∀ fuel, ConnPool.Recycle fuel 0 (NetConn.conn 0 (NetConn.raw 0))
       (recycled 0 (NetConn.raw 5) orphanWorld) = Res.timeout) :=
  ⟨⟨nilWorld_created, nilWorld_get, nilWorld_recycle, ⟨rfl, rfl, rfl, by decide⟩, rfl, rfl,
      _, nilWorld_recycle_wrapper, rfl⟩,
    ⟨liveWorld_created, liveWorld_get, lentWorld_terminate, orphanWorld_recycle,
      ⟨rfl, rfl, rfl, by decide⟩, rfl, orphan_recycle_diverges⟩⟩

/-- C8 (amended): on a live pool, when the channel has room, `Recycle c` of a non-nil `c`
returns no error, appends `c` and closes nothing; when the channel is full, `Recycle` of a
foreign connection calls `Close` on it exactly once and returns what that call returns, with
the channel and `cnt` as they were. In neither case does `Recycle` block. -/
theorem recycle_never_blocks (fuel : Nat) (w : World) (p : Nat) (hlive : Live w p) :
    (∀ c, c ≠ NetConn.nil → (w.pools p).conns.length < (w.pools p).initSize.toNat →
      ∃ w1 : World,
        ConnPool.Recycle fuel p c w = Res.ret none w1 ∧
        (w1.pools p).conns = (w.pools p).conns ++ [c] ∧
        (w1.pools p).cnt = (w.pools p).cnt ∧
        w1.trace = w.trace ++ [Event.lock p, Event.unlock p, Event.print]) ∧
    (∀ id, (w.pools p).conns.length = (w.pools p).initSize.toNat →
      ∃ w1 : World,
        ConnPool.Recycle (fuel + 1) p (NetConn.raw id) w =
          Res.ret (w.closeResult id (w.trace.count (Event.close id))) w1 ∧
        w1.trace = w.trace ++ [Event.lock p, Event.unlock p, Event.print, Event.close id] ∧
        w1.trace.count (Event.close id) = w.trace.count (Event.close id) + 1 ∧
        (w1.pools p).conns = (w.pools p).conns ∧
        (w1.pools p).cnt = (w.pools p).cnt) := by
  obtain ⟨hv, hl, hcl, hb⟩ := hlive
  refine ⟨fun c hc hroom => ⟨_, RecycleWith_room _ p c w hv hl hcl hc hroom, ?_, ?_, ?_⟩,
    fun id hfull => ?_⟩
  · simp
  · simp
  · simp
  · have h := (RecycleWith_full (closeConn (fuel + 1)) p _ w hv hl hcl
      (by simp : NetConn.raw id ≠ NetConn.nil) (by omega)).trans (closeConn_raw fuel id _)
    simp only [List.count_append, List.count_cons, List.count_nil, beq_iff_eq, reduceCtorEq,
      if_false, add_zero] at h
    exact ⟨_, h, by simp, by simp [List.count_append, List.count_cons], by simp, by simp⟩

/-- With room: the pool of `lentWorld` (1 of 2). Full: the pool of `liveWorld` (2 of 2). -/
theorem recycle_never_blocks_witness :
    Live lentWorld 0 ∧ Live liveWorld 0 ∧
    (∃ w1 : World,
      ConnPool.Recycle 0 0 (NetConn.raw 0) lentWorld = Res.ret none w1 ∧
      (w1.pools 0).conns = (lentWorld.pools 0).conns ++ [NetConn.raw 0] ∧
      (w1.pools 0).cnt = (lentWorld.pools 0).cnt ∧
      w1.trace = lentWorld.trace ++ [Event.lock 0, Event.unlock 0, Event.print]) ∧
    (∃ w1 : World,
      ConnPool.Recycle 1 0 (NetConn.raw 7) liveWorld =
        Res.ret (liveWorld.closeResult 7 (liveWorld.trace.count (Event.close 7))) w1 ∧
      w1.trace = liveWorld.trace ++
        [Event.lock 0, Event.unlock 0, Event.print, Event.close 7] ∧
      w1.trace.count (Event.close 7) = liveWorld.trace.count (Event.close 7) + 1 ∧
      (w1.pools 0).conns = (liveWorld.pools 0).conns ∧
      (w1.pools 0).cnt = (liveWorld.pools 0).cnt) :=
  ⟨lentWorld_live, liveWorld_live,
    (recycle_never_blocks 0 lentWorld 0 lentWorld_live).1 (NetConn.raw 0) (by decide)
      (by decide),
    (recycle_never_blocks 0 liveWorld 0 liveWorld_live).2 7 (by decide)⟩

/-- C9 (counterexample): `Close` on a valid pool need not return. After `CreatePool(1,
dialNil)` the channel holds the nil connection, and `Close` panics when it calls `Close` on
it. After `CreatePool(2, dialRaw)`, two `Get`s and `Recycle` of the first wrapper, the channel
holds that wrapper, and `Close` waits for ever: the wrapper's `Close` asks for the mutex that
`Close` of the pool still holds. -/
theorem close_stuck_on_idle_value :
    (CreatePool 1 dialNil world0 = Res.ret (some 0, none) nilWorld ∧ Live nilWorld 0 ∧
     (∃ w1, ConnPool.Close 2 0 nilWorld = Res.crash w1) ∧
     ∀ fuel r w1, ConnPool.Close fuel 0 nilWorld ≠ Res.ret r w1) ∧
    (CreatePool 2 dialRaw world0 = Res.ret (some 0, none) liveWorld ∧
     ConnPool.Get 0 liveWorld = Res.ret (NetConn.conn 0 (NetConn.raw 0), none) lentWorld ∧
     ConnPool.Get 0 lentWorld = Res.ret (NetConn.conn 1 (NetConn.raw 1), none) emptyWorld ∧
     ConnPool.Recycle 0 0 (NetConn.conn 0 (NetConn.raw 0)) emptyWorld =
       Res.ret none (recycled 0 (NetConn.conn 0 (NetConn.raw 0)) emptyWorld) ∧
     Live (recycled 0 (NetConn.conn 0 (NetConn.raw 0)) emptyWorld) 0 ∧
     (∃ w1, ConnPool.Close 2 0 (recycled 0 (NetConn.conn 0 (NetConn.raw 0)) emptyWorld) =
       Res.blocked w1) ∧
     ∀ fuel r w1, ConnPool.Close fuel 0 (recycled 0 (NetConn.conn 0 (NetConn.raw 0)) emptyWorld) ≠
       Res.ret r w1) :=
  have h1 := Close_nil_head 0 nilWorld [] nilWorld_live rfl
  have h2 := Close_own_wrapper 0 0 (NetConn.raw 0)
    (recycled 0 (NetConn.conn 0 (NetConn.raw 0)) emptyWorld) [] ⟨rfl, rfl, rfl, by decide⟩ rfl rfl
  ⟨⟨nilWorld_created, nilWorld_live, h1.1, h1.2⟩,
    ⟨liveWorld_created, liveWorld_get, lentWorld_get, emptyWorld_recycle_wrapper,
      ⟨rfl, rfl, rfl, by decide⟩, h2.1, h2.2⟩⟩

/-- C9 (amended): on a live pool whose channel holds the foreign connections `ids` and
nothing else, `Close` returns no
error whatever their `Close` returns, clears `valid`, calls `Close` once on each member of
`ids` in order and on no other connection, leaves the channel empty (`Len()` is 0) and leaves
`cnt` as it was. -/
theorem pool_close_drains_idle (w : World) (p : Nat) (ids : List Nat)
    (hlive : Live w p) (hc : (w.pools p).conns = ids.map NetConn.raw) :
    ∃ w1 : World,
      (∀ fuel, ids.length + 1 ≤ fuel → ConnPool.Close fuel p w = Res.ret none w1) ∧
      (w1.pools p).valid = false ∧
      w1.trace = w.trace ++ [Event.lock p, Event.unlock p, Event.lock p] ++ ids.map Event.close
          ++ [Event.unlock p] ∧
      (∀ id, w1.trace.count (Event.close id) = w.trace.count (Event.close id) + ids.count id) ∧
      (w1.pools p).conns = [] ∧
      (∃ w2, ConnPool.Len p w1 = Res.ret 0 w2) ∧
      (w1.pools p).cnt = (w.pools p).cnt := by
  refine ⟨_, fun fuel hf => Close_raws fuel p ids w hlive hc hf, ?_, ?_, ?_, ?_, ?_, ?_⟩
  · simp
  · simp
  · intro id
    have hinj : Function.Injective Event.close := fun a b h => by injection h
    simp [List.count_append, List.count_cons, List.count_map_of_injective _ _ hinj]
  · simp
  · rw [Len_run _ _ (by simpa using hlive.unlocked)]
    exact ⟨_, congrArg₂ Res.ret (by simp) rfl⟩
  · simp

/-- The pool of `liveWorld`, whose channel holds the foreign connections 0 and 1. -/
theorem pool_close_drains_idle_witness :
    Live liveWorld 0 ∧
    ∃ w1 : World,
      (∀ fuel, [0, 1].length + 1 ≤ fuel → ConnPool.Close fuel 0 liveWorld = Res.ret none w1) ∧
      (w1.pools 0).valid = false ∧
      w1.trace = liveWorld.trace ++ [Event.lock 0, Event.unlock 0, Event.lock 0]
        ++ [0, 1].map Event.close ++ [Event.unlock 0] ∧
      (∀ id, w1.trace.count (Event.close id) =
        liveWorld.trace.count (Event.close id) + [0, 1].count id) ∧
      (w1.pools 0).conns = [] ∧
      (∃ w2, ConnPool.Len 0 w1 = Res.ret 0 w2) ∧
      (w1.pools 0).cnt = (liveWorld.pools 0).cnt :=
  ⟨liveWorld_live, pool_close_drains_idle liveWorld 0 [0, 1] liveWorld_live rfl⟩

/-- C10 (counterexample): capacity `2 ^ 62`, an `int`, with the factory `dialFlaky`, whose
first call succeeds and whose second call fails: `CreatePool` panics in
`make(chan net.Conn, initSize)`; it returns no error and the factory is never invoked. -/
theorem createPool_panics_before_dial :
    (dialFlaky 0).2 = none ∧ (dialFlaky 1).2 = some "connection refused" ∧
    (2 : Int) ≤ 2 ^ 62 ∧ (2 : Int) ^ 62 ≤ maxInt ∧
    CreatePool (2 ^ 62) dialFlaky world0 = Res.crash world0 ∧
    (world0.pools world0.nextPool).dialed = 0 ∧ world0.trace = [] :=
  ⟨rfl, rfl, by decide, by decide,
    CreatePool_crash world0 (2 ^ 62) dialFlaky (by decide) (Or.inr (by decide)), rfl, rfl⟩

/-- C10 (amended): for `1 ≤ k ≤ n`, where `n` is a capacity that `make(chan net.Conn, n)` can
allocate (`n` is an `int` and does not exceed the memory limit of the environment), if calls
`0 .. k-2` of the factory succeed and call `k-1` fails with `e`, then `CreatePool n f` returns
the nil pool and exactly `e`, after exactly `k` invocations of the factory. -/
theorem createPool_factory_failure (w : World) (n : Int) (k : Nat)
    (f : Nat → NetConn × Option Err) (e : Err)
    (hk : 1 ≤ k) (hkn : (k : Int) ≤ n) (hi : n ≤ maxInt) (hm : n.toNat ≤ w.chanCap)
    (hok : ∀ j, j + 1 < k → (f j).2 = none) (hfail : (f (k - 1)).2 = some e) :
    ∃ w1 : World,
      CreatePool n f w = Res.ret (none, some e) w1 ∧
      (w1.pools w.nextPool).dialed = k ∧
      w1.trace = w.trace ++ dialEvents w.nextPool 0 k := by
  have hrun := createPool_runs w n f (k - 1) (by omega) hi hm (by omega)
    (fun j hj => hok j (by omega))
  obtain ⟨hp, ht⟩ := fillSteps_pool w.nextPool (k - 1) (freshWorld w n f)
  obtain ⟨m, hm1⟩ : ∃ m, n.toNat - (k - 1) = m + 1 := ⟨n.toNat - (k - 1) - 1, by omega⟩
  rw [hm1, CreatePool.loop] at hrun
  have hlt : ((k - 1 : Nat) : Int) < n := by omega
  simp only [hlt, if_true, Go.bind_run, Go.bind] at hrun
  rw [createConn_fail _ _ e (by rw [hp]; simp [freshWorld])
    (by rw [hp]; simp [freshWorld]; omega) (by rw [hp]; simpa [freshWorld] using hfail)] at hrun
  simp only [Option.isSome_some, if_true, Go.ite_run, Go.pure_run] at hrun
  refine ⟨_, hrun, ?_, ?_⟩
  · simp only [Function.update_same, hp]
    simp [freshWorld]
    omega
  · have hk1 : dialEvents w.nextPool 0 k = dialEvents w.nextPool 0 (k - 1) ++
        [Event.lock w.nextPool, Event.dial w.nextPool (k - 1), Event.unlock w.nextPool] := by
      have h := dialEvents_succ w.nextPool 0 (k - 1)
      rwa [Nat.sub_add_cancel hk, zero_add] at h
    simp only [ht, hp, hk1]
    simp [freshWorld]

/-- Capacity 3 with the factory `dialFlaky`, whose second call fails. -/
theorem createPool_factory_failure_witness :
    (dialFlaky 0).2 = none ∧ (dialFlaky 1).2 = some "connection refused" ∧
    (3 : Int) ≤ maxInt ∧ (3 : Int).toNat ≤ world0.chanCap ∧
    ∃ w1 : World,
      CreatePool 3 dialFlaky world0 = Res.ret (none, some "connection refused") w1 ∧
      (w1.pools world0.nextPool).dialed = 2 ∧
      w1.trace = world0.trace ++ dialEvents world0.nextPool 0 2 :=
  ⟨rfl, rfl, by decide, by decide,
    createPool_factory_failure world0 3 2 dialFlaky "connection refused" (by decide) (by decide)
      (by decide) (by decide)
      (fun j hj => by
        have h0 : j = 0 := by omega
        subst h0
        rfl)
      rfl⟩

/-- C11: on a live pool, `Get` removes the head of the channel (the connection that has
waited longest) and returns it in a fresh wrapper bound to the pool; a `Recycle` that finds
room appends at the back; neither invokes the factory (`dialed` and the dial events are as
before). In particular, when the channel is empty, `Close` on a wrapper of `c` bound to the
pool followed by `Get` returns a wrapper of exactly `c`, with no dial. -/
theorem reuse_in_queue_order (w : World) (p : Nat) (hlive : Live w p) :
    (∀ c rest, (w.pools p).conns = c :: rest →
      ∃ w1 : World,
        ConnPool.Get p w = Res.ret (NetConn.conn w.nextConn c, none) w1 ∧
        w1.poolOf w.nextConn = some p ∧
        (w1.pools p).conns = rest ∧
        (w1.pools p).dialed = (w.pools p).dialed ∧
        w1.trace = w.trace ++ [Event.lock p, Event.unlock p]) ∧
    (∀ fuel c, c ≠ NetConn.nil → (w.pools p).conns.length < (w.pools p).initSize.toNat →
      ∃ w1 : World,
        ConnPool.Recycle fuel p c w = Res.ret none w1 ∧
        (w1.pools p).conns = (w.pools p).conns ++ [c] ∧
        (w1.pools p).dialed = (w.pools p).dialed ∧
        w1.trace = w.trace ++ [Event.lock p, Event.unlock p, Event.print]) ∧
    (∀ fuel a c, c ≠ NetConn.nil → (w.pools p).conns = [] → 0 < (w.pools p).initSize.toNat →
      w.poolOf a = some p →
      ∃ w1 w2 : World,
        Conn.Close (fuel + 1) a c w = Res.ret none w1 ∧
        (∃ w3, ConnPool.Len p w1 = Res.ret 1 w3) ∧
        ConnPool.Get p w1 = Res.ret (NetConn.conn w1.nextConn c, none) w2 ∧
        w2.poolOf w1.nextConn = some p ∧
        (w2.pools p).dialed = (w.pools p).dialed ∧
        w2.trace = w.trace ++
          [Event.lock p, Event.unlock p, Event.print, Event.lock p, Event.unlock p]) := by
  obtain ⟨hv, hl, hcl, hb⟩ := hlive
  refine ⟨fun c rest hc => ⟨_, Get_run p w c rest hv hl hc, by simp, by simp, by simp, rfl⟩,
    fun fuel c hc hroom => ⟨_, RecycleWith_room _ p c w hv hl hcl hc hroom, by simp, by simp,
      rfl⟩,
    fun fuel a c hc hempty hcap ha => ?_⟩
  have h1 := (Conn_Close_bound fuel a p c w ha).trans
    (RecycleWith_room _ p c w hv hl hcl hc (by rw [hempty]; simpa using hcap))
  have h2 := Get_run p
    { w with
      pools := Function.update w.pools p { w.pools p with conns := (w.pools p).conns ++ [c] }
      trace := w.trace ++ [Event.lock p, Event.unlock p, Event.print] }
    c [] (by simpa using hv) (by simpa using hl) (by simp [hempty])
  refine ⟨_, _, h1, ?_, h2, by simp, by simp, by simp⟩
  rw [Len_run _ _ (by simpa using hl)]
  exact ⟨_, congrArg₂ Res.ret (by simp [hempty]) rfl⟩

/-- `CreatePool(2, dialRaw)`, two `Get`s (which empty the channel), `Close` on the first
wrapper, `Get`: the wrapper returned holds connection 0 again and `dialed` is still 2. -/
theorem reuse_in_queue_order_witness :
    CreatePool 2 dialRaw world0 = Res.ret (some 0, none) liveWorld ∧
    ConnPool.Get 0 liveWorld = Res.ret (NetConn.conn 0 (NetConn.raw 0), none) lentWorld ∧
    ConnPool.Get 0 lentWorld = Res.ret (NetConn.conn 1 (NetConn.raw 1), none) emptyWorld ∧
    Live emptyWorld 0 ∧ (emptyWorld.pools 0).conns = [] ∧
    ∃ w1 w2 : World,
      Conn.Close 1 0 (NetConn.raw 0) emptyWorld = Res.ret none w1 ∧
      (∃ w3, ConnPool.Len 0 w1 = Res.ret 1 w3) ∧
      ConnPool.Get 0 w1 = Res.ret (NetConn.conn w1.nextConn (NetConn.raw 0), none) w2 ∧
      w2.poolOf w1.nextConn = some 0 ∧
      (w2.pools 0).dialed = 2 ∧
      w2.trace = emptyWorld.trace ++
        [Event.lock 0, Event.unlock 0, Event.print, Event.lock 0, Event.unlock 0] :=
  ⟨liveWorld_created, liveWorld_get, lentWorld_get, emptyWorld_live, rfl,
    (reuse_in_queue_order emptyWorld 0 emptyWorld_live).2.2 0 0 (NetConn.raw 0) (by decide) rfl
      (by decide) rfl⟩

/-- C12: after a successful `CreatePool n f`, whatever finite sequence of `Get`, `Recycle`,
`Destroy`, `Close`, `Len`, `IsValid`, wrapper `Close` and wrapper `Terminate` calls is made
(with any arguments), and wherever it ends (returning, blocking or panicking), the factory
has been invoked exactly `n` times: `dialed` is still `n`, the pool still has the factory
`f`, no dial event has been added to the trace, and the connections created by the pool are
at most `n`. -/
theorem factory_never_reinvoked (w w1 : World) (p : Nat) (n : Int)
    (f : Nat → NetConn × Option Err)
    (hcreate : CreatePool n f w = Res.ret (some p, none) w1) :
    (w1.pools p).dialed = n.toNat ∧
    ∀ (fuel : Nat) (calls : List Call) (w2 : World),
      Res.endsIn (runCalls fuel p calls w1) w2 →
        (w2.pools p).dialed = n.toNat ∧
        (w2.pools p).connCreator = f ∧
        w2.trace.filter Event.isDial = w1.trace.filter Event.isDial ∧
        (created w2 p).length ≤ n.toNat := by
  have hp := createPool_pool w w1 p n f hcreate
  refine ⟨by rw [hp], fun fuel calls w2 he => ?_⟩
  have h := Res.holds_endsIn (calm_runCalls fuel p calls w1) he
  have hd : (w2.pools p).dialed = n.toNat := by rw [h.dialed, hp]
  exact ⟨hd, by rw [h.creator, hp], h.dials, hd ▸ created_length_le w2 p⟩

/-- `CreatePool(2, dialRaw)`, then a `Get` and a `Terminate` on the wrapper it returned:
connection 0 is closed and gone, and the factory has still been invoked twice. -/
theorem factory_never_reinvoked_witness :
    CreatePool 2 dialRaw world0 = Res.ret (some 0, none) liveWorld ∧
    runCalls 1 0 [Call.get, Call.terminate 0 (NetConn.raw 0)] liveWorld =
      Res.ret () orphanWorld ∧
    (orphanWorld.pools 0).dialed = (2 : Int).toNat ∧
    (orphanWorld.pools 0).connCreator = dialRaw ∧
    orphanWorld.trace.filter Event.isDial = liveWorld.trace.filter Event.isDial ∧
    (created orphanWorld 0).length ≤ (2 : Int).toNat :=
  ⟨liveWorld_created, liveWorld_get_terminate,
    (factory_never_reinvoked world0 liveWorld 0 2 dialRaw liveWorld_created).2 1
      [Call.get, Call.terminate 0 (NetConn.raw 0)] orphanWorld
      (Or.inl ⟨(), liveWorld_get_terminate⟩)⟩

/-- C13 (failing input): the wrapper at address 0 of `orphanWorld` has no pool reference (a
`Terminate` on it has succeeded). A second `Terminate` on it never returns, whatever the
fuel: its call of `conn.Close()` is the wrapper's own `Close`, which calls itself again. -/
theorem terminate_orphan_diverges :
    Conn.Terminate 1 0 (NetConn.raw 0) lentWorld = Res.ret none orphanWorld ∧
    orphanWorld.poolOf 0 = none ∧
    ∀ fuel, Conn.Terminate fuel 0 (NetConn.raw 0) orphanWorld = Res.timeout :=
  ⟨lentWorld_terminate, rfl, fun fuel => Terminate_orphan fuel 0 _ orphanWorld rfl⟩

/-- C14: on a live pool, for a foreign connection whose `Close` fails with `e`, `Destroy`
returns exactly `e` and still lowers `cnt` by one; and `Terminate` on a wrapper of it that is
bound to the pool returns exactly `e`, lowers `cnt` by one and leaves the wrapper's field
`pool` set. -/
theorem failed_close_still_counts (fuel : Nat) (w : World) (p a id : Nat) (e : Err)
    (hlive : Live w p)
    (hfail : w.closeResult id (w.trace.count (Event.close id)) = some e) :
    (∃ w1 : World,
      ConnPool.Destroy (fuel + 1) p (NetConn.raw id) w = Res.ret (some e) w1 ∧
      (w1.pools p).cnt = (w.pools p).cnt - 1) ∧
    (w.poolOf a = some p →
      ∃ w1 : World,
        Conn.Terminate (fuel + 1) a (NetConn.raw id) w = Res.ret (some e) w1 ∧
        (w1.pools p).cnt = (w.pools p).cnt - 1 ∧
        w1.poolOf a = some p) := by
  obtain ⟨hv, hl, -, -⟩ := hlive
  have hD := Destroy_valid (fuel + 1) p (NetConn.raw id) w hv hl
  rw [closeConn_raw] at hD
  simp only [List.count_append, List.count_cons, List.count_nil, beq_iff_eq, reduceCtorEq,
    if_false, add_zero, hfail] at hD
  refine ⟨⟨_, hD, by simp⟩, fun ha => ?_⟩
  have hT := Terminate_bound (fuel + 1) a p (NetConn.raw id) w ha
  rw [hD] at hT
  exact ⟨_, hT, by simp, by simpa using ha⟩

/-- Connection 1 of `brokenWorld`, whose `Close` fails, and the wrapper at address 0, which is
bound to pool 0. -/
theorem failed_close_still_counts_witness :
    Live brokenWorld 0 ∧
    (∃ w1 : World,
      ConnPool.Destroy 1 0 (NetConn.raw 1) brokenWorld = Res.ret (some "broken pipe") w1 ∧
      (w1.pools 0).cnt = (brokenWorld.pools 0).cnt - 1) ∧
    (∃ w1 : World,
      Conn.Terminate 1 0 (NetConn.raw 1) brokenWorld = Res.ret (some "broken pipe") w1 ∧
      (w1.pools 0).cnt = (brokenWorld.pools 0).cnt - 1 ∧
      w1.poolOf 0 = some 0) :=
  have h := failed_close_still_counts 0 brokenWorld 0 0 1 "broken pipe"
    ⟨rfl, rfl, rfl, by decide⟩ rfl
  ⟨⟨rfl, rfl, rfl, by decide⟩, h.1, h.2 rfl⟩

/-- C15 (counterexample): after `CreatePool(2, dialRaw)` two `Get`s return and a third one
waits. `Terminate` on the first wrapper returns no error and lowers `cnt` to 1, but puts
nothing into the channel and dials nothing: a `Get` made afterwards waits just the same. -/
theorem terminate_frees_no_slot :
    CreatePool 2 dialRaw world0 = Res.ret (some 0, none) liveWorld ∧
    ConnPool.Get 0 liveWorld = Res.ret (NetConn.conn 0 (NetConn.raw 0), none) lentWorld ∧
    ConnPool.Get 0 lentWorld = Res.ret (NetConn.conn 1 (NetConn.raw 1), none) emptyWorld ∧
    (∃ w1, ConnPool.Get 0 emptyWorld = Res.blocked w1) ∧
    ∃ w1 : World,
      Conn.Terminate 1 0 (NetConn.raw 0) emptyWorld = Res.ret none w1 ∧
      (w1.pools 0).cnt = 1 ∧ (w1.pools 0).conns = [] ∧ (w1.pools 0).dialed = 2 ∧
      ∃ w2, ConnPool.Get 0 w1 = Res.blocked w2 :=
  ⟨liveWorld_created, liveWorld_get, lentWorld_get, ⟨_, emptyWorld_blocks⟩,
    _, emptyWorld_terminate, rfl, rfl, rfl, _, Get_empty 0 _ rfl rfl rfl rfl⟩

/-- C15 (amended): let `CreatePool n f` succeed, and let `Get`, wrapper `Close` and wrapper
`Terminate` be called one at a time, `Close` and `Terminate` only on wrappers that `Get`
returned and at most one of them, once, on each. Then the first `m ≤ n` calls of `Get` all
return, handing out the results of the factory in order, and no run of more than `n` calls of
`Get` returns. In every state so reached at most `n` wrappers are lent; when `n` are lent the
channel is empty; and whenever the channel is empty a `Get` waits, it still waits after a
`Terminate` on a lent wrapper of a foreign connection (which closes the connection and lowers
`cnt` but sends nothing), and it returns after a `Close` on a lent wrapper of a non-nil
connection, with that connection. -/
theorem gets_wait_at_capacity (w w1 : World) (p : Nat) (n : Int)
    (f : Nat → NetConn × Option Err)
    (hcreate : CreatePool n f w = Res.ret (some p, none) w1) :
    (∀ fuel m, m ≤ n.toNat →
      ∃ w2 out, lendRun fuel p (List.replicate m Lend.get) (w1, []) = some (w2, out) ∧
        out.length = m ∧ out.map Prod.snd = (List.range m).map (fun k => (f k).1)) ∧
    (∀ fuel m, n.toNat < m → lendRun fuel p (List.replicate m Lend.get) (w1, []) = none) ∧
    ∀ (fuel : Nat) (calls : List Lend) (w2 : World) (out : List (Nat × NetConn)),
      lendRun fuel p calls (w1, []) = some (w2, out) →
        out.length ≤ n.toNat ∧
        (out.length = n.toNat → (w2.pools p).conns = []) ∧
        ((w2.pools p).conns = [] →
          (∃ w3, ConnPool.Get p w2 = Res.blocked w3) ∧
          (∀ fuel2 a id, (a, NetConn.raw id) ∈ out →
            ∃ r w3 w4, Conn.Terminate (fuel2 + 1) a (NetConn.raw id) w2 = Res.ret r w3 ∧
              (w3.pools p).cnt = (w2.pools p).cnt - 1 ∧
              0 < w3.trace.count (Event.close id) ∧
              (w3.pools p).conns = [] ∧
              ConnPool.Get p w3 = Res.blocked w4) ∧
          (∀ fuel2 a c, (a, c) ∈ out → c ≠ NetConn.nil →
            ∃ w3 w4, Conn.Close (fuel2 + 1) a c w2 = Res.ret none w3 ∧
              ConnPool.Get p w3 = Res.ret (NetConn.conn w3.nextConn c, none) w4)) := by
  have hp := createPool_pool w w1 p n f hcreate
  have h0 := lent_created w w1 p n f hcreate
  refine ⟨fun fuel m hm => ?_, fun fuel m hm => ?_, fun fuel calls w2 out hrun => ?_⟩
  · obtain ⟨w2, out, hrun, hlen, hmap⟩ := lend_gets fuel p n m w1 [] h0 (by rw [hp]; simpa using hm)
    refine ⟨w2, out, hrun, by simpa using hlen, ?_⟩
    rw [hmap, hp]
    simp only [List.map_nil, List.nil_append, ← List.map_take, List.take_range,
      Nat.min_eq_left hm]
  · cases hrun : lendRun fuel p (List.replicate m Lend.get) (w1, []) with
    | none => rfl
    | some s =>
      obtain ⟨w2, out⟩ := s
      have h1 := lend_gets_length fuel p m w1 w2 [] out hrun
      have h2 := (lent_run fuel p n _ w1 w2 [] out h0 hrun).room
      simp at h1
      omega
  · have h2 := lent_run fuel p n calls w1 w2 [] out h0 hrun
    refine ⟨by have := h2.room; omega, fun hfull => ?_, fun hc => ⟨?_, ?_, ?_⟩⟩
    · have := h2.room
      exact List.length_eq_zero.mp (by omega)
    · exact ⟨_, Get_empty p w2 h2.live.valid h2.live.unlocked h2.live.chanOpen hc⟩
    · intro fuel2 a id hmem
      exact Terminate_raw_empty fuel2 p a id w2 h2.live (h2.bound _ hmem).1 hc
    · intro fuel2 a c hmem hn
      have hpos : 0 < out.length := List.length_pos_of_mem hmem
      exact Close_then_get fuel2 p a c w2 h2.live (h2.bound _ hmem).1 hc hn
        (by rw [h2.cap]; have := h2.room; omega)

/-- `CreatePool(2, dialRaw)` and two `Get`s, which end in `emptyWorld` with both wrappers
lent. -/
theorem gets_wait_at_capacity_witness :
    CreatePool 2 dialRaw world0 = Res.ret (some 0, none) liveWorld ∧
    lendRun 0 0 [Lend.get, Lend.get] (liveWorld, []) =
      some (emptyWorld, [(0, NetConn.raw 0), (1, NetConn.raw 1)]) ∧
    lendRun 0 0 (List.replicate 3 Lend.get) (liveWorld, []) = none ∧
    (∃ w3, ConnPool.Get 0 emptyWorld = Res.blocked w3) ∧
    (∃ r w3 w4, Conn.Terminate 1 0 (NetConn.raw 0) emptyWorld = Res.ret r w3 ∧
      (w3.pools 0).cnt = (emptyWorld.pools 0).cnt - 1 ∧
      0 < w3.trace.count (Event.close 0) ∧
      (w3.pools 0).conns = [] ∧
      ConnPool.Get 0 w3 = Res.blocked w4) ∧
    (∃ w3 w4, Conn.Close 1 1 (NetConn.raw 1) emptyWorld = Res.ret none w3 ∧
      ConnPool.Get 0 w3 = Res.ret (NetConn.conn w3.nextConn (NetConn.raw 1), none) w4) :=
  have h := gets_wait_at_capacity world0 liveWorld 0 2 dialRaw liveWorld_created
  have h2 := (h.2.2 0 [Lend.get, Lend.get] emptyWorld [(0, NetConn.raw 0), (1, NetConn.raw 1)]
    liveWorld_two_gets).2.2 rfl
  ⟨liveWorld_created, liveWorld_two_gets, h.2.1 0 3 (by decide), h2.1,
    h2.2.1 0 0 0 (by simp), h2.2.2 0 1 (NetConn.raw 1) (by simp) (by decide)⟩

/-- C16 (failing input): on the wrapper at address 0 of `orphanWorld`, which has no pool
reference, `Close` never returns, whatever the fuel: the self-call is a call of the same
method on the same wrapper, so no `Close` of the foreign connection is ever reached. -/
theorem close_orphan_diverges :
    orphanWorld.poolOf 0 = none ∧
    ∀ fuel, Conn.Close fuel 0 (NetConn.raw 0) orphanWorld = Res.timeout :=
  ⟨rfl, fun fuel => closeConn_orphan fuel 0 _ orphanWorld rfl⟩

/-- C17 (as stated) fails: after `CreatePool(2, dialRaw)` and three calls of `Recycle(nil)`,
`cnt` is -1 although both connections created by the pool are still open. -/
theorem count_goes_negative :
    CreatePool 2 dialRaw world0 = Res.ret (some 0, none) liveWorld ∧
    runCalls 0 0 [Call.recycle NetConn.nil, Call.recycle NetConn.nil,
      Call.recycle NetConn.nil] liveWorld =
      Res.ret () (afterNil 0 (afterNil 0 (afterNil 0 liveWorld))) ∧
    ((afterNil 0 (afterNil 0 (afterNil 0 liveWorld))).pools 0).cnt = -1 ∧
    openCount (afterNil 0 (afterNil 0 (afterNil 0 liveWorld))) 0 = 2 ∧
    ¬ (0 ≤ ((afterNil 0 (afterNil 0 (afterNil 0 liveWorld))).pools 0).cnt) := by
  refine ⟨liveWorld_created, recycle_nil_thrice, ?_, ?_, ?_⟩
  · simp [afterNil, liveWorld, twoPool]
  · simp [openCount, created, wasClosed, afterNil, liveWorld, twoPool, dialRaw, dialEvents,
      List.range_succ, List.filter]
  · simp [afterNil, liveWorld, twoPool]

/-- C17 (amended): after a successful `CreatePool n f` the field `cnt` is `n`, and along
every finite sequence of `Get`, `Recycle`, `Destroy`, `Close`, wrapper `Close` and wrapper
`Terminate` calls (with any arguments; `Len` and `IsValid` may be among them) it never goes
up: if the calls `calls` lead from the new pool to `w2` and the calls `more` lead from there
to `w3`, then `w3` is where the whole sequence ends, `cnt` in `w3` is at most `cnt` in `w2`,
which is at most `n`, and `initSize` still holds `n`. -/
theorem count_never_exceeds_capacity (w w1 : World) (p : Nat) (n : Int)
    (f : Nat → NetConn × Option Err)
    (hcreate : CreatePool n f w = Res.ret (some p, none) w1) :
    (w1.pools p).cnt = n ∧
    ∀ (fuel : Nat) (calls more : List Call) (w2 w3 : World),
      runCalls fuel p calls w1 = Res.ret () w2 →
      Res.endsIn (runCalls fuel p more w2) w3 →
        Res.endsIn (runCalls fuel p (calls ++ more) w1) w3 ∧
        (w3.pools p).cnt ≤ (w2.pools p).cnt ∧ (w2.pools p).cnt ≤ n ∧
        (w3.pools p).cnt ≤ n ∧ (w3.pools p).initSize = n := by
  have hp := createPool_pool w w1 p n f hcreate
  refine ⟨by rw [hp], fun fuel calls more w2 w3 h2 h3 => ?_⟩
  have c2 := Res.holds_endsIn (calm_runCalls fuel p calls w1) (Or.inl ⟨(), h2⟩)
  have c3 := Res.holds_endsIn (calm_runCalls fuel p more w2) h3
  have e2 : (w2.pools p).cnt ≤ n := by have := c2.cnt p; rw [hp] at this; exact this
  refine ⟨by rw [runCalls_append fuel p calls more w1 w2 h2]; exact h3, c3.cnt p, e2,
    (c3.cnt p).trans e2, ?_⟩
  rw [c3.capacity, c2.capacity, hp]

/-- `CreatePool(2, dialRaw)`, then one call of `Recycle(nil)`, then two more. -/
theorem count_never_exceeds_capacity_witness :
    CreatePool 2 dialRaw world0 = Res.ret (some 0, none) liveWorld ∧
    runCalls 0 0 [Call.recycle NetConn.nil] liveWorld = Res.ret () (afterNil 0 liveWorld) ∧
    runCalls 0 0 [Call.recycle NetConn.nil, Call.recycle NetConn.nil] (afterNil 0 liveWorld) =
      Res.ret () (afterNil 0 (afterNil 0 (afterNil 0 liveWorld))) ∧
    Res.endsIn (runCalls 0 0 ([Call.recycle NetConn.nil] ++
      [Call.recycle NetConn.nil, Call.recycle NetConn.nil]) liveWorld)
      (afterNil 0 (afterNil 0 (afterNil 0 liveWorld))) ∧
    ((afterNil 0 (afterNil 0 (afterNil 0 liveWorld))).pools 0).cnt ≤
      ((afterNil 0 liveWorld).pools 0).cnt ∧
    ((afterNil 0 liveWorld).pools 0).cnt ≤ 2 ∧
    ((afterNil 0 (afterNil 0 (afterNil 0 liveWorld))).pools 0).cnt ≤ 2 ∧
    ((afterNil 0 (afterNil 0 (afterNil 0 liveWorld))).pools 0).initSize = 2 :=
  ⟨liveWorld_created, recycle_nil_once, recycle_nil_twice,
    (count_never_exceeds_capacity world0 liveWorld 0 2 dialRaw liveWorld_created).2 0
      [Call.recycle NetConn.nil] [Call.recycle NetConn.nil, Call.recycle NetConn.nil]
      (afterNil 0 liveWorld) (afterNil 0 (afterNil 0 (afterNil 0 liveWorld)))
      recycle_nil_once (Or.inl ⟨(), recycle_nil_twice⟩)⟩

/-- C18 (as stated) fails: `CreatePool(2, dialRaw)` ends in `liveWorld`, and in the events it
added the factory is invoked while the mutex of the new pool is held. -/
theorem dial_under_lock :
    CreatePool 2 dialRaw world0 = Res.ret (some 0, none) liveWorld ∧
    liveWorld.trace = world0.trace ++
      [Event.lock 0, Event.dial 0 0, Event.unlock 0,
       Event.lock 0, Event.dial 0 1, Event.unlock 0] ∧
    scanLock 0 false
      [Event.lock 0, Event.dial 0 0, Event.unlock 0,
       Event.lock 0, Event.dial 0 1, Event.unlock 0] = none :=
  ⟨liveWorld_created, rfl, rfl⟩

/-- C18 (amended): in `Get`, `Recycle`, `Destroy`, `Len`, `IsValid` and in the wrapper's
`Close` and `Terminate`, from any world, with any arguments and wherever the call ends
(returning, blocking or panicking), the events added to the trace contain no close and no
dial while the mutex of any pool `q` is held, and leave it free: the mutex is only held
around reads and writes of `valid` and `cnt`. `createConn`, for its part, holds the mutex
whenever it invokes the factory. -/
theorem no_close_under_lock (fuel p q a : Nat) (c inner : NetConn) (w w1 : World) :
    (Res.endsIn (ConnPool.Get p w) w1 ∨
      Res.endsIn (ConnPool.Recycle fuel p c w) w1 ∨
      Res.endsIn (ConnPool.Destroy fuel p c w) w1 ∨
      Res.endsIn (ConnPool.Len p w) w1 ∨
      Res.endsIn (ConnPool.IsValid p w) w1 ∨
      Res.endsIn (Conn.Close fuel a inner w) w1 ∨
      Res.endsIn (Conn.Terminate fuel a inner w) w1 →
      ∃ es, w1.trace = w.trace ++ es ∧ scanLock q false es = some false) ∧
    (Res.endsIn (ConnPool.createConn p w) w1 →
      ∃ es, w1.trace = w.trace ++ es ∧
        ∀ k, Event.dial p k ∈ es → scanLock p false es = none) := by
  refine ⟨fun h => ?_, createConn_dials_locked p w w1⟩
  rcases h with h | h | h | h | h | h | h
  · exact paired_lockFree (paired_Get p) q w w1 h
  · exact paired_lockFree (paired_RecycleWith _ (paired_closeConn fuel) p c) q w w1 h
  · exact paired_lockFree (paired_Destroy fuel p c) q w w1 h
  · exact paired_lockFree (paired_Len p) q w w1 h
  · exact paired_lockFree (paired_IsValid p) q w w1 h
  · exact paired_lockFree (paired_closeConn fuel (NetConn.conn a inner)) q w w1 h
  · exact paired_lockFree (paired_Terminate fuel a inner) q w w1 h

/-- `Terminate` on the wrapper lent in `lentWorld`, which ends in `orphanWorld`; and
`createConn` on the pool that `CreatePool(2, dialRaw)` has just allocated. -/
theorem no_close_under_lock_witness :
    (∃ es, orphanWorld.trace = lentWorld.trace ++ es ∧ scanLock 0 false es = some false) ∧
    ∃ w1 : World,
      Res.endsIn (ConnPool.createConn 0 (freshWorld world0 2 dialRaw)) w1 ∧
      ∃ es, w1.trace = (freshWorld world0 2 dialRaw).trace ++ es ∧
        ∀ k, Event.dial 0 k ∈ es → scanLock 0 false es = none :=
  have he := createConn_ok 0 (freshWorld world0 2 dialRaw) rfl (by decide) rfl
  ⟨(no_close_under_lock 1 0 0 0 NetConn.nil (NetConn.raw 0) lentWorld orphanWorld).1
      (Or.inr (Or.inr (Or.inr (Or.inr (Or.inr (Or.inr (Or.inl ⟨none, lentWorld_terminate⟩))))))),
    _, Or.inl ⟨_, he⟩,
    (no_close_under_lock 1 0 0 0 NetConn.nil (NetConn.raw 0) (freshWorld world0 2 dialRaw) _).2
      (Or.inl ⟨_, he⟩)⟩

/-- C19: on a shut pool `Get`, `Recycle c`, `Destroy c` and `Close` return their error and
change nothing but the trace, to which only the lock and unlock of `IsValid` are added: the
channel, `cnt` and `valid` are as before and `c` is not closed. Hence `Close` and
`Terminate` on a wrapper bound to the pool return that error with no connection closed and
the wrapper's field `pool` still set. -/
theorem closed_pool_fails_atomically (w : World) (p : Nat) (hshut : Shut w p) :
    ConnPool.Get p w = Res.ret (NetConn.nil, some "Invalid Pool")
      { w with trace := w.trace ++ [Event.lock p, Event.unlock p] } ∧
    (∀ fuel c, ConnPool.Recycle fuel p c w = Res.ret (some "Invalid Pool")
      { w with trace := w.trace ++ [Event.lock p, Event.unlock p] }) ∧
    (∀ fuel c, ConnPool.Destroy fuel p c w = Res.ret (some "Closed Pool")
      { w with trace := w.trace ++ [Event.lock p, Event.unlock p] }) ∧
    (∀ fuel, ConnPool.Close fuel p w = Res.ret (some "Invalid Pool")
      { w with trace := w.trace ++ [Event.lock p, Event.unlock p] }) ∧
    (∀ fuel a inner, w.poolOf a = some p →
      Conn.Close (fuel + 1) a inner w = Res.ret (some "Invalid Pool")
        { w with trace := w.trace ++ [Event.lock p, Event.unlock p] } ∧
      Conn.Terminate fuel a inner w = Res.ret (some "Closed Pool")
        { w with trace := w.trace ++ [Event.lock p, Event.unlock p] }) ∧
    (∀ id, (w.trace ++ [Event.lock p, Event.unlock p]).count (Event.close id) =
      w.trace.count (Event.close id)) := by
  obtain ⟨hv, hl⟩ := hshut
  refine ⟨Get_invalid p w hv hl, fun fuel c => RecycleWith_invalid _ p c w hv hl,
    fun fuel c => Destroy_invalid fuel p c w hv hl, fun fuel => Close_invalid fuel p w hv hl,
    fun fuel a inner ha => ⟨?_, ?_⟩, fun id => by simp [List.count_append, List.count_cons]⟩
  · rw [Conn_Close_bound fuel a p inner w ha]
    exact RecycleWith_invalid _ p inner w hv hl
  · rw [Terminate_bound fuel a p inner w ha, Destroy_invalid fuel p inner w hv hl]

/-- The pool of `shutWorld` and a wrapper of connection 0 that is bound to it. -/
theorem closed_pool_fails_atomically_witness :
    Shut shutWorld 0 ∧
    Conn.Terminate 1 0 (NetConn.raw 0)
        { shutWorld with poolOf := Function.update shutWorld.poolOf 0 (some 0) } =
      Res.ret (some "Closed Pool")
        { shutWorld with
          poolOf := Function.update shutWorld.poolOf 0 (some 0)
          trace := shutWorld.trace ++ [Event.lock 0, Event.unlock 0] } :=
  ⟨⟨rfl, rfl⟩,
    ((closed_pool_fails_atomically
      { shutWorld with poolOf := Function.update shutWorld.poolOf 0 (some 0) } 0
      ⟨rfl, rfl⟩).2.2.2.2.1 1 0 (NetConn.raw 0) rfl).2⟩

/-- C20 (as stated) fails: after `CreatePool(2, dialRaw)` and two `Get`s, calling `Close`
twice on the first wrapper makes the channel hold connection 0 twice. -/
theorem double_close_duplicates :
    CreatePool 2 dialRaw world0 = Res.ret (some 0, none) liveWorld ∧
    ConnPool.Get 0 liveWorld = Res.ret (NetConn.conn 0 (NetConn.raw 0), none) lentWorld ∧
    ConnPool.Get 0 lentWorld = Res.ret (NetConn.conn 1 (NetConn.raw 1), none) emptyWorld ∧
    Conn.Close 1 0 (NetConn.raw 0) emptyWorld =
      Res.ret none (recycled 0 (NetConn.raw 0) emptyWorld) ∧
    Conn.Close 1 0 (NetConn.raw 0) (recycled 0 (NetConn.raw 0) emptyWorld) =
      Res.ret none (recycled 0 (NetConn.raw 0) (recycled 0 (NetConn.raw 0) emptyWorld)) ∧
    ((recycled 0 (NetConn.raw 0) (recycled 0 (NetConn.raw 0) emptyWorld)).pools 0).conns =
      [NetConn.raw 0, NetConn.raw 0] ∧
    ¬ ((recycled 0 (NetConn.raw 0) (recycled 0 (NetConn.raw 0) emptyWorld)).pools 0).conns.Nodup := by
  refine ⟨liveWorld_created, liveWorld_get, lentWorld_get, emptyWorld_close,
    emptyWorld_close_again, ?_, ?_⟩
  · simp [recycled, emptyWorld]
  · simp [recycled, emptyWorld]

/-- C20 (amended): let `CreatePool n f` succeed with a factory whose first `n` results are
pairwise distinct foreign connections. In every state reached by a finite sequence of `Get`,
wrapper `Close` and wrapper `Terminate` calls in which `Close` and `Terminate` are only
called on wrappers that `Get` has returned and that have not been closed or terminated
before, the channel holds no connection twice, and no connection is both idle and lent or
lent through two wrappers. -/
theorem lending_is_exclusive (w w1 w2 : World) (p : Nat) (n : Int)
    (f : Nat → NetConn × Option Err) (fuel : Nat) (calls : List Lend)
    (out : List (Nat × NetConn))
    (hraw : ∀ k : Nat, (k : Int) < n → ∃ id, f k = (NetConn.raw id, none))
    (hdist : ((List.range n.toNat).map (fun k => (f k).1)).Nodup)
    (hcreate : CreatePool n f w = Res.ret (some p, none) w1)
    (hrun : lendRun fuel p calls (w1, []) = some (w2, out)) :
    (w2.pools p).conns.Nodup ∧ ((w2.pools p).conns ++ out.map Prod.snd).Nodup := by
  have h := lending_run fuel p calls w1 w2 [] out
    (lending_created w w1 p n f hraw hdist hcreate) hrun
  exact ⟨(List.nodup_append.mp h.distinct).1, h.distinct⟩

/-- `CreatePool(2, dialRaw)`, two `Get`s and `Close` on the first wrapper: connection 0 is
idle again and connection 1 is lent. -/
theorem lending_is_exclusive_witness :
    CreatePool 2 dialRaw world0 = Res.ret (some 0, none) liveWorld ∧
    lendRun 1 0 [Lend.get, Lend.get, Lend.close 0 (NetConn.raw 0)] (liveWorld, []) =
      some (recycled 0 (NetConn.raw 0) emptyWorld, [(1, NetConn.raw 1)]) ∧
    ((recycled 0 (NetConn.raw 0) emptyWorld).pools 0).conns.Nodup ∧
    (((recycled 0 (NetConn.raw 0) emptyWorld).pools 0).conns ++
      [(1, NetConn.raw 1)].map Prod.snd).Nodup :=
  ⟨liveWorld_created, liveWorld_lend,
    lending_is_exclusive world0 liveWorld (recycled 0 (NetConn.raw 0) emptyWorld) 0 2 dialRaw 1
      [Lend.get, Lend.get, Lend.close 0 (NetConn.raw 0)] [(1, NetConn.raw 1)]
      (fun k _ => ⟨k, rfl⟩) (by decide) liveWorld_created liveWorld_lend⟩

end Netpool
